import Mathlib

/-!
# ICPC scoreboard system: embedding of `src/main.cpp`

The C++ program keeps a `map<string, Team>`; each team keeps a
`map<char, ProblemStatus>`.  Both maps are embedded as association lists
whose writes go through `mapSet` (assign when the key is present, insert at
the ordered position otherwise), so that a map built from the empty map lists
its keys in ascending order, the order in which `std::map` iterates.

* `int` is embedded as `Int`.  Signed overflow is undefined behaviour in C++
  and is outside this model.
* `char` is embedded as the character code (`Nat`); `problem[0]` of an empty
  `std::string` is the terminating `'\0'`, code `0`.  The order of `char` is the order of
  the codes, which is the order of C++ for the codes 0 to 127 whatever the signedness of
  `char`.
* `std::string` is embedded as `String`, a sequence of characters, which for ASCII text
  is the byte sequence of C++; `<` on strings is lexicographic (`str_less`).
* Text written to `cout` is embedded as the list of lines written.
* The `while (true)` loop of `scroll` is embedded with fuel: `none` means the
  loop did not finish within the given number of iterations.
-/

namespace ICPC

/-! ## Ordered maps -/

section OrderedMap

variable {κ : Type} {α : Type}

/-- The value stored under key `k` (`std::map::find`). -/
def mapFind [DecidableEq κ] : List (κ × α) → κ → Option α
  | [], _ => none
  | (k', v) :: rest, k => if k' = k then some v else mapFind rest k

/-- Assign `v` to the entry with key `k`. -/
def mapReplace [DecidableEq κ] (k : κ) (v : α) : List (κ × α) → List (κ × α)
  | [] => []
  | (k', v') :: rest => if k' = k then (k, v) :: rest else (k', v') :: mapReplace k v rest

/-- Insert a fresh entry at its position in the key order `lt`. -/
def mapInsertNew (lt : κ → κ → Bool) (k : κ) (v : α) : List (κ × α) → List (κ × α)
  | [] => [(k, v)]
  | (k', v') :: rest =>
    if lt k k' then (k, v) :: (k', v') :: rest else (k', v') :: mapInsertNew lt k v rest

/-- The effect of `m[k] = v` on a `std::map` ordered by `lt`: assign when `k` is present,
insert otherwise. -/
def mapSet [DecidableEq κ] (lt : κ → κ → Bool) (m : List (κ × α)) (k : κ) (v : α) :
    List (κ × α) :=
  if (mapFind m k).isSome then mapReplace k v m else mapInsertNew lt k v m

/-- The keys of a map, in iteration order. -/
def mapKeys (m : List (κ × α)) : List κ := m.map Prod.fst

end OrderedMap

/-! ## String order -/

/-- Lexicographic comparison of two character sequences by character code. -/
def chars_less : List Char → List Char → Bool
  | [], [] => false
  | [], _ :: _ => true
  | _ :: _, [] => false
  | a :: as, b :: bs =>
    if a.toNat < b.toNat then true
    else if b.toNat < a.toNat then false
    else chars_less as bs

/-- The order `a < b` of `std::string`. -/
def str_less (a b : String) : Bool := chars_less a.data b.data

/-- The order `a < b` of `char` keys. -/
def char_less (a b : Nat) : Bool := decide (a < b)

/-! ## Sorting -/

/-- Insert `a` behind every element that `comp` puts strictly before it. -/
def insertSorted {α : Type} (comp : α → α → Bool) (a : α) : List α → List α
  | [] => [a]
  | b :: l => if comp b a then b :: insertSorted comp a l else a :: b :: l

/-- Stable sort by the strict comparator `comp` (`std::stable_sort`, `std::sort`). -/
def stable_sort {α : Type} (comp : α → α → Bool) (l : List α) : List α :=
  l.foldr (insertSorted comp) []

/-! ## Data model -/

/-- One logged submission (`struct Submission`). -/
structure Submission where
  problem : String
  status : String
  time : Int
deriving DecidableEq

/-- Per team, per problem record (`struct ProblemStatus`). -/
structure ProblemStatus where
  solved : Bool := false
  solve_time : Int := 0
  wrong_before_solve : Int := 0
  wrong_count : Int := 0
  frozen : Bool := false
  frozen_count : Int := 0
  wrong_before_freeze : Int := 0
  first_ac_time_in_freeze : Int := -1
  wrongs_before_ac_in_freeze : Int := 0
  total_wrongs_in_freeze : Int := 0
deriving DecidableEq

instance : Inhabited ProblemStatus := ⟨{}⟩

/-- Team record (`struct Team`). -/
structure Team where
  name : String := ""
  problems : List (Nat × ProblemStatus) := []
  submissions : List Submission := []
  solved_count : Int := 0
  penalty_time : Int := 0
  ranking : Int := 0
  solve_times : List Int := []
  sorted_solve_times : List Int := []
deriving DecidableEq

instance : Inhabited Team := ⟨{}⟩

/-- The member `Team::update_sorted_times`: copy the solve times and sort them descending. -/
def Team.update_sorted_times (t : Team) : Team :=
  { t with sorted_solve_times := stable_sort (fun a b => decide (b < a)) t.solve_times }

/-- The state of `class ICPCSystem`. -/
structure ICPCSystem where
  teams : List (String × Team) := []
  team_order : List String := []
  started : Bool := false
  frozen : Bool := false
  duration_time : Int := 0
  problem_count : Int := 0
deriving DecidableEq

instance : Inhabited ICPCSystem := ⟨{}⟩

/-- The team read through `teams[name]`: the stored record, or a fresh `Team` when absent. -/
def getTeam (teams : List (String × Team)) (name : String) : Team :=
  (mapFind teams name).getD {}

/-- The record read through `t.problems[prob]`: the stored one, or a fresh one when absent. -/
def getProblem (problems : List (Nat × ProblemStatus)) (prob : Nat) : ProblemStatus :=
  (mapFind problems prob).getD {}

/-- The key `problem[0]` of a submission's problem string. -/
def probKey (problem : String) : Nat :=
  match problem.data with
  | [] => 0
  | c :: _ => c.toNat

/-! ## Ranking -/

/-- The loop over `i < min_size` of the comparator: the first position at which the two
lists differ, if there is one within the shorter length. -/
def firstDiff : List Int → List Int → Option (Int × Int)
  | x :: xs, y :: ys => if x ≠ y then some (x, y) else firstDiff xs ys
  | _, _ => none

/-- The comparator lambda of `update_scoreboard`: does team `a` go before team `b`? -/
def team_less (teams : List (String × Team)) (a b : String) : Bool :=
  let ta := getTeam teams a
  let tb := getTeam teams b
  if ta.solved_count ≠ tb.solved_count then decide (ta.solved_count > tb.solved_count)
  else if ta.penalty_time ≠ tb.penalty_time then decide (ta.penalty_time < tb.penalty_time)
  else
    match firstDiff ta.sorted_solve_times tb.sorted_solve_times with
    | some (x, y) => decide (x < y)
    | none => str_less a b

/-- The loop `teams[team_order[i]].ranking = i + 1`, started at index `i`. -/
def assign_rankings : List String → Nat → List (String × Team) → List (String × Team)
  | [], _, teams => teams
  | n :: rest, i, teams =>
    assign_rankings rest (i + 1)
      (mapSet str_less teams n { getTeam teams n with ranking := (i : Int) + 1 })

/-- The private member `update_scoreboard`. -/
def update_scoreboard (s : ICPCSystem) : ICPCSystem :=
  let order := stable_sort (team_less s.teams) (mapKeys s.teams)
  { s with team_order := order, teams := assign_rankings order 0 s.teams }

/-! ## Output -/

/-- The cell printed for problem number `i` (letter `'A' + i`, code `65 + i`) of team `t`. -/
def print_cell (t : Team) (i : Nat) : String :=
  match mapFind t.problems (65 + i) with
  | none => "."
  | some ps =>
    if !ps.solved && ps.wrong_count == 0 && !ps.frozen then "."
    else if ps.frozen then
      if ps.wrong_before_freeze == 0 then "0/" ++ toString ps.frozen_count
      else "-" ++ toString ps.wrong_before_freeze ++ "/" ++ toString ps.frozen_count
    else if ps.solved then
      if ps.wrong_before_solve == 0 then "+"
      else "+" ++ toString ps.wrong_before_solve
    else "-" ++ toString ps.wrong_count

/-- One line of the scoreboard. -/
def print_row (s : ICPCSystem) (team_name : String) : String :=
  let t := getTeam s.teams team_name
  (List.range s.problem_count.toNat).foldl (fun line i => line ++ " " ++ print_cell t i)
    (team_name ++ " " ++ toString t.ranking ++ " " ++ toString t.solved_count ++ " "
      ++ toString t.penalty_time)

/-- The private member `print_scoreboard`: one line per team of `team_order`. -/
def print_scoreboard (s : ICPCSystem) : List String :=
  s.team_order.map (print_row s)

/-! ## Commands -/

/-- The member `add_team`. -/
def add_team (s : ICPCSystem) (name : String) : ICPCSystem × List String :=
  if s.started then (s, ["[Error]Add failed: competition has started."])
  else if (mapFind s.teams name).isSome then (s, ["[Error]Add failed: duplicated team name."])
  else ({ s with teams := mapSet str_less s.teams name { name := name } }, ["[Info]Add successfully."])

/-- The member `start`. -/
def start (s : ICPCSystem) (dur prob_count : Int) : ICPCSystem × List String :=
  if s.started then (s, ["[Error]Start failed: competition has started."])
  else
    let order := stable_sort str_less (mapKeys s.teams)
    ({ s with
        started := true
        duration_time := dur
        problem_count := prob_count
        team_order := order
        teams := assign_rankings order 0 s.teams },
      ["[Info]Competition starts."])

/-- The accounting part of `submit` on the team record, after the log append:
`frozen` is the global mode. -/
def submit_team (frozen : Bool) (t : Team) (prob : Nat) (status : String) (time : Int) : Team :=
  let ps := getProblem t.problems prob
  if !frozen || ps.solved then
    if status = "Accepted" && !ps.solved then
      Team.update_sorted_times
        { t with
          problems := mapSet char_less t.problems prob
            { ps with solved := true, solve_time := time, wrong_before_solve := ps.wrong_count }
          solved_count := t.solved_count + 1
          penalty_time := t.penalty_time + (20 * ps.wrong_count + time)
          solve_times := t.solve_times ++ [time] }
    else if status ≠ "Accepted" then
      { t with problems := mapSet char_less t.problems prob { ps with wrong_count := ps.wrong_count + 1 } }
    else { t with problems := mapSet char_less t.problems prob ps }
  else
    if !ps.solved then
      let ps1 : ProblemStatus :=
        if !ps.frozen then { ps with frozen := true, wrong_before_freeze := ps.wrong_count }
        else ps
      let ps2 : ProblemStatus := { ps1 with frozen_count := ps1.frozen_count + 1 }
      let ps3 : ProblemStatus :=
        if status = "Accepted" && ps2.first_ac_time_in_freeze = -1 then
          { ps2 with
            first_ac_time_in_freeze := time
            wrongs_before_ac_in_freeze := ps2.total_wrongs_in_freeze }
        else if status ≠ "Accepted" && ps2.first_ac_time_in_freeze = -1 then
          { ps2 with total_wrongs_in_freeze := ps2.total_wrongs_in_freeze + 1 }
        else ps2
      { t with problems := mapSet char_less t.problems prob ps3 }
    else { t with problems := mapSet char_less t.problems prob ps }

/-- The member `submit`.  `teams[team_name]` creates the team when it is absent, and
`t.problems[prob]` creates the problem record when it is absent. -/
def submit (s : ICPCSystem) (problem team_name status : String) (time : Int) : ICPCSystem :=
  let t := getTeam s.teams team_name
  let t1 : Team := { t with submissions := t.submissions ++ [⟨problem, status, time⟩] }
  { s with teams := mapSet str_less s.teams team_name (submit_team s.frozen t1 (probKey problem) status time) }

/-- The member `flush`. -/
def flush (s : ICPCSystem) : ICPCSystem × List String :=
  (update_scoreboard s, ["[Info]Flush scoreboard."])

/-- The member `freeze_scoreboard`. -/
def freeze_scoreboard (s : ICPCSystem) : ICPCSystem × List String :=
  if s.frozen then (s, ["[Error]Freeze failed: scoreboard has been frozen."])
  else ({ s with frozen := true }, ["[Info]Freeze scoreboard."])

/-! ## Scroll -/

/-- The inner loop setting `has_frozen`. -/
def has_frozen (t : Team) : Bool :=
  t.problems.any (fun p => p.2.frozen)

/-- The scan `for (i = team_order.size() - 1; i >= 0; i--)`: the value of `lowest_team`
after it, which is `""` when no team has a frozen problem.  All names of `team_order`
are keys of `teams` here, so the reads `teams[team_order[i]]` insert nothing. -/
def find_lowest (s : ICPCSystem) : String :=
  (s.team_order.reverse.find? (fun n => has_frozen (getTeam s.teams n))).getD ""

/-- The value of `smallest_prob` after its loop; it starts at `'Z' + 1`, code 91. -/
def find_smallest (t : Team) : Nat :=
  t.problems.foldl (fun sp p => if p.2.frozen && decide (p.1 < sp) then p.1 else sp) 91

/-- Lines 274 to 298: reveal problem `prob` of team `t`.  The flag is `stats_changed`. -/
def reveal (t : Team) (prob : Nat) : Team × Bool :=
  let ps := getProblem t.problems prob
  let cleared (p : ProblemStatus) : ProblemStatus :=
    { p with
      frozen := false
      frozen_count := 0
      first_ac_time_in_freeze := -1
      wrongs_before_ac_in_freeze := 0
      total_wrongs_in_freeze := 0 }
  if ps.first_ac_time_in_freeze ≠ -1 then
    let ps1 : ProblemStatus :=
      { ps with
        solved := true
        solve_time := ps.first_ac_time_in_freeze
        wrong_before_solve := ps.wrong_before_freeze + ps.wrongs_before_ac_in_freeze }
    (Team.update_sorted_times
      { t with
        problems := mapSet char_less t.problems prob (cleared ps1)
        solved_count := t.solved_count + 1
        penalty_time := t.penalty_time
          + (20 * (ps.wrong_before_freeze + ps.wrongs_before_ac_in_freeze)
              + ps.first_ac_time_in_freeze)
        solve_times := t.solve_times ++ [ps.first_ac_time_in_freeze] }, true)
  else
    let ps1 : ProblemStatus :=
      { ps with wrong_count := ps.wrong_before_freeze + ps.total_wrongs_in_freeze }
    ({ t with problems := mapSet char_less t.problems prob (cleared ps1) }, false)

/-- A rank-change line written by `scroll`. -/
structure RankChange where
  team : String
  replaced : String
  solved_count : Int
  penalty_time : Int
deriving DecidableEq

/-- The text of a rank-change line. -/
def RankChange.render (e : RankChange) : String :=
  e.team ++ " " ++ e.replaced ++ " " ++ toString e.solved_count ++ " " ++ toString e.penalty_time

/-- The lookup of `replaced_team` after the scoreboard was updated; `ranking` is the
revealed team's new rank. -/
def find_replaced (s : ICPCSystem) (lowest_team : String) (ranking : Int) : String :=
  let replaced_team :=
    (s.team_order.find?
      (fun name => name ≠ lowest_team && (getTeam s.teams name).ranking = ranking + 1)).getD ""
  if replaced_team = "" && (0 ≤ ranking && ranking < (s.team_order.length : Int)) then
    s.team_order.getD ranking.toNat ""
  else replaced_team

/-- The state after line 298 of an iteration that did not break: the selected problem
of the selected team is revealed, the ranking is not yet recomputed. -/
def reveal_state (s : ICPCSystem) : ICPCSystem :=
  let lowest_team := find_lowest s
  let t := getTeam s.teams lowest_team
  { s with teams := mapSet str_less s.teams lowest_team (reveal t (find_smallest t)).1 }

/-- One iteration of the `while (true)` loop of `scroll`: `none` when the loop breaks,
otherwise the state after the iteration and the rank-change line it wrote, if any. -/
def scroll_step (s : ICPCSystem) : Option (ICPCSystem × Option RankChange) :=
  let lowest_team := find_lowest s
  if lowest_team = "" then none
  else
    let t := getTeam s.teams lowest_team
    let smallest_prob := find_smallest t
    let old_rank := t.ranking
    let s1 := reveal_state s
    if (reveal t smallest_prob).2 then
      let s2 := update_scoreboard s1
      let t2 := getTeam s2.teams lowest_team
      if t2.ranking < old_rank then
        some (s2, some
          { team := lowest_team
            replaced := find_replaced s2 lowest_team t2.ranking
            solved_count := t2.solved_count
            penalty_time := t2.penalty_time })
      else some (s2, none)
    else some (s1, none)

/-- The `while (true)` loop of `scroll`, run for at most `fuel` iterations. -/
def scroll_loop : Nat → ICPCSystem → Option (ICPCSystem × List RankChange)
  | 0, _ => none
  | fuel + 1, s =>
    match scroll_step s with
    | none => some (s, [])
    | some (s', ev) =>
      match scroll_loop fuel s' with
      | none => none
      | some (s'', evs) => some (s'', ev.toList ++ evs)

/-- The member `scroll`. -/
def scroll (fuel : Nat) (s : ICPCSystem) : Option (ICPCSystem × List String) :=
  if !s.frozen then some (s, ["[Error]Scroll failed: scoreboard has not been frozen."])
  else
    let s1 := update_scoreboard s
    match scroll_loop fuel s1 with
    | none => none
    | some (s2, evs) =>
      some ({ s2 with frozen := false },
        ["[Info]Scroll scoreboard."] ++ print_scoreboard s1 ++ evs.map RankChange.render
          ++ print_scoreboard s2)

/-! ## Queries -/

/-- The member `query_ranking`. -/
def query_ranking (s : ICPCSystem) (team_name : String) : List String :=
  if (mapFind s.teams team_name).isNone then
    ["[Error]Query ranking failed: cannot find the team."]
  else
    ["[Info]Complete query ranking."]
      ++ (if s.frozen then
            ["[Warning]Scoreboard is frozen. The ranking may be inaccurate until it were scrolled."]
          else [])
      ++ [team_name ++ " NOW AT RANKING " ++ toString (getTeam s.teams team_name).ranking]

/-- The test `match` of `query_submission` for one logged submission. -/
def sub_matches (problem status : String) (sub : Submission) : Bool :=
  !(problem ≠ "ALL" && sub.problem ≠ problem) && !(status ≠ "ALL" && sub.status ≠ status)

/-- The scan of `query_submission` from the newest submission to the oldest. -/
def find_submission (subs : List Submission) (problem status : String) : Option Submission :=
  subs.reverse.find? (sub_matches problem status)

/-- The member `query_submission`. -/
def query_submission (s : ICPCSystem) (team_name problem status : String) : List String :=
  if (mapFind s.teams team_name).isNone then
    ["[Error]Query submission failed: cannot find the team."]
  else
    ["[Info]Complete query submission."]
      ++ (match find_submission (getTeam s.teams team_name).submissions problem status with
          | some sub =>
            [team_name ++ " " ++ sub.problem ++ " " ++ sub.status ++ " " ++ toString sub.time]
          | none => ["Cannot find any submission."])

/-! ## Command sequences -/

/-- The commands dispatched by `main`. -/
inductive Cmd where
  | add_team (name : String)
  | start (dur prob_count : Int)
  | submit (problem team_name status : String) (time : Int)
  | flush
  | freeze
  | scroll
  | query_ranking (team_name : String)
  | query_submission (team_name problem status : String)
deriving DecidableEq

/-- Run one command; `none` when a scroll does not finish within `fuel` iterations. -/
def exec (fuel : Nat) (s : ICPCSystem) : Cmd → Option (ICPCSystem × List String)
  | .add_team name => some (add_team s name)
  | .start dur prob_count => some (start s dur prob_count)
  | .submit problem team_name status time => some (submit s problem team_name status time, [])
  | .flush => some (flush s)
  | .freeze => some (freeze_scoreboard s)
  | .scroll => scroll fuel s
  | .query_ranking team_name => some (s, query_ranking s team_name)
  | .query_submission team_name problem status =>
    some (s, query_submission s team_name problem status)

/-- Run a sequence of commands from state `s`. -/
def run (fuel : Nat) : ICPCSystem → List Cmd → Option ICPCSystem
  | s, [] => some s
  | s, c :: cs =>
    match exec fuel s c with
    | none => none
    | some (s', _) => run fuel s' cs

/-- The states between operations: those reached from the empty system by a sequence of
commands all of which complete. -/
def Reachable (s : ICPCSystem) : Prop :=
  ∃ (fuel : Nat) (cmds : List Cmd), run fuel {} cmds = some s

/-- The states the program passes through: the states between commands, the state after
each call of `update_scoreboard`, and inside the scroll loop the state after each reveal,
before and after the ranking is recomputed. -/
inductive Visited : ICPCSystem → Prop where
  | init : Visited {}
  | cmd (fuel : Nat) (s : ICPCSystem) (c : Cmd) (s' : ICPCSystem) (out : List String) :
      Visited s → exec fuel s c = some (s', out) → Visited s'
  | ranked (s : ICPCSystem) : Visited s → Visited (update_scoreboard s)
  | revealed (s : ICPCSystem) : Visited s → find_lowest s ≠ "" → Visited (reveal_state s)

/-! ## Auxiliary notions used in the statements -/

/-- The last two steps of the comparator: solve times, then names. -/
def tie_break (xs ys : List Int) (a b : String) : Bool :=
  match firstDiff xs ys with
  | some (x, y) => decide (x < y)
  | none => str_less a b

/-- A team record whose list of sorted solve times is as long as its solved count. -/
def shaped (t : Team) : Prop := (t.sorted_solve_times.length : Int) = t.solved_count

instance : DecidablePred shaped := fun t => by unfold shaped; infer_instance

/-- The problem record of team `name` for the problem with key `prob`. -/
def problemOf (s : ICPCSystem) (name : String) (prob : Nat) : ProblemStatus :=
  getProblem (getTeam s.teams name).problems prob

/-- A team record whose solve-time lists are as long as its solved count. -/
def TeamOk (t : Team) : Prop :=
  (t.solve_times.length : Int) = t.solved_count
    ∧ t.sorted_solve_times.length = t.solve_times.length

/-- The invariant behind the ranking: team names are pairwise distinct keys and every team
record is `TeamOk`. -/
def RankInv (s : ICPCSystem) : Prop :=
  (mapKeys s.teams).Nodup ∧ ∀ n, TeamOk (getTeam s.teams n)

/-- The scenario of the spec: teams `A` and `B`, one problem; `A` is wrong at 10 and
accepted at 20, `B` is accepted at 5. -/
def scenario_AB : List Cmd :=
  [.add_team "A", .add_team "B", .start 300 1,
   .submit "A" "A" "Wrong_Answer" 10, .submit "A" "A" "Accepted" 20,
   .submit "A" "B" "Accepted" 5]

/-- The state after the commands of `scenario_AB`. -/
def state_AB : ICPCSystem := (run 0 {} scenario_AB).getD {}

/-- The penalty a problem record contributes: `20 * wrong_before_solve + solve_time` when
it is solved, nothing otherwise. -/
def penalty_of (ps : ProblemStatus) : Int :=
  if ps.solved then 20 * ps.wrong_before_solve + ps.solve_time else 0

/-- The sum of `20 * wrong_before_solve + solve_time` over the solved problems of a team. -/
def penalty_sum (problems : List (Nat × ProblemStatus)) : Int :=
  ((problems.filter (fun e => e.2.solved)).map
    (fun e => 20 * e.2.wrong_before_solve + e.2.solve_time)).sum

/-- The number of problems of a team with `solved = true`. -/
def solved_number (problems : List (Nat × ProblemStatus)) : Nat :=
  (problems.filter (fun e => e.2.solved)).length

/-- Is `x` a submission for the problem with key `p` with a verdict other than Accepted? -/
def is_wrong_for (p : Nat) (x : Submission) : Bool :=
  decide (probKey x.problem = p) && decide (x.status ≠ "Accepted")

/-- Team `team_name` makes the submissions `subs`, in order. -/
def submit_all (s : ICPCSystem) (team_name : String) (subs : List Submission) : ICPCSystem :=
  subs.foldl (fun st x => submit st x.problem team_name x.status x.time) s

/-- What the submissions `subs`, made by one team while the scoreboard is not frozen, have
done to the team record `t`. -/
def UnfrozenInv (subs : List Submission) (t : Team) : Prop :=
  (∀ p : Nat,
    ((getProblem t.problems p).solved = true
        ↔ ∃ x ∈ subs, probKey x.problem = p ∧ x.status = "Accepted")
    ∧ ((getProblem t.problems p).solved = false →
        (getProblem t.problems p).wrong_count = (subs.countP (is_wrong_for p) : Int))
    ∧ (∀ (pre : List Submission) (x : Submission) (post : List Submission),
        subs = pre ++ x :: post → probKey x.problem = p → x.status = "Accepted" →
        (∀ y ∈ pre, probKey y.problem = p → y.status ≠ "Accepted") →
        (getProblem t.problems p).solve_time = x.time
        ∧ (getProblem t.problems p).wrong_before_solve = (pre.countP (is_wrong_for p) : Int)))
  ∧ t.penalty_time = penalty_sum t.problems
  ∧ t.solved_count = (solved_number t.problems : Int)

/-- A team record without accounting, whatever its rank: no problem record, no solved
problem and no penalty. -/
def FreshTeam (t : Team) : Prop :=
  t.problems = [] ∧ t.solved_count = 0 ∧ t.penalty_time = 0

/-- Every team whose submission log is empty is `FreshTeam`. -/
def FreshInv (s : ICPCSystem) : Prop :=
  ∀ n, (getTeam s.teams n).submissions = [] → FreshTeam (getTeam s.teams n)

/-- The state of the spec's scenario before the first submission: teams `A` and `B` are
registered and the contest is started with one problem. -/
def state_registered_AB : ICPCSystem := (run 0 {} (scenario_AB.take 3)).getD {}

/-- A frozen system in which team `T` has an accepted submission for problem `A` at time 5
that is still hidden, at the head of the scroll loop. -/
def state_hidden_ac : ICPCSystem :=
  update_scoreboard
    ((run 0 {} [.add_team "T", .start 300 2, .freeze, .submit "A" "T" "Accepted" 5]).getD {})

/-- A system in which team `T` has solved problem `A` at time 5. -/
def state_solved : ICPCSystem :=
  (run 0 {} [.add_team "T", .start 300 2, .submit "A" "T" "Accepted" 5]).getD {}

/-- Commands with a team whose name is the empty string: that team gets a wrong
submission while the scoreboard is frozen, then the scoreboard is scrolled. -/
def cmds_empty_name : List Cmd :=
  [.add_team "", .start 300 1, .freeze, .submit "A" "" "Wrong_Answer" 1, .scroll]

/-- Commands after which a problem of team `T` is still frozen although a scroll has
completed: the scroll stops at the team with the empty name, which ranks below `T`. -/
def cmds_skipped_reveal (verdict : String) : List Cmd :=
  [.add_team "", .add_team "T", .start 300 5,
   .submit "A" "T" "Accepted" 1,
   .freeze,
   .submit "B" "T" verdict 5,
   .submit "A" "" "Wrong_Answer" 6,
   .scroll,
   .submit "B" "T" "Accepted" 7,
   .submit "C" "" "Accepted" 8,
   .submit "D" "" "Accepted" 9,
   .submit "E" "" "Accepted" 10,
   .freeze]

/-- The state at the head of the scroll loop entered by `cmds_empty_name`. -/
def state_empty_name_head : ICPCSystem :=
  update_scoreboard ((run 0 {} (cmds_empty_name.take 4)).getD {})

/-- The state at the head of the scroll loop entered after `cmds_skipped_reveal verdict`. -/
def state_skipped_head (verdict : String) : ICPCSystem :=
  update_scoreboard ((run 1 {} (cmds_skipped_reveal verdict)).getD {})

/-- The bookkeeping of the per-problem `frozen` flag: a frozen problem is not solved, no
problem is frozen while the global mode is not frozen, and a problem that is not frozen
has its in-freeze fields at their defaults. -/
def FreezeInv (s : ICPCSystem) : Prop :=
  (∀ n p, (problemOf s n p).frozen = true → (problemOf s n p).solved = false)
  ∧ (s.frozen = false → ∀ n p, (problemOf s n p).frozen = false)
  ∧ (∀ n p, (problemOf s n p).frozen = false →
      (problemOf s n p).first_ac_time_in_freeze = -1
      ∧ (problemOf s n p).total_wrongs_in_freeze = 0
      ∧ (problemOf s n p).frozen_count = 0
      ∧ (problemOf s n p).wrongs_before_ac_in_freeze = 0)

/-- A team record whose `solved_count` is the number of its solved problems and whose
`penalty_time` is the sum of `20 * wrong_before_solve + solve_time` over them. -/
def TeamScore (t : Team) : Prop :=
  t.solved_count = (solved_number t.problems : Int) ∧ t.penalty_time = penalty_sum t.problems

/-- The scoring invariant: every team record is `TeamScore`. -/
def ScoreInv (s : ICPCSystem) : Prop :=
  ∀ n, TeamScore (getTeam s.teams n)

/-- The scoreboard lists exactly the registered teams. -/
def OrderInv (s : ICPCSystem) : Prop :=
  ∀ n, n ∈ s.team_order ↔ n ∈ mapKeys s.teams

/-- What holds at the head of every iteration of the scroll loop: the scoreboard lists each
registered team once, and the team at index `i` has rank `i + 1`. -/
def LoopInv (s : ICPCSystem) : Prop :=
  OrderInv s ∧ s.team_order.Nodup
    ∧ ∀ (i : Nat) (h : i < s.team_order.length),
        (getTeam s.teams (s.team_order.get ⟨i, h⟩)).ranking = (i : Int) + 1

/-- Every team keeps at most one record per problem key. -/
def ProblemsInv (s : ICPCSystem) : Prop :=
  ∀ n, (mapKeys (getTeam s.teams n).problems).Nodup

/-- While no accepted time is recorded in the freeze, every submission counted in
`frozen_count` was a wrong one. -/
def CountInv (s : ICPCSystem) : Prop :=
  ∀ n p, (problemOf s n p).first_ac_time_in_freeze = -1 →
    (problemOf s n p).total_wrongs_in_freeze = (problemOf s n p).frozen_count

/-- A command whose submission time, if it has one, is not negative. -/
def times_ok : Cmd → Prop
  | .submit _ _ _ time => 0 ≤ time
  | _ => True

/-- A team record with one problem, letter `A`, solved after two wrong attempts. -/
def team_plus_two : Team :=
  { problems := [(65, { solved := true, solve_time := 30, wrong_before_solve := 2 })] }

/-- Team `A` sends a wrong answer for the untouched problem `B` while the scoreboard is
frozen. -/
def state_frozen_wrong : ICPCSystem :=
  (run 0 {} [.add_team "A", .add_team "B", .start 300 2, .freeze,
    .submit "B" "A" "Wrong_Answer" 10]).getD {}

/-- The state `s` with its `started` flag set to `b`. -/
def set_started (b : Bool) (s : ICPCSystem) : ICPCSystem := { s with started := b }

/-- Team `T` is registered and the contest has not started. -/
def state_unstarted : ICPCSystem := (add_team {} "T").1

/-- Commands after which team `T` has a frozen problem `A` with one wrong submission
before the freeze and one during it. -/
def cmds_stale_snapshot : List Cmd :=
  [.add_team "T", .start 300 1, .submit "A" "T" "Wrong_Answer" 1, .freeze,
   .submit "A" "T" "Wrong_Answer" 2]

/-- The state at the head of the scroll loop entered after `cmds_stale_snapshot`. -/
def state_stale_head : ICPCSystem :=
  update_scoreboard ((run 0 {} cmds_stale_snapshot).getD {})

/-- The state after the commands `cmds` run from the empty system with `fuel` iterations
allowed to each scroll; the empty system when a scroll does not complete. -/
def state_after (fuel : Nat) (cmds : List Cmd) : ICPCSystem :=
  (run fuel {} cmds).getD {}

/-- A started contest whose only team is named by the empty string. -/
def cmds_empty_start : List Cmd := [.add_team "", .start 300 1]

/-- One wrong submission to problem `A` by the team with the empty name. -/
def cmds_empty_wrong : List Cmd := [.submit "A" "" "Wrong_Answer" 1]

/-- The number of problems of a team with `frozen = true`. -/
def frozen_number (problems : List (Nat × ProblemStatus)) : Nat :=
  (problems.filter (fun e => e.2.frozen)).length

/-- The total number of frozen problems over all teams. -/
def frozen_total (s : ICPCSystem) : Nat :=
  (s.teams.map (fun e => frozen_number e.2.problems)).sum

/-- The number of iterations of the `while (true)` loop of `scroll` that reveal a problem,
counted along `scroll_loop`; `none` when the loop does not break within `fuel` iterations. -/
def scroll_count : Nat → ICPCSystem → Option Nat
  | 0, _ => none
  | fuel + 1, s =>
    match scroll_step s with
    | none => some 0
    | some (s', _) =>
      match scroll_count fuel s' with
      | none => none
      | some k => some (k + 1)

/-- The states at the head of an iteration of the loop of `scroll`: the state after the
first `update_scoreboard()` of a scroll called between two commands in frozen mode, and
the state after every iteration that did not break. -/
inductive LoopHead : ICPCSystem → Prop where
  | enter (s : ICPCSystem) : Reachable s → s.frozen = true → LoopHead (update_scoreboard s)
  | next (s s' : ICPCSystem) (ev : Option RankChange) :
      LoopHead s → scroll_step s = some (s', ev) → LoopHead s'

/-- Every frozen problem has a letter up to `'Z'` (code 90). -/
def FrozenLetters (s : ICPCSystem) : Prop :=
  ∀ n p, (problemOf s n p).frozen = true → p ≤ 90

/-- The scoreboard is in ranking order. -/
def SortedInv (s : ICPCSystem) : Prop :=
  s.team_order.Pairwise (fun a b => team_less s.teams a b = true)

/-- Commands after which the single team `T` has two frozen problems, `A` and `B`, in a
contest started with one problem. -/
def cmds_beyond_count : List Cmd :=
  [.add_team "T", .start 300 1, .freeze, .submit "A" "T" "Wrong_Answer" 1,
   .submit "B" "T" "Wrong_Answer" 2]

/-- The check of `FrozenLetters` on the stored records. -/
def frozen_letters_ok (s : ICPCSystem) : Bool :=
  s.teams.all (fun e => e.2.problems.all (fun q => !q.2.frozen || decide (q.1 ≤ 90)))

/-- Commands after which team `B`, ranked below team `A`, has an accepted submission to
problem `A` hidden by the freeze. -/
def cmds_overtake : List Cmd :=
  [.add_team "A", .add_team "B", .start 300 1, .freeze, .submit "A" "B" "Accepted" 5]

/-- Commands after which team `T`, ranked below the team with the empty name, has an
accepted submission to problem `A` hidden by the freeze. -/
def cmds_empty_replaced : List Cmd :=
  [.add_team "", .add_team "T", .start 300 1, .freeze, .submit "A" "T" "Accepted" 5]

/-- The state at the head of the scroll loop entered after the commands `cmds`. -/
def head_after (cmds : List Cmd) : ICPCSystem :=
  update_scoreboard (state_after 0 cmds)

/-- The result of the first iteration of the scroll loop entered after the commands
`cmds`; the empty system and no event when the loop breaks at once. -/
def step_after (cmds : List Cmd) : ICPCSystem × Option RankChange :=
  (scroll_step (head_after cmds)).getD ({}, none)

/-- Two problem records that agree on what a scoreboard reports: on `solved`, on
`solve_time` and `wrong_before_solve` when solved, and on `wrong_count` when not. -/
def SameProblem (a b : ProblemStatus) : Prop :=
  a.solved = b.solved
  ∧ (a.solved = true → a.solve_time = b.solve_time ∧ a.wrong_before_solve = b.wrong_before_solve)
  ∧ (a.solved = false → a.wrong_count = b.wrong_count)

/-- The record `a` of the path that freezes against the record `b` of the path that does
not: a problem that is not frozen is reported alike, and a frozen problem holds in its
in-freeze fields what `b` has already accounted. -/
def ProbSim (a b : ProblemStatus) : Prop :=
  (a.frozen = true →
    a.solved = false
    ∧ (a.first_ac_time_in_freeze = -1 →
        b.solved = false ∧ b.wrong_count = a.wrong_before_freeze + a.total_wrongs_in_freeze)
    ∧ (a.first_ac_time_in_freeze ≠ -1 →
        b.solved = true ∧ b.solve_time = a.first_ac_time_in_freeze
        ∧ b.wrong_before_solve = a.wrong_before_freeze + a.wrongs_before_ac_in_freeze))
  ∧ (a.frozen = false → SameProblem a b)

/-- The team record `a` of the path that freezes against the record `b` of the path
that does not: the same log, the same problem keys, and `ProbSim` for every problem. -/
def TeamSim (a b : Team) : Prop :=
  a.submissions = b.submissions
  ∧ mapKeys a.problems = mapKeys b.problems
  ∧ ∀ p, ProbSim (getProblem a.problems p) (getProblem b.problems p)

/-- The state `f` of the path that freezes against the state `u` of the path that does
not, after the same submissions. -/
def Sim (f u : ICPCSystem) : Prop :=
  mapKeys f.teams = mapKeys u.teams
  ∧ ∀ n, TeamSim (getTeam f.teams n) (getTeam u.teams n)

/-- The solve times a problem record accounts for: its `solve_time` when solved. -/
def time_of (ps : ProblemStatus) : Multiset Int :=
  if ps.solved then {ps.solve_time} else 0

/-- The solve times of the solved problems of a team, without order. -/
def times_of (problems : List (Nat × ProblemStatus)) : Multiset Int :=
  (problems.map (fun e => time_of e.2)).sum

/-- A team record whose `solve_times` are the solve times of its solved problems and
whose `sorted_solve_times` is the descending sort of `solve_times`. -/
def TeamTimes (t : Team) : Prop :=
  (t.solve_times : Multiset Int) = times_of t.problems
  ∧ t.sorted_solve_times = stable_sort (fun a b => decide (b < a)) t.solve_times

/-- Every team record is `TeamTimes`. -/
def TimesInv (s : ICPCSystem) : Prop :=
  ∀ n, TeamTimes (getTeam s.teams n)

/-- A submission command by a team whose name is not empty, for a problem letter up to
`'Z'`, at a time that is not negative. -/
def submit_ok : Cmd → Prop
  | .submit problem team_name _ time => team_name ≠ "" ∧ probKey problem ≤ 90 ∧ 0 ≤ time
  | _ => False

/-- Two states with the same final result: the same team order and global mode, and for
every team the same solved count, penalty, sorted solve times, rank and submission log,
and problems that are reported alike. -/
def SameResult (a b : ICPCSystem) : Prop :=
  a.team_order = b.team_order ∧ a.frozen = b.frozen
  ∧ ∀ n, (getTeam a.teams n).solved_count = (getTeam b.teams n).solved_count
      ∧ (getTeam a.teams n).penalty_time = (getTeam b.teams n).penalty_time
      ∧ (getTeam a.teams n).sorted_solve_times = (getTeam b.teams n).sorted_solve_times
      ∧ (getTeam a.teams n).ranking = (getTeam b.teams n).ranking
      ∧ (getTeam a.teams n).submissions = (getTeam b.teams n).submissions
      ∧ ∀ p, SameProblem (problemOf a n p) (problemOf b n p)

/-! # Theorems -/

/-! ## The string order is a strict total order -/

theorem char_eq_of_toNat_eq {a b : Char} (h : a.toNat = b.toNat) : a = b := by
  apply Char.ext
  apply UInt32.ext
  exact h

theorem chars_less_irrefl (as : List Char) : chars_less as as = false := by
  induction as with
  | nil => rfl
  | cons a as ih => simp [chars_less, ih]

theorem chars_less_trans : ∀ (as bs cs : List Char),
    chars_less as bs = true → chars_less bs cs = true → chars_less as cs = true
  | [], [], _, h, _ => by simp [chars_less] at h
  | [], _ :: _, [], _, h => by simp [chars_less] at h
  | [], _ :: _, _ :: _, _, _ => by simp [chars_less]
  | _ :: _, [], _, h, _ => by simp [chars_less] at h
  | _ :: _, _ :: _, [], _, h => by simp [chars_less] at h
  | a :: as, b :: bs, c :: cs, h1, h2 => by
    have ih := chars_less_trans as bs cs
    simp only [chars_less] at h1 h2 ⊢
    by_cases hab : a.toNat < b.toNat
    · by_cases hbc : b.toNat < c.toNat
      · have : a.toNat < c.toNat := by omega
        simp [this]
      · simp only [hbc, if_false] at h2
        by_cases hcb : c.toNat < b.toNat
        · simp [hcb] at h2
        · have : a.toNat < c.toNat := by omega
          simp [this]
    · simp only [hab, if_false] at h1
      by_cases hba : b.toNat < a.toNat
      · simp [hba] at h1
      · simp only [hba, if_false] at h1
        by_cases hbc : b.toNat < c.toNat
        · have : a.toNat < c.toNat := by omega
          simp [this]
        · simp only [hbc, if_false] at h2
          by_cases hcb : c.toNat < b.toNat
          · simp [hcb] at h2
          · simp only [hcb, if_false] at h2
            have h3 : ¬ a.toNat < c.toNat := by omega
            have h4 : ¬ c.toNat < a.toNat := by omega
            simp only [h3, h4, if_false]
            exact ih h1 h2

theorem chars_less_total : ∀ (as bs : List Char), as ≠ bs →
    chars_less as bs = !chars_less bs as
  | [], [], h => absurd rfl h
  | [], _ :: _, _ => by simp [chars_less]
  | _ :: _, [], _ => by simp [chars_less]
  | a :: as, b :: bs, h => by
    simp only [chars_less]
    by_cases hab : a.toNat < b.toNat
    · have : ¬ b.toNat < a.toNat := by omega
      simp [hab, this]
    · by_cases hba : b.toNat < a.toNat
      · simp [hab, hba]
      · simp only [hab, hba, if_false]
        have hc : a = b := char_eq_of_toNat_eq (by omega)
        subst hc
        exact chars_less_total as bs (fun e => h (by rw [e]))

theorem str_less_irrefl (a : String) : str_less a a = false :=
  chars_less_irrefl a.data

theorem str_less_trans {a b c : String} (h1 : str_less a b = true) (h2 : str_less b c = true) :
    str_less a c = true :=
  chars_less_trans _ _ _ h1 h2

theorem str_less_total {a b : String} (h : a ≠ b) : str_less a b = !str_less b a :=
  chars_less_total _ _ (fun e => h (String.ext e))

theorem tie_break_nil_left (ys : List Int) (a b : String) :
    tie_break [] ys a b = str_less a b := by
  simp [tie_break, firstDiff]

theorem tie_break_nil_right (xs : List Int) (a b : String) :
    tie_break xs [] a b = str_less a b := by
  cases xs <;> simp [tie_break, firstDiff]

theorem tie_break_cons (x y : Int) (xs ys : List Int) (a b : String) :
    tie_break (x :: xs) (y :: ys) a b
      = if x = y then tie_break xs ys a b else decide (x < y) := by
  by_cases h : x = y <;> simp [tie_break, firstDiff, h]

theorem tie_break_irrefl (xs : List Int) (a : String) : tie_break xs xs a a = false := by
  induction xs with
  | nil => rw [tie_break_nil_left]; exact str_less_irrefl a
  | cons x xs ih => rw [tie_break_cons]; simp [ih]

theorem tie_break_total (a b : String) (h : a ≠ b) : ∀ (xs ys : List Int),
    tie_break xs ys a b = !tie_break ys xs b a
  | [], ys => by rw [tie_break_nil_left, tie_break_nil_right]; exact str_less_total h
  | x :: xs, [] => by rw [tie_break_nil_left, tie_break_nil_right]; exact str_less_total h
  | x :: xs, y :: ys => by
    rw [tie_break_cons, tie_break_cons]
    by_cases hxy : x = y
    · subst hxy
      simpa using tie_break_total a b h xs ys
    · have hyx : ¬ y = x := fun e => hxy e.symm
      simp only [hxy, hyx, if_false]
      by_cases hlt : x < y
      · have : ¬ y < x := by omega
        simp [hlt, this]
      · have : y < x := by omega
        simp [hlt, this]

theorem tie_break_trans (a b c : String) : ∀ (xs ys zs : List Int),
    xs.length = ys.length → ys.length = zs.length →
    tie_break xs ys a b = true → tie_break ys zs b c = true → tie_break xs zs a c = true
  | [], [], [], _, _, h1, h2 => by
    rw [tie_break_nil_left] at h1 h2 ⊢
    exact str_less_trans h1 h2
  | [], [], _ :: _, _, h, _, _ => by simp at h
  | [], _ :: _, _, h, _, _, _ => by simp at h
  | _ :: _, [], _, h, _, _, _ => by simp at h
  | _ :: _, _ :: _, [], _, h, _, _ => by simp at h
  | x :: xs, y :: ys, z :: zs, hl1, hl2, h1, h2 => by
    have ih := tie_break_trans a b c xs ys zs (by simpa using hl1) (by simpa using hl2)
    rw [tie_break_cons] at h1 h2 ⊢
    by_cases hxy : x = y
    · subst hxy
      simp only [if_true] at h1
      by_cases hxz : x = z
      · subst hxz
        simp only [if_true] at h2 ⊢
        exact ih h1 h2
      · simpa [hxz] using h2
    · simp only [hxy, if_false, decide_eq_true_eq] at h1
      by_cases hyz : y = z
      · subst hyz
        simp [hxy, h1]
      · simp only [hyz, if_false, decide_eq_true_eq] at h2
        have hxz : ¬ x = z := by omega
        have : x < z := by omega
        simp [hxz, this]

theorem team_less_eq (teams : List (String × Team)) (a b : String) :
    team_less teams a b =
      if (getTeam teams a).solved_count ≠ (getTeam teams b).solved_count then
        decide ((getTeam teams a).solved_count > (getTeam teams b).solved_count)
      else if (getTeam teams a).penalty_time ≠ (getTeam teams b).penalty_time then
        decide ((getTeam teams a).penalty_time < (getTeam teams b).penalty_time)
      else tie_break (getTeam teams a).sorted_solve_times (getTeam teams b).sorted_solve_times a b :=
  rfl

theorem team_less_irrefl (teams : List (String × Team)) (a : String) :
    team_less teams a a = false := by
  rw [team_less_eq]; simp [tie_break_irrefl]

theorem team_less_total (teams : List (String × Team)) {a b : String} (h : a ≠ b) :
    team_less teams a b = !team_less teams b a := by
  rw [team_less_eq, team_less_eq]
  by_cases hs : (getTeam teams a).solved_count = (getTeam teams b).solved_count
  · by_cases hp : (getTeam teams a).penalty_time = (getTeam teams b).penalty_time
    · simp only [hs, hp, ne_eq, not_true_eq_false, if_false]
      exact tie_break_total a b h _ _
    · have hp2 : ¬ (getTeam teams b).penalty_time = (getTeam teams a).penalty_time :=
        fun e => hp e.symm
      simp only [hs, ne_eq, not_true_eq_false, if_false, hp, hp2, not_false_eq_true, if_true]
      by_cases hlt : (getTeam teams a).penalty_time < (getTeam teams b).penalty_time
      · have : ¬ (getTeam teams b).penalty_time < (getTeam teams a).penalty_time := by omega
        simp [hlt, this]
      · have : (getTeam teams b).penalty_time < (getTeam teams a).penalty_time := by omega
        simp [hlt, this]
  · have hs2 : ¬ (getTeam teams b).solved_count = (getTeam teams a).solved_count :=
      fun e => hs e.symm
    simp only [ne_eq, hs, hs2, not_false_eq_true, if_true]
    by_cases hlt : (getTeam teams a).solved_count > (getTeam teams b).solved_count
    · have : ¬ (getTeam teams b).solved_count > (getTeam teams a).solved_count := by omega
      simp [hlt, this]
    · have : (getTeam teams b).solved_count > (getTeam teams a).solved_count := by omega
      simp [hlt, this]

theorem team_less_trans (teams : List (String × Team)) {a b c : String}
    (ha : shaped (getTeam teams a)) (hb : shaped (getTeam teams b))
    (hc : shaped (getTeam teams c))
    (h1 : team_less teams a b = true) (h2 : team_less teams b c = true) :
    team_less teams a c = true := by
  rw [team_less_eq] at h1 h2 ⊢
  unfold shaped at ha hb hc
  generalize getTeam teams a = ta at *
  generalize getTeam teams b = tb at *
  generalize getTeam teams c = tc at *
  by_cases hab : ta.solved_count = tb.solved_count
  · by_cases hbc : tb.solved_count = tc.solved_count
    · have hac : ta.solved_count = tc.solved_count := hab.trans hbc
      simp only [hab, hbc, hac, ne_eq, not_true_eq_false, if_false] at h1 h2 ⊢
      by_cases pab : ta.penalty_time = tb.penalty_time
      · by_cases pbc : tb.penalty_time = tc.penalty_time
        · have pac : ta.penalty_time = tc.penalty_time := pab.trans pbc
          simp only [pab, pbc, pac, not_true_eq_false, if_false] at h1 h2 ⊢
          have l1 : ta.sorted_solve_times.length = tb.sorted_solve_times.length := by omega
          have l2 : tb.sorted_solve_times.length = tc.sorted_solve_times.length := by omega
          exact tie_break_trans a b c _ _ _ l1 l2 h1 h2
        · simp only [pbc, not_false_eq_true, if_true, decide_eq_true_eq] at h2
          have pac : ¬ ta.penalty_time = tc.penalty_time := by omega
          simp only [pac, not_false_eq_true, if_true, decide_eq_true_eq]
          omega
      · simp only [pab, not_false_eq_true, if_true, decide_eq_true_eq] at h1
        by_cases pbc : tb.penalty_time = tc.penalty_time
        · have pac : ¬ ta.penalty_time = tc.penalty_time := by omega
          simp only [pac, not_false_eq_true, if_true, decide_eq_true_eq]
          omega
        · simp only [pbc, not_false_eq_true, if_true, decide_eq_true_eq] at h2
          have pac : ¬ ta.penalty_time = tc.penalty_time := by omega
          simp only [pac, not_false_eq_true, if_true, decide_eq_true_eq]
          omega
    · simp only [ne_eq, hbc, not_false_eq_true, if_true, decide_eq_true_eq] at h2
      have hac : ¬ ta.solved_count = tc.solved_count := by omega
      simp only [ne_eq, hac, not_false_eq_true, if_true, decide_eq_true_eq]
      omega
  · simp only [ne_eq, hab, not_false_eq_true, if_true, decide_eq_true_eq] at h1
    by_cases hbc : tb.solved_count = tc.solved_count
    · have hac : ¬ ta.solved_count = tc.solved_count := by omega
      simp only [ne_eq, hac, not_false_eq_true, if_true, decide_eq_true_eq]
      omega
    · simp only [ne_eq, hbc, not_false_eq_true, if_true, decide_eq_true_eq] at h2
      have hac : ¬ ta.solved_count = tc.solved_count := by omega
      simp only [ne_eq, hac, not_false_eq_true, if_true, decide_eq_true_eq]
      omega

/-! ## Ordered maps: reading after writing -/

section OrderedMapLemmas

variable {κ : Type} {α : Type} [DecidableEq κ]

theorem mapFind_mapReplace_self (k : κ) (v : α) : ∀ (m : List (κ × α)),
    (mapFind m k).isSome = true → mapFind (mapReplace k v m) k = some v
  | [], h => by simp [mapFind] at h
  | (k', v') :: rest, h => by
    by_cases hk : k' = k
    · simp [mapReplace, mapFind, hk]
    · simp only [mapFind, hk, if_false] at h
      simp [mapReplace, mapFind, hk, mapFind_mapReplace_self k v rest h]

theorem mapFind_mapReplace_ne (k : κ) (v : α) {k1 : κ} (hne : k1 ≠ k) :
    ∀ (m : List (κ × α)), mapFind (mapReplace k v m) k1 = mapFind m k1
  | [] => rfl
  | (k', v') :: rest => by
    by_cases hk : k' = k
    · have h1 : ¬ k = k1 := fun e => hne e.symm
      have h2 : ¬ k' = k1 := fun e => hne (e.symm.trans hk)
      simp [mapReplace, mapFind, hk, h1]
    · by_cases hk1 : k' = k1
      · subst hk1
        simp [mapReplace, mapFind, hk]
      · simp [mapReplace, mapFind, hk, hk1, mapFind_mapReplace_ne k v hne rest]

theorem mapFind_mapInsertNew_self (lt : κ → κ → Bool) (k : κ) (v : α) :
    ∀ (m : List (κ × α)), mapFind m k = none → mapFind (mapInsertNew lt k v m) k = some v
  | [], _ => by simp [mapInsertNew, mapFind]
  | (k', v') :: rest, h => by
    by_cases hk : k' = k
    · simp [mapFind, hk] at h
    · simp only [mapFind, hk, if_false] at h
      by_cases hl : lt k k' = true
      · simp [mapInsertNew, mapFind, hl]
      · simp [mapInsertNew, mapFind, hl, hk, mapFind_mapInsertNew_self lt k v rest h]

theorem mapFind_mapInsertNew_ne (lt : κ → κ → Bool) (k : κ) (v : α) {k1 : κ} (hne : k1 ≠ k) :
    ∀ (m : List (κ × α)), mapFind (mapInsertNew lt k v m) k1 = mapFind m k1
  | [] => by
    have h1 : ¬ k = k1 := fun e => hne e.symm
    simp [mapInsertNew, mapFind, h1]
  | (k', v') :: rest => by
    have h1 : ¬ k = k1 := fun e => hne e.symm
    by_cases hl : lt k k' = true
    · simp [mapInsertNew, mapFind, hl, h1]
    · by_cases hk1 : k' = k1
      · subst hk1
        simp [mapInsertNew, mapFind, hl]
      · simp [mapInsertNew, mapFind, hl, hk1, mapFind_mapInsertNew_ne lt k v hne rest]

theorem mapFind_mapSet (lt : κ → κ → Bool) (m : List (κ × α)) (k : κ) (v : α) (k1 : κ) :
    mapFind (mapSet lt m k v) k1 = if k1 = k then some v else mapFind m k1 := by
  unfold mapSet
  by_cases hk : k1 = k
  · subst hk
    by_cases hs : (mapFind m k1).isSome = true
    · simp [hs, mapFind_mapReplace_self k1 v m hs]
    · have hn : mapFind m k1 = none := by
        cases h : mapFind m k1 with
        | none => rfl
        | some x => simp [h] at hs
      simp [hs, mapFind_mapInsertNew_self lt k1 v m hn]
  · by_cases hs : (mapFind m k).isSome = true
    · simp [hs, hk, mapFind_mapReplace_ne k v hk m]
    · simp [hs, hk, mapFind_mapInsertNew_ne lt k v hk m]

theorem mem_mapKeys_iff (k : κ) : ∀ (m : List (κ × α)),
    k ∈ mapKeys m ↔ (mapFind m k).isSome = true
  | [] => by simp [mapKeys, mapFind]
  | (k', v') :: rest => by
    have ih := mem_mapKeys_iff k rest
    by_cases hk : k' = k
    · simp [mapKeys, mapFind, hk]
    · have hk2 : ¬ k = k' := fun e => hk e.symm
      simp only [mapKeys, List.map_cons, List.mem_cons, hk2, false_or, mapFind, hk, if_false]
      exact ih

theorem mapKeys_mapReplace (k : κ) (v : α) : ∀ (m : List (κ × α)),
    mapKeys (mapReplace k v m) = mapKeys m
  | [] => rfl
  | (k', v') :: rest => by
    have ih := mapKeys_mapReplace k v rest
    by_cases hk : k' = k
    · simp [mapReplace, mapKeys, hk]
    · simp only [mapKeys] at ih
      simp [mapReplace, mapKeys, hk, ih]

omit [DecidableEq κ] in
theorem mapKeys_mapInsertNew (lt : κ → κ → Bool) (k : κ) (v : α) : ∀ (m : List (κ × α)),
    List.Perm (mapKeys (mapInsertNew lt k v m)) (k :: mapKeys m)
  | [] => by simp [mapInsertNew, mapKeys]
  | (k', v') :: rest => by
    have ih := mapKeys_mapInsertNew lt k v rest
    by_cases hl : lt k k' = true
    · simp [mapInsertNew, mapKeys, hl]
    · simp only [mapKeys] at ih
      simp only [mapInsertNew, hl, mapKeys, List.map_cons, Bool.false_eq_true, if_false]
      exact (List.Perm.cons k' ih).trans (List.Perm.swap k k' _)

theorem mapKeys_mapSet_of_mem (lt : κ → κ → Bool) (m : List (κ × α)) (k : κ) (v : α)
    (h : k ∈ mapKeys m) : mapKeys (mapSet lt m k v) = mapKeys m := by
  have hs := (mem_mapKeys_iff k m).1 h
  simp [mapSet, hs, mapKeys_mapReplace]

theorem mem_mapKeys_mapSet (lt : κ → κ → Bool) (m : List (κ × α)) (k : κ) (v : α) (k1 : κ) :
    k1 ∈ mapKeys (mapSet lt m k v) ↔ k1 = k ∨ k1 ∈ mapKeys m := by
  rw [mem_mapKeys_iff, mem_mapKeys_iff, mapFind_mapSet]
  by_cases hk : k1 = k <;> simp [hk]

theorem nodup_mapKeys_mapSet (lt : κ → κ → Bool) (m : List (κ × α)) (k : κ) (v : α)
    (h : (mapKeys m).Nodup) : (mapKeys (mapSet lt m k v)).Nodup := by
  by_cases hs : (mapFind m k).isSome = true
  · simp [mapSet, hs, mapKeys_mapReplace, h]
  · have hnot : k ∉ mapKeys m := fun hm => hs ((mem_mapKeys_iff k m).1 hm)
    simp only [mapSet, hs, Bool.false_eq_true, if_false]
    exact ((mapKeys_mapInsertNew lt k v m).nodup_iff).2 (List.nodup_cons.2 ⟨hnot, h⟩)

end OrderedMapLemmas

theorem getTeam_mapSet (m : List (String × Team)) (k : String) (v : Team) (n : String) :
    getTeam (mapSet str_less m k v) n = if n = k then v else getTeam m n := by
  unfold getTeam
  rw [mapFind_mapSet]
  by_cases h : n = k <;> simp [h]

theorem getProblem_mapSet (m : List (Nat × ProblemStatus)) (k : Nat) (v : ProblemStatus)
    (p : Nat) :
    getProblem (mapSet char_less m k v) p = if p = k then v else getProblem m p := by
  unfold getProblem
  rw [mapFind_mapSet]
  by_cases h : p = k <;> simp [h]

/-! ## Submissions -/

theorem getTeam_submit (s : ICPCSystem) (problem team_name status : String) (time : Int)
    (n : String) :
    getTeam (submit s problem team_name status time).teams n =
      if n = team_name then
        submit_team s.frozen
          { getTeam s.teams team_name with
            submissions := (getTeam s.teams team_name).submissions ++ [⟨problem, status, time⟩] }
          (probKey problem) status time
      else getTeam s.teams n := by
  simp only [submit, getTeam_mapSet]

/-- Claim C6: a submission made while the global mode is frozen, on a problem that is not
solved, marks the problem frozen, snapshots `wrong_before_freeze` on the first entry only,
adds one to `frozen_count`, counts an in-freeze wrong attempt or records the first in-freeze
accepted time while none is recorded yet, touches only `frozen_count` once one is recorded,
and leaves `solved`, `wrong_count`, the solved count, the penalty and the global mode
unchanged. -/
theorem submit_frozen_accounting (s : ICPCSystem) (problem team_name status : String)
    (time : Int) (ps ps' : ProblemStatus) (t t' : Team)
    (hf : s.frozen = true) (_ht : 0 ≤ time)
    (hps : ps = problemOf s team_name (probKey problem))
    (hps' : ps' = problemOf (submit s problem team_name status time) team_name (probKey problem))
    (htm : t = getTeam s.teams team_name)
    (htm' : t' = getTeam (submit s problem team_name status time).teams team_name)
    (hu : ps.solved = false) :
    ps'.frozen = true
    ∧ ps'.wrong_before_freeze
        = (if ps.frozen = true then ps.wrong_before_freeze else ps.wrong_count)
    ∧ ps'.frozen_count = ps.frozen_count + 1
    ∧ (ps.first_ac_time_in_freeze = -1 → status ≠ "Accepted" →
        ps'.total_wrongs_in_freeze = ps.total_wrongs_in_freeze + 1
        ∧ ps'.first_ac_time_in_freeze = -1
        ∧ ps'.wrongs_before_ac_in_freeze = ps.wrongs_before_ac_in_freeze)
    ∧ (ps.first_ac_time_in_freeze = -1 → status = "Accepted" →
        ps'.first_ac_time_in_freeze = time
        ∧ ps'.wrongs_before_ac_in_freeze = ps.total_wrongs_in_freeze
        ∧ ps'.total_wrongs_in_freeze = ps.total_wrongs_in_freeze)
    ∧ (ps.first_ac_time_in_freeze ≠ -1 →
        ps'.first_ac_time_in_freeze = ps.first_ac_time_in_freeze
        ∧ ps'.wrongs_before_ac_in_freeze = ps.wrongs_before_ac_in_freeze
        ∧ ps'.total_wrongs_in_freeze = ps.total_wrongs_in_freeze)
    ∧ ps'.solved = false
    ∧ ps'.wrong_count = ps.wrong_count
    ∧ ps'.solve_time = ps.solve_time
    ∧ ps'.wrong_before_solve = ps.wrong_before_solve
    ∧ t'.solved_count = t.solved_count
    ∧ t'.penalty_time = t.penalty_time
    ∧ t'.solve_times = t.solve_times
    ∧ (submit s problem team_name status time).frozen = s.frozen
    ∧ (submit s problem team_name status time).started = s.started := by
  subst hps' htm'
  unfold problemOf at *
  rw [getTeam_submit]
  simp only [if_true, submit_team, hf]
  subst htm
  generalize getTeam s.teams team_name = t at *
  subst hps
  generalize getProblem t.problems (probKey problem) = ps at *
  simp only [hu, Bool.not_true, Bool.or_false, Bool.false_eq_true, if_false, Bool.not_false, if_true]
  simp only [getProblem_mapSet, if_true]
  by_cases h1 : ps.frozen = true <;> by_cases h2 : status = "Accepted" <;>
    by_cases h3 : ps.first_ac_time_in_freeze = -1 <;> simp [h1, h2, h3, hu, submit, hf]

/-- An instance of `submit_frozen_accounting`: team `T` sends a wrong answer for problem
`B` at time 10 into a frozen, otherwise empty system. -/
theorem submit_frozen_accounting_witness :
    (problemOf (submit { frozen := true } "B" "T" "Wrong_Answer" 10) "T" 66).frozen = true
    ∧ (problemOf (submit { frozen := true } "B" "T" "Wrong_Answer" 10) "T" 66).frozen_count = 1
    ∧ (problemOf (submit { frozen := true } "B" "T" "Wrong_Answer" 10) "T"
          66).total_wrongs_in_freeze = 1 := by
  have h := submit_frozen_accounting { frozen := true } "B" "T" "Wrong_Answer" 10
    (problemOf { frozen := true } "T" (probKey "B"))
    (problemOf (submit { frozen := true } "B" "T" "Wrong_Answer" 10) "T" (probKey "B"))
    (getTeam ({ frozen := true } : ICPCSystem).teams "T")
    (getTeam (submit { frozen := true } "B" "T" "Wrong_Answer" 10).teams "T")
    rfl (by decide) rfl rfl rfl rfl rfl
  exact ⟨h.1, h.2.2.1, (h.2.2.2.1 rfl (by decide)).1⟩

/-! ## Ranking assignment and the steps of scroll -/

theorem getTeam_assign_rankings : ∀ (order : List String) (i : Nat)
    (teams : List (String × Team)) (n : String),
    ∃ r, getTeam (assign_rankings order i teams) n = { getTeam teams n with ranking := r }
  | [], _, teams, n => ⟨(getTeam teams n).ranking, rfl⟩
  | m :: rest, i, teams, n => by
    obtain ⟨r, hr⟩ := getTeam_assign_rankings rest (i + 1)
      (mapSet str_less teams m { getTeam teams m with ranking := (i : Int) + 1 }) n
    refine ⟨r, ?_⟩
    simp only [assign_rankings]
    rw [hr, getTeam_mapSet]
    by_cases h : n = m
    · subst h; simp
    · simp [h]

theorem getTeam_assign_rankings_of_not_mem : ∀ (order : List String) (i : Nat)
    (teams : List (String × Team)) (n : String), n ∉ order →
    getTeam (assign_rankings order i teams) n = getTeam teams n
  | [], _, _, _, _ => rfl
  | m :: rest, i, teams, n, h => by
    have h1 : n ≠ m := fun e => h (by simp [e])
    have h2 : n ∉ rest := fun e => h (by simp [e])
    simp only [assign_rankings]
    rw [getTeam_assign_rankings_of_not_mem rest (i + 1) _ n h2, getTeam_mapSet]
    simp [h1]

theorem ranking_assign_rankings : ∀ (order : List String) (i : Nat)
    (teams : List (String × Team)), order.Nodup →
    ∀ (j : Nat) (h : j < order.length),
      (getTeam (assign_rankings order i teams) (order.get ⟨j, h⟩)).ranking = (i : Int) + j + 1
  | [], _, _, _, j, h => by simp at h
  | m :: rest, i, teams, hnd, j, h => by
    have hm : m ∉ rest := (List.nodup_cons.1 hnd).1
    have hr : rest.Nodup := (List.nodup_cons.1 hnd).2
    simp only [assign_rankings]
    cases j with
    | zero =>
      simp only [List.get_eq_getElem, List.getElem_cons_zero]
      rw [getTeam_assign_rankings_of_not_mem rest (i + 1) _ m hm, getTeam_mapSet]
      simp
    | succ j =>
      have h2 : j < rest.length := by simpa using h
      have ih := ranking_assign_rankings rest (i + 1)
        (mapSet str_less teams m { getTeam teams m with ranking := (i : Int) + 1 }) hr j h2
      simp only [List.get_eq_getElem, List.getElem_cons_succ] at ih ⊢
      rw [ih]
      push_cast
      ring

theorem mapKeys_assign_rankings : ∀ (order : List String) (i : Nat)
    (teams : List (String × Team)), (∀ n ∈ order, n ∈ mapKeys teams) →
    mapKeys (assign_rankings order i teams) = mapKeys teams
  | [], _, _, _ => rfl
  | m :: rest, i, teams, h => by
    have hm : m ∈ mapKeys teams := h m (by simp)
    have hk := mapKeys_mapSet_of_mem str_less teams m
      { getTeam teams m with ranking := (i : Int) + 1 } hm
    simp only [assign_rankings]
    rw [mapKeys_assign_rankings rest (i + 1) _ (fun n hn => by rw [hk]; exact h n (by simp [hn])), hk]

theorem nodup_mapKeys_assign_rankings : ∀ (order : List String) (i : Nat)
    (teams : List (String × Team)), (mapKeys teams).Nodup →
    (mapKeys (assign_rankings order i teams)).Nodup
  | [], _, _, h => h
  | m :: rest, i, teams, h => by
    simp only [assign_rankings]
    exact nodup_mapKeys_assign_rankings rest (i + 1) _ (nodup_mapKeys_mapSet _ _ _ _ h)

theorem getTeam_update_scoreboard (s : ICPCSystem) (n : String) :
    ∃ r, getTeam (update_scoreboard s).teams n = { getTeam s.teams n with ranking := r } :=
  getTeam_assign_rankings _ _ _ _

theorem problemOf_update_scoreboard (s : ICPCSystem) (n : String) (p : Nat) :
    problemOf (update_scoreboard s) n p = problemOf s n p := by
  obtain ⟨r, hr⟩ := getTeam_update_scoreboard s n
  simp [problemOf, hr]

theorem getTeam_reveal_state (s : ICPCSystem) (n : String) :
    getTeam (reveal_state s).teams n =
      if n = find_lowest s then
        (reveal (getTeam s.teams (find_lowest s))
          (find_smallest (getTeam s.teams (find_lowest s)))).1
      else getTeam s.teams n := by
  simp only [reveal_state, getTeam_mapSet]

theorem scroll_step_cases (s s' : ICPCSystem) (ev : Option RankChange)
    (h : scroll_step s = some (s', ev)) :
    find_lowest s ≠ "" ∧
      ((s' = reveal_state s ∧ ev = none ∧
          (reveal (getTeam s.teams (find_lowest s))
            (find_smallest (getTeam s.teams (find_lowest s)))).2 = false)
        ∨ (s' = update_scoreboard (reveal_state s) ∧
          (reveal (getTeam s.teams (find_lowest s))
            (find_smallest (getTeam s.teams (find_lowest s)))).2 = true)) := by
  unfold scroll_step at h
  by_cases h0 : find_lowest s = ""
  · simp [h0] at h
  · refine ⟨h0, ?_⟩
    simp only [h0, if_false] at h
    by_cases h1 : (reveal (getTeam s.teams (find_lowest s))
        (find_smallest (getTeam s.teams (find_lowest s)))).2 = true
    · right
      simp only [h1, if_true] at h
      refine ⟨?_, h1⟩
      split at h <;> simp at h <;> exact h.1.symm
    · left
      simp only [h1, Bool.false_eq_true, if_false, Option.some.injEq, Prod.mk.injEq] at h
      exact ⟨h.1.symm, h.2.symm, by simpa using h1⟩

theorem reveal_snd (t : Team) (p : Nat) :
    (reveal t p).2 = decide ((getProblem t.problems p).first_ac_time_in_freeze ≠ -1) := by
  unfold reveal
  by_cases h : (getProblem t.problems p).first_ac_time_in_freeze = -1 <;> simp [h]

theorem getProblem_reveal (t : Team) (p q : Nat) (hq : q ≠ p) :
    getProblem (reveal t p).1.problems q = getProblem t.problems q := by
  unfold reveal
  by_cases h : (getProblem t.problems p).first_ac_time_in_freeze = -1 <;>
    simp [h, Team.update_sorted_times, getProblem_mapSet, hq]

/-! ## Solved is terminal -/

theorem getProblem_submit_team_ne (frozen : Bool) (t : Team) (prob : Nat) (status : String)
    (time : Int) (q : Nat) (hq : q ≠ prob) :
    getProblem (submit_team frozen t prob status time).problems q = getProblem t.problems q := by
  unfold submit_team
  simp only [Team.update_sorted_times]
  split_ifs <;> simp [getProblem_mapSet, hq]

theorem solved_submit_team (frozen : Bool) (t : Team) (prob : Nat) (status : String)
    (time : Int) (h : (getProblem t.problems prob).solved = true) :
    getProblem (submit_team frozen t prob status time).problems prob
        = { getProblem t.problems prob with
            wrong_count := (getProblem t.problems prob).wrong_count
              + (if status = "Accepted" then 0 else 1) }
    ∧ (submit_team frozen t prob status time).solved_count = t.solved_count
    ∧ (submit_team frozen t prob status time).penalty_time = t.penalty_time
    ∧ (submit_team frozen t prob status time).solve_times = t.solve_times
    ∧ (submit_team frozen t prob status time).sorted_solve_times = t.sorted_solve_times := by
  unfold submit_team
  by_cases hs : status = "Accepted"
  · simp only [h, hs, Bool.or_true, if_true, Bool.not_true, Bool.and_false, Bool.false_eq_true,
      if_false, ne_eq, not_true_eq_false, getProblem_mapSet, add_zero, and_self, and_true]
    cases hps : getProblem t.problems prob
    rw [hps] at h
    simp only at h
    simp [h]
  · simp [h, hs, getProblem_mapSet]

theorem solved_mono_submit_team (frozen : Bool) (t : Team) (prob : Nat) (status : String)
    (time : Int) (q : Nat) (h : (getProblem t.problems q).solved = true) :
    (getProblem (submit_team frozen t prob status time).problems q).solved = true := by
  by_cases hq : q = prob
  · subst hq
    rw [(solved_submit_team frozen t q status time h).1]
    exact h
  · rw [getProblem_submit_team_ne frozen t prob status time q hq]
    exact h

theorem solved_mono_submit (s : ICPCSystem) (problem team_name status : String) (time : Int)
    (n : String) (p : Nat) (h : (problemOf s n p).solved = true) :
    (problemOf (submit s problem team_name status time) n p).solved = true := by
  unfold problemOf at *
  rw [getTeam_submit]
  by_cases hn : n = team_name
  · subst hn
    simp only [if_true]
    exact solved_mono_submit_team _ _ _ _ _ _ h
  · simpa [hn] using h

theorem problemOf_add_team (s : ICPCSystem) (name n : String) (p : Nat) :
    problemOf (add_team s name).1 n p = problemOf s n p := by
  unfold add_team
  by_cases h1 : s.started = true
  · simp [h1]
  · by_cases h2 : (mapFind s.teams name).isSome = true
    · simp [h1, h2]
    · simp only [h1, h2, Bool.false_eq_true, if_false, problemOf, getTeam_mapSet]
      by_cases hn : n = name
      · subst hn
        have : mapFind s.teams n = none := by
          cases h : mapFind s.teams n with
          | none => rfl
          | some x => simp [h] at h2
        simp [getTeam, this]
      · simp [hn]

theorem problemOf_start (s : ICPCSystem) (dur prob_count : Int) (n : String) (p : Nat) :
    problemOf (start s dur prob_count).1 n p = problemOf s n p := by
  unfold start
  by_cases h1 : s.started = true
  · simp [h1]
  · obtain ⟨r, hr⟩ := getTeam_assign_rankings (stable_sort str_less (mapKeys s.teams)) 0 s.teams n
    simp [h1, problemOf, hr]

theorem solved_mono_reveal_state (s : ICPCSystem) (n : String) (p : Nat)
    (h : (problemOf s n p).solved = true) : (problemOf (reveal_state s) n p).solved = true := by
  unfold problemOf at *
  rw [getTeam_reveal_state]
  by_cases hn : n = find_lowest s
  · subst hn
    simp only [if_true]
    generalize getTeam s.teams (find_lowest s) = t at *
    by_cases hp : p = find_smallest t
    · subst hp
      unfold reveal
      by_cases hf : (getProblem t.problems (find_smallest t)).first_ac_time_in_freeze = -1 <;>
        simp [hf, Team.update_sorted_times, getProblem_mapSet, h]
    · rw [getProblem_reveal t _ p hp]
      exact h
  · simpa [hn] using h

theorem solved_mono_scroll_step (s s' : ICPCSystem) (ev : Option RankChange)
    (hs : scroll_step s = some (s', ev)) (n : String) (p : Nat)
    (h : (problemOf s n p).solved = true) : (problemOf s' n p).solved = true := by
  obtain ⟨_, h1 | h1⟩ := scroll_step_cases s s' ev hs
  · rw [h1.1]
    exact solved_mono_reveal_state s n p h
  · rw [h1.1, problemOf_update_scoreboard]
    exact solved_mono_reveal_state s n p h

theorem solved_mono_scroll_loop : ∀ (fuel : Nat) (s s' : ICPCSystem) (evs : List RankChange),
    scroll_loop fuel s = some (s', evs) → ∀ (n : String) (p : Nat),
    (problemOf s n p).solved = true → (problemOf s' n p).solved = true
  | 0, _, _, _, h, _, _, _ => by simp [scroll_loop] at h
  | fuel + 1, s, s', evs, h, n, p, hp => by
    simp only [scroll_loop] at h
    cases hstep : scroll_step s with
    | none =>
      simp only [hstep, Option.some.injEq, Prod.mk.injEq] at h
      rw [← h.1]
      exact hp
    | some r =>
      obtain ⟨s1, ev⟩ := r
      simp only [hstep] at h
      cases hloop : scroll_loop fuel s1 with
      | none => simp [hloop] at h
      | some r2 =>
        obtain ⟨s2, evs2⟩ := r2
        simp only [hloop, Option.some.injEq, Prod.mk.injEq] at h
        rw [← h.1]
        exact solved_mono_scroll_loop fuel s1 s2 evs2 hloop n p
          (solved_mono_scroll_step s s1 ev hstep n p hp)

theorem solved_mono_exec (fuel : Nat) (s : ICPCSystem) (c : Cmd) (s' : ICPCSystem)
    (out : List String) (h : exec fuel s c = some (s', out)) (n : String) (p : Nat)
    (hp : (problemOf s n p).solved = true) : (problemOf s' n p).solved = true := by
  cases c with
  | add_team name =>
    simp only [exec, Option.some.injEq] at h
    have e : s' = (add_team s name).1 := by rw [h]
    rw [e, problemOf_add_team]; exact hp
  | start dur prob_count =>
    simp only [exec, Option.some.injEq] at h
    have e : s' = (start s dur prob_count).1 := by rw [h]
    rw [e, problemOf_start]; exact hp
  | submit problem team_name status time =>
    simp only [exec, Option.some.injEq, Prod.mk.injEq] at h
    rw [← h.1]; exact solved_mono_submit s problem team_name status time n p hp
  | flush =>
    simp only [exec, flush, Option.some.injEq, Prod.mk.injEq] at h
    rw [← h.1, problemOf_update_scoreboard]; exact hp
  | freeze =>
    simp only [exec, freeze_scoreboard, Option.some.injEq] at h
    by_cases hf : s.frozen = true
    · simp only [hf, if_true, Prod.mk.injEq] at h
      rw [← h.1]; exact hp
    · simp only [hf, Bool.false_eq_true, if_false, Prod.mk.injEq] at h
      rw [← h.1]; exact hp
  | scroll =>
    simp only [exec, scroll] at h
    by_cases hf : s.frozen = true
    · simp only [hf, Bool.not_true, Bool.false_eq_true, if_false] at h
      cases hloop : scroll_loop fuel (update_scoreboard s) with
      | none => simp [hloop] at h
      | some r =>
        obtain ⟨s2, evs⟩ := r
        simp only [hloop, Option.some.injEq, Prod.mk.injEq] at h
        rw [← h.1]
        have := solved_mono_scroll_loop fuel _ s2 evs hloop n p
          (by rw [problemOf_update_scoreboard]; exact hp)
        exact this
    · simp only [hf, Bool.not_false, if_true, Option.some.injEq, Prod.mk.injEq] at h
      rw [← h.1]; exact hp
  | query_ranking team_name =>
    simp only [exec, Option.some.injEq, Prod.mk.injEq] at h
    rw [← h.1]; exact hp
  | query_submission team_name problem status =>
    simp only [exec, Option.some.injEq, Prod.mk.injEq] at h
    rw [← h.1]; exact hp

/-- Claim C4: solved is terminal.  No command and no reveal step of scroll turns a
problem's `solved` flag from true to false, and a submission (any verdict, any time, any
global mode) on a problem that is already solved leaves that problem's `solved`,
`solve_time` and `wrong_before_solve` and the team's solved count, penalty and solve
times unchanged. -/
theorem solved_is_terminal :
    (∀ (fuel : Nat) (s : ICPCSystem) (c : Cmd) (s' : ICPCSystem) (out : List String),
      exec fuel s c = some (s', out) → ∀ (n : String) (p : Nat),
      (problemOf s n p).solved = true → (problemOf s' n p).solved = true)
    ∧ (∀ (s s' : ICPCSystem) (ev : Option RankChange), scroll_step s = some (s', ev) →
      ∀ (n : String) (p : Nat),
      (problemOf s n p).solved = true → (problemOf s' n p).solved = true)
    ∧ (∀ (s : ICPCSystem) (problem team_name status : String) (time : Int),
      (problemOf s team_name (probKey problem)).solved = true →
      (problemOf (submit s problem team_name status time) team_name (probKey problem)).solved
          = true
      ∧ (problemOf (submit s problem team_name status time) team_name
            (probKey problem)).solve_time
          = (problemOf s team_name (probKey problem)).solve_time
      ∧ (problemOf (submit s problem team_name status time) team_name
            (probKey problem)).wrong_before_solve
          = (problemOf s team_name (probKey problem)).wrong_before_solve
      ∧ (getTeam (submit s problem team_name status time).teams team_name).solved_count
          = (getTeam s.teams team_name).solved_count
      ∧ (getTeam (submit s problem team_name status time).teams team_name).penalty_time
          = (getTeam s.teams team_name).penalty_time
      ∧ (getTeam (submit s problem team_name status time).teams team_name).solve_times
          = (getTeam s.teams team_name).solve_times
      ∧ (getTeam (submit s problem team_name status time).teams team_name).sorted_solve_times
          = (getTeam s.teams team_name).sorted_solve_times) := by
  refine ⟨solved_mono_exec, solved_mono_scroll_step, ?_⟩
  intro s problem team_name status time h
  unfold problemOf at *
  rw [getTeam_submit]
  simp only [if_true]
  have key := solved_submit_team s.frozen
    { getTeam s.teams team_name with
      submissions := (getTeam s.teams team_name).submissions ++ [⟨problem, status, time⟩] }
    (probKey problem) status time h
  obtain ⟨k1, k2, k3, k4, k5⟩ := key
  rw [k1]
  exact ⟨h, rfl, rfl, k2, k3, k4, k5⟩

/-! ## The reveal step -/

theorem reveal_accepted_team (t : Team) (p : Nat)
    (h : (getProblem t.problems p).first_ac_time_in_freeze ≠ -1) :
    (getProblem (reveal t p).1.problems p).solved = true
    ∧ (getProblem (reveal t p).1.problems p).frozen = false
    ∧ (getProblem (reveal t p).1.problems p).solve_time
        = (getProblem t.problems p).first_ac_time_in_freeze
    ∧ (getProblem (reveal t p).1.problems p).wrong_before_solve
        = (getProblem t.problems p).wrong_before_freeze
          + (getProblem t.problems p).wrongs_before_ac_in_freeze
    ∧ (reveal t p).1.solved_count = t.solved_count + 1
    ∧ (reveal t p).1.penalty_time = t.penalty_time
        + (20 * ((getProblem t.problems p).wrong_before_freeze
                  + (getProblem t.problems p).wrongs_before_ac_in_freeze)
            + (getProblem t.problems p).first_ac_time_in_freeze)
    ∧ (reveal t p).1.solve_times
        = t.solve_times ++ [(getProblem t.problems p).first_ac_time_in_freeze]
    ∧ (reveal t p).1.sorted_solve_times
        = stable_sort (fun a b => decide (b < a))
            (t.solve_times ++ [(getProblem t.problems p).first_ac_time_in_freeze])
    ∧ (reveal t p).1.submissions = t.submissions
    ∧ (reveal t p).1.name = t.name := by
  unfold reveal
  simp [h, Team.update_sorted_times, getProblem_mapSet]

/-- Claim C8: a reveal step of scroll on a problem whose `first_ac_time_in_freeze` is set
makes the problem solved and not frozen with `solve_time = first_ac_time_in_freeze` and
`wrong_before_solve = wrong_before_freeze + wrongs_before_ac_in_freeze`, adds one to the
team's solved count, adds `20 * wrong_before_solve + solve_time` to its penalty, appends
the solve time to its solve times, and changes no other problem of the team and no
scoring field of any other team. -/
theorem reveal_accepted (s s' : ICPCSystem) (ev : Option RankChange) (team : String)
    (prob : Nat) (ps ps' : ProblemStatus) (t t' : Team)
    (hstep : scroll_step s = some (s', ev))
    (hteam : team = find_lowest s)
    (hprob : prob = find_smallest (getTeam s.teams team))
    (hps : ps = problemOf s team prob) (hps' : ps' = problemOf s' team prob)
    (htm : t = getTeam s.teams team) (htm' : t' = getTeam s'.teams team)
    (hac : ps.first_ac_time_in_freeze ≠ -1) :
    ps'.solved = true
    ∧ ps'.frozen = false
    ∧ ps'.solve_time = ps.first_ac_time_in_freeze
    ∧ ps'.wrong_before_solve = ps.wrong_before_freeze + ps.wrongs_before_ac_in_freeze
    ∧ t'.solved_count = t.solved_count + 1
    ∧ t'.penalty_time = t.penalty_time + (20 * ps'.wrong_before_solve + ps'.solve_time)
    ∧ t'.solve_times = t.solve_times ++ [ps'.solve_time]
    ∧ t'.sorted_solve_times
        = stable_sort (fun a b => decide (b < a)) (t.solve_times ++ [ps'.solve_time])
    ∧ (∀ q, q ≠ prob → problemOf s' team q = problemOf s team q)
    ∧ (∀ n, n ≠ team →
        (getTeam s'.teams n).problems = (getTeam s.teams n).problems
        ∧ (getTeam s'.teams n).solved_count = (getTeam s.teams n).solved_count
        ∧ (getTeam s'.teams n).penalty_time = (getTeam s.teams n).penalty_time
        ∧ (getTeam s'.teams n).solve_times = (getTeam s.teams n).solve_times
        ∧ (getTeam s'.teams n).sorted_solve_times = (getTeam s.teams n).sorted_solve_times) := by
  obtain ⟨_, h1 | h1⟩ := scroll_step_cases s s' ev hstep
  · exfalso
    have h2 := h1.2.2
    rw [reveal_snd] at h2
    rw [hps, hprob, hteam] at hac
    simp only [problemOf] at hac
    simp [hac] at h2
  · have hs' : s' = update_scoreboard (reveal_state s) := h1.1
    have hview : ∀ n, ∃ r, getTeam s'.teams n
        = { getTeam (reveal_state s).teams n with ranking := r } := by
      intro n; rw [hs']; exact getTeam_update_scoreboard _ n
    have hac' : (getProblem t.problems prob).first_ac_time_in_freeze ≠ -1 := by
      rw [htm]; rw [hps] at hac; exact hac
    have key := reveal_accepted_team t prob hac'
    have hT : ∃ r, t' = { (reveal t prob).1 with ranking := r } := by
      obtain ⟨r, hr⟩ := hview team
      refine ⟨r, ?_⟩
      rw [htm', hr, getTeam_reveal_state, hprob, htm, hteam]
      simp
    obtain ⟨r, hr⟩ := hT
    have hps2 : ps' = getProblem (reveal t prob).1.problems prob := by
      rw [hps']; unfold problemOf; rw [← htm', hr]
    have hps3 : ps = getProblem t.problems prob := by rw [hps, htm]; rfl
    obtain ⟨k1, k2, k3, k4, k5, k6, k7, k8, _, _⟩ := key
    clear hps hps' hac
    subst hps3 hps2
    refine ⟨k1, k2, k3, k4, ?_, ?_, ?_, ?_, ?_, ?_⟩
    · rw [hr]; exact k5
    · rw [hr, k4, k3]; exact k6
    · rw [hr, k3]; exact k7
    · rw [hr, k3]; exact k8
    · intro q hq
      unfold problemOf
      rw [← htm', ← htm, hr]
      exact getProblem_reveal t prob q hq
    · intro n hn
      obtain ⟨r2, hr2⟩ := hview n
      rw [hr2, getTeam_reveal_state]
      have : ¬ n = find_lowest s := by rw [← hteam]; exact hn
      simp [this]

/-! ## Sorting -/

theorem perm_insertSorted {α : Type} (comp : α → α → Bool) (a : α) : ∀ (l : List α),
    List.Perm (insertSorted comp a l) (a :: l)
  | [] => List.Perm.refl _
  | b :: l => by
    by_cases h : comp b a = true
    · simp only [insertSorted, h, if_true]
      exact ((perm_insertSorted comp a l).cons b).trans (List.Perm.swap a b l)
    · simp [insertSorted, h]

theorem perm_stable_sort {α : Type} (comp : α → α → Bool) : ∀ (l : List α),
    List.Perm (stable_sort comp l) l
  | [] => List.Perm.refl _
  | a :: l => by
    have ih := perm_stable_sort comp l
    simp only [stable_sort, List.foldr_cons] at ih ⊢
    exact (perm_insertSorted comp a _).trans (ih.cons a)

theorem length_stable_sort {α : Type} (comp : α → α → Bool) (l : List α) :
    (stable_sort comp l).length = l.length :=
  (perm_stable_sort comp l).length_eq

theorem pairwise_insertSorted {α : Type} (comp : α → α → Bool) (a : α) : ∀ (l : List α),
    (∀ x ∈ a :: l, ∀ y ∈ a :: l, ∀ z ∈ a :: l,
      comp x y = true → comp y z = true → comp x z = true) →
    (∀ x ∈ l, comp x a = false → comp a x = true) →
    l.Pairwise (fun x y => comp x y = true) →
    (insertSorted comp a l).Pairwise (fun x y => comp x y = true)
  | [], _, _, _ => by simp [insertSorted]
  | b :: l, htr, htot, hp => by
    have hpl := (List.pairwise_cons.1 hp).2
    have hb := (List.pairwise_cons.1 hp).1
    by_cases h : comp b a = true
    · simp only [insertSorted, h, if_true]
      refine List.pairwise_cons.2 ⟨?_, ?_⟩
      · intro x hx
        rcases (List.mem_cons.1 ((perm_insertSorted comp a l).subset hx)) with e | e
        · rw [e]; exact h
        · exact hb x e
      · refine pairwise_insertSorted comp a l ?_ ?_ hpl
        · intro x hx y hy z hz
          refine htr x ?_ y ?_ z ?_ <;>
            simp only [List.mem_cons] at * <;> tauto
        · intro x hx
          exact htot x (List.mem_cons_of_mem _ hx)
    · have hf : comp b a = false := by simpa using h
      simp only [insertSorted, h, if_false]
      have hab : comp a b = true := htot b (by simp) hf
      refine List.pairwise_cons.2 ⟨?_, hp⟩
      intro x hx
      rcases List.mem_cons.1 hx with e | e
      · rw [e]; exact hab
      · exact htr a (by simp) b (by simp) x (by simp [e]) hab (hb x e)

theorem pairwise_stable_sort {α : Type} (comp : α → α → Bool) : ∀ (l : List α),
    (∀ x ∈ l, ∀ y ∈ l, ∀ z ∈ l, comp x y = true → comp y z = true → comp x z = true) →
    (∀ x ∈ l, ∀ y ∈ l, x ≠ y → comp x y = false → comp y x = true) →
    l.Nodup →
    (stable_sort comp l).Pairwise (fun x y => comp x y = true)
  | [], _, _, _ => by simp [stable_sort]
  | a :: l, htr, htot, hnd => by
    have hal : a ∉ l := (List.nodup_cons.1 hnd).1
    have ih := pairwise_stable_sort comp l
      (fun x hx y hy z hz => htr x (List.mem_cons_of_mem _ hx) y (List.mem_cons_of_mem _ hy)
        z (List.mem_cons_of_mem _ hz))
      (fun x hx y hy => htot x (List.mem_cons_of_mem _ hx) y (List.mem_cons_of_mem _ hy))
      (List.nodup_cons.1 hnd).2
    have hperm := perm_stable_sort comp l
    simp only [stable_sort, List.foldr_cons] at ih hperm ⊢
    refine pairwise_insertSorted comp a _ ?_ ?_ ih
    · intro x hx y hy z hz
      refine htr x ?_ y ?_ z ?_
      · rcases List.mem_cons.1 hx with e | e
        · simp [e]
        · exact List.mem_cons_of_mem _ (hperm.subset e)
      · rcases List.mem_cons.1 hy with e | e
        · simp [e]
        · exact List.mem_cons_of_mem _ (hperm.subset e)
      · rcases List.mem_cons.1 hz with e | e
        · simp [e]
        · exact List.mem_cons_of_mem _ (hperm.subset e)
    · intro x hx hxa
      have hxl : x ∈ l := hperm.subset hx
      have hne : x ≠ a := fun e => hal (e ▸ hxl)
      exact htot x (List.mem_cons_of_mem _ hxl) a (by simp) hne hxa

/-! ## The ranking invariant -/

theorem teamOk_default : TeamOk ({} : Team) := by
  simp [TeamOk]

theorem teamOk_ranking (t : Team) (r : Int) (h : TeamOk t) :
    TeamOk { t with ranking := r } := h

theorem teamOk_submit_team (frozen : Bool) (t : Team) (prob : Nat) (status : String)
    (time : Int) (h : TeamOk t) : TeamOk (submit_team frozen t prob status time) := by
  obtain ⟨h1, h2⟩ := h
  unfold submit_team
  simp only [Team.update_sorted_times]
  split_ifs <;> simp only [TeamOk, length_stable_sort, List.length_append, List.length_singleton,
    Nat.cast_add, Nat.cast_one, and_true] <;> first | exact ⟨h1, h2⟩ | omega

theorem teamOk_reveal (t : Team) (p : Nat) (h : TeamOk t) : TeamOk (reveal t p).1 := by
  obtain ⟨h1, h2⟩ := h
  unfold reveal
  simp only [Team.update_sorted_times]
  split_ifs <;> simp only [TeamOk, length_stable_sort, List.length_append, List.length_singleton,
    Nat.cast_add, Nat.cast_one, and_true] <;> first | exact ⟨h1, h2⟩ | omega

theorem rankInv_init : RankInv {} := by
  refine ⟨by simp [mapKeys], fun n => ?_⟩
  simp [getTeam, mapFind, TeamOk]

theorem rankInv_assign (s : ICPCSystem) (order : List String) (h : RankInv s) :
    (mapKeys (assign_rankings order 0 s.teams)).Nodup
      ∧ ∀ n, TeamOk (getTeam (assign_rankings order 0 s.teams) n) := by
  refine ⟨nodup_mapKeys_assign_rankings _ _ _ h.1, fun n => ?_⟩
  obtain ⟨r, hr⟩ := getTeam_assign_rankings order 0 s.teams n
  rw [hr]
  exact teamOk_ranking _ r (h.2 n)

theorem rankInv_update_scoreboard (s : ICPCSystem) (h : RankInv s) :
    RankInv (update_scoreboard s) :=
  rankInv_assign s _ h

theorem rankInv_add_team (s : ICPCSystem) (name : String) (h : RankInv s) :
    RankInv (add_team s name).1 := by
  unfold add_team
  split_ifs
  · exact h
  · exact h
  · refine ⟨nodup_mapKeys_mapSet _ _ _ _ h.1, fun n => ?_⟩
    simp only [getTeam_mapSet]
    split_ifs
    · simp [TeamOk]
    · exact h.2 n

theorem rankInv_start (s : ICPCSystem) (dur prob_count : Int) (h : RankInv s) :
    RankInv (start s dur prob_count).1 := by
  unfold start
  split_ifs
  · exact h
  · exact rankInv_assign s _ h

theorem rankInv_submit (s : ICPCSystem) (problem team_name status : String) (time : Int)
    (h : RankInv s) : RankInv (submit s problem team_name status time) := by
  refine ⟨nodup_mapKeys_mapSet _ _ _ _ h.1, fun n => ?_⟩
  rw [getTeam_submit]
  split_ifs
  · exact teamOk_submit_team _ _ _ _ _ (h.2 team_name)
  · exact h.2 n

theorem rankInv_reveal_state (s : ICPCSystem) (h : RankInv s) : RankInv (reveal_state s) := by
  refine ⟨nodup_mapKeys_mapSet _ _ _ _ h.1, fun n => ?_⟩
  rw [getTeam_reveal_state]
  split_ifs
  · exact teamOk_reveal _ _ (h.2 _)
  · exact h.2 n

theorem rankInv_scroll_step (s s' : ICPCSystem) (ev : Option RankChange)
    (hs : scroll_step s = some (s', ev)) (h : RankInv s) : RankInv s' := by
  obtain ⟨_, h1 | h1⟩ := scroll_step_cases s s' ev hs
  · rw [h1.1]; exact rankInv_reveal_state s h
  · rw [h1.1]; exact rankInv_update_scoreboard _ (rankInv_reveal_state s h)

theorem rankInv_scroll_loop : ∀ (fuel : Nat) (s s' : ICPCSystem) (evs : List RankChange),
    scroll_loop fuel s = some (s', evs) → RankInv s → RankInv s'
  | 0, _, _, _, h, _ => by simp [scroll_loop] at h
  | fuel + 1, s, s', evs, h, hi => by
    simp only [scroll_loop] at h
    cases hstep : scroll_step s with
    | none =>
      simp only [hstep, Option.some.injEq, Prod.mk.injEq] at h
      rw [← h.1]; exact hi
    | some r =>
      obtain ⟨s1, ev⟩ := r
      simp only [hstep] at h
      cases hloop : scroll_loop fuel s1 with
      | none => simp [hloop] at h
      | some r2 =>
        obtain ⟨s2, evs2⟩ := r2
        simp only [hloop, Option.some.injEq, Prod.mk.injEq] at h
        rw [← h.1]
        exact rankInv_scroll_loop fuel s1 s2 evs2 hloop (rankInv_scroll_step s s1 ev hstep hi)

theorem rankInv_exec (fuel : Nat) (s : ICPCSystem) (c : Cmd) (s' : ICPCSystem)
    (out : List String) (h : exec fuel s c = some (s', out)) (hi : RankInv s) : RankInv s' := by
  cases c with
  | add_team name =>
    simp only [exec, Option.some.injEq] at h
    have e : s' = (add_team s name).1 := by rw [h]
    rw [e]; exact rankInv_add_team s name hi
  | start dur prob_count =>
    simp only [exec, Option.some.injEq] at h
    have e : s' = (start s dur prob_count).1 := by rw [h]
    rw [e]; exact rankInv_start s dur prob_count hi
  | submit problem team_name status time =>
    simp only [exec, Option.some.injEq, Prod.mk.injEq] at h
    rw [← h.1]; exact rankInv_submit s problem team_name status time hi
  | flush =>
    simp only [exec, flush, Option.some.injEq, Prod.mk.injEq] at h
    rw [← h.1]; exact rankInv_update_scoreboard s hi
  | freeze =>
    simp only [exec, freeze_scoreboard, Option.some.injEq] at h
    by_cases hf : s.frozen = true
    · simp only [hf, if_true, Prod.mk.injEq] at h
      rw [← h.1]; exact hi
    · simp only [hf, Bool.false_eq_true, if_false, Prod.mk.injEq] at h
      rw [← h.1]; exact hi
  | scroll =>
    simp only [exec, scroll] at h
    by_cases hf : s.frozen = true
    · simp only [hf, Bool.not_true, Bool.false_eq_true, if_false] at h
      cases hloop : scroll_loop fuel (update_scoreboard s) with
      | none => simp [hloop] at h
      | some r =>
        obtain ⟨s2, evs⟩ := r
        simp only [hloop, Option.some.injEq, Prod.mk.injEq] at h
        rw [← h.1]
        exact rankInv_scroll_loop fuel _ s2 evs hloop (rankInv_update_scoreboard s hi)
    · simp only [hf, Bool.not_false, if_true, Option.some.injEq, Prod.mk.injEq] at h
      rw [← h.1]; exact hi
  | query_ranking team_name =>
    simp only [exec, Option.some.injEq, Prod.mk.injEq] at h
    rw [← h.1]; exact hi
  | query_submission team_name problem status =>
    simp only [exec, Option.some.injEq, Prod.mk.injEq] at h
    rw [← h.1]; exact hi

theorem rankInv_of_visited (s : ICPCSystem) (h : Visited s) : RankInv s := by
  induction h with
  | init => exact rankInv_init
  | cmd fuel s c s' out _ hx ih => exact rankInv_exec fuel s c s' out hx ih
  | ranked s _ ih => exact rankInv_update_scoreboard s ih
  | revealed s _ _ ih => exact rankInv_reveal_state s ih

theorem visited_run (fuel : Nat) : ∀ (cmds : List Cmd) (s s' : ICPCSystem),
    Visited s → run fuel s cmds = some s' → Visited s'
  | [], s, s', hv, h => by
    simp only [run, Option.some.injEq] at h
    rw [← h]; exact hv
  | c :: cs, s, s', hv, h => by
    simp only [run] at h
    cases hx : exec fuel s c with
    | none => simp [hx] at h
    | some r =>
      obtain ⟨s1, out⟩ := r
      simp only [hx] at h
      exact visited_run fuel cs s1 s' (Visited.cmd fuel s c s1 out hv hx) h

theorem visited_of_reachable (s : ICPCSystem) (h : Reachable s) : Visited s := by
  obtain ⟨fuel, cmds, hr⟩ := h
  exact visited_run fuel cmds {} s Visited.init hr

/-! ## The scoreboard after `update_scoreboard` -/

theorem shaped_of_teamOk (t : Team) (h : TeamOk t) : shaped t := by
  unfold shaped; unfold TeamOk at h; omega

theorem team_less_congr (m1 m2 : List (String × Team))
    (h : ∀ n, ∃ r, getTeam m2 n = { getTeam m1 n with ranking := r }) (a b : String) :
    team_less m2 a b = team_less m1 a b := by
  obtain ⟨ra, ha⟩ := h a
  obtain ⟨rb, hb⟩ := h b
  rw [team_less_eq, team_less_eq, ha, hb]

theorem team_less_update_scoreboard (s : ICPCSystem) (a b : String) :
    team_less (update_scoreboard s).teams a b = team_less s.teams a b :=
  team_less_congr _ _ (getTeam_update_scoreboard s) a b

theorem team_order_update_scoreboard (s : ICPCSystem) :
    (update_scoreboard s).team_order = stable_sort (team_less s.teams) (mapKeys s.teams) := rfl

theorem mapKeys_update_scoreboard (s : ICPCSystem) :
    mapKeys (update_scoreboard s).teams = mapKeys s.teams :=
  mapKeys_assign_rankings _ _ _ (fun _ hn => (perm_stable_sort _ _).subset hn)

theorem ranking_update_scoreboard (s : ICPCSystem) (hnd : (mapKeys s.teams).Nodup) (i : Nat)
    (h : i < (update_scoreboard s).team_order.length) :
    (getTeam (update_scoreboard s).teams ((update_scoreboard s).team_order.get ⟨i, h⟩)).ranking
      = (i : Int) + 1 := by
  have hn : (stable_sort (team_less s.teams) (mapKeys s.teams)).Nodup :=
    (perm_stable_sort _ _).nodup_iff.2 hnd
  have := ranking_assign_rankings _ 0 s.teams hn i h
  simpa using this

theorem pairwise_update_scoreboard (s : ICPCSystem) (h : RankInv s) :
    (update_scoreboard s).team_order.Pairwise (fun a b => team_less s.teams a b = true) := by
  rw [team_order_update_scoreboard]
  refine pairwise_stable_sort _ _ ?_ ?_ h.1
  · intro x _ y _ z _ h1 h2
    exact team_less_trans s.teams (shaped_of_teamOk _ (h.2 x)) (shaped_of_teamOk _ (h.2 y))
      (shaped_of_teamOk _ (h.2 z)) h1 h2
  · intro x _ y _ hne hf
    have := team_less_total s.teams (a := y) (b := x) (fun e => hne e.symm)
    rw [this, hf]; rfl

theorem scoreboard_sorted (s : ICPCSystem) (h : RankInv s) :
    List.Perm (update_scoreboard s).team_order (mapKeys (update_scoreboard s).teams)
    ∧ (mapKeys (update_scoreboard s).teams).Nodup
    ∧ (update_scoreboard s).team_order.length = s.teams.length
    ∧ List.Chain' (fun a b => team_less (update_scoreboard s).teams a b = true)
        (update_scoreboard s).team_order
    ∧ (∀ (i : Nat) (hi : i < (update_scoreboard s).team_order.length),
        (getTeam (update_scoreboard s).teams
          ((update_scoreboard s).team_order.get ⟨i, hi⟩)).ranking = (i : Int) + 1)
    ∧ (∀ a ∈ mapKeys (update_scoreboard s).teams, ∀ b ∈ mapKeys (update_scoreboard s).teams,
        a ≠ b →
        (getTeam (update_scoreboard s).teams a).ranking
          ≠ (getTeam (update_scoreboard s).teams b).ranking) := by
  have hperm : List.Perm (update_scoreboard s).team_order (mapKeys s.teams) :=
    perm_stable_sort _ _
  have hrank := ranking_update_scoreboard s h.1
  refine ⟨?_, ?_, ?_, ?_, hrank, ?_⟩
  · rw [mapKeys_update_scoreboard]; exact hperm
  · rw [mapKeys_update_scoreboard]; exact h.1
  · rw [hperm.length_eq]; simp [mapKeys]
  · have hp := pairwise_update_scoreboard s h
    have hp2 : (update_scoreboard s).team_order.Pairwise
        (fun a b => team_less (update_scoreboard s).teams a b = true) :=
      hp.imp (fun {a b} hab => by rw [team_less_update_scoreboard]; exact hab)
    exact List.Pairwise.chain' hp2
  · intro a ha b hb hne
    rw [mapKeys_update_scoreboard] at ha hb
    have ha2 := hperm.symm.subset ha
    have hb2 := hperm.symm.subset hb
    obtain ⟨i, hi, hia⟩ := List.getElem_of_mem ha2
    obtain ⟨j, hj, hjb⟩ := List.getElem_of_mem hb2
    have ri := hrank i hi
    have rj := hrank j hj
    simp only [List.get_eq_getElem] at ri rj
    rw [hia] at ri
    rw [hjb] at rj
    rw [ri, rj]
    intro e
    have hij : i = j := by omega
    subst hij
    exact hne (hia.symm.trans hjb)

theorem mem_of_mapFind {κ α : Type} [DecidableEq κ] (k : κ) (v : α) :
    ∀ (m : List (κ × α)), mapFind m k = some v → (k, v) ∈ m
  | [], h => by simp [mapFind] at h
  | (k', v') :: rest, h => by
    by_cases hk : k' = k
    · simp only [mapFind, hk, if_true, Option.some.injEq] at h
      simp [hk, h]
    · simp only [mapFind, hk, if_false] at h
      exact List.mem_cons_of_mem _ (mem_of_mapFind k v rest h)

theorem shaped_getTeam (teams : List (String × Team)) (h : ∀ p ∈ teams, shaped p.2)
    (n : String) : shaped (getTeam teams n) := by
  unfold getTeam
  cases hf : mapFind teams n with
  | none => simp [shaped]
  | some t => exact h (n, t) (mem_of_mapFind n t teams hf)

theorem mapFind_of_mem {κ α : Type} [DecidableEq κ] (k : κ) (v : α) :
    ∀ (m : List (κ × α)), (mapKeys m).Nodup → (k, v) ∈ m → mapFind m k = some v
  | [], _, h => by simp at h
  | (k', v') :: rest, hnd, h => by
    have hnd2 : k' ∉ mapKeys rest ∧ (mapKeys rest).Nodup := by
      simpa [mapKeys] using hnd
    rcases List.mem_cons.1 h with e | e
    · have e1 : k = k' := congrArg Prod.fst e
      have e2 : v = v' := congrArg Prod.snd e
      simp [mapFind, e1, e2]
    · have hk : k ∈ mapKeys rest := List.mem_map.2 ⟨(k, v), e, rfl⟩
      have hne : ¬ k' = k := fun e3 => hnd2.1 (e3 ▸ hk)
      simp only [mapFind, hne, if_false]
      exact mapFind_of_mem k v rest hnd2.2 e

theorem shaped_of_visited (s : ICPCSystem) (h : Visited s) : ∀ p ∈ s.teams, shaped p.2 := by
  intro p hp
  have hi := rankInv_of_visited s h
  have hf := mapFind_of_mem p.1 p.2 s.teams hi.1 hp
  have := shaped_of_teamOk _ (hi.2 p.1)
  simpa [getTeam, hf] using this

/-- Claim C2: on team records whose list of sorted solve times is as long as the solved
count, the comparator of `update_scoreboard` is a strict total order on the team names:
irreflexive, transitive, and of two distinct names exactly one goes before the other.  It
orders by higher solved count, then lower penalty, then the first differing position of
the sorted solve times with the smaller value first, then ascending name.  Every team
record of a state the program passes through has that shape. -/
theorem team_less_strict_total_order :
    (∀ (teams : List (String × Team)), (∀ p ∈ teams, shaped p.2) →
      (∀ a, team_less teams a a = false)
      ∧ (∀ a b c, team_less teams a b = true → team_less teams b c = true →
          team_less teams a c = true)
      ∧ (∀ a b, a ≠ b →
          (team_less teams a b = true ∧ team_less teams b a = false)
          ∨ (team_less teams a b = false ∧ team_less teams b a = true))
      ∧ (∀ a b, (getTeam teams a).solved_count > (getTeam teams b).solved_count →
          team_less teams a b = true)
      ∧ (∀ a b, (getTeam teams a).solved_count = (getTeam teams b).solved_count →
          (getTeam teams a).penalty_time < (getTeam teams b).penalty_time →
          team_less teams a b = true)
      ∧ (∀ a b x y, (getTeam teams a).solved_count = (getTeam teams b).solved_count →
          (getTeam teams a).penalty_time = (getTeam teams b).penalty_time →
          firstDiff (getTeam teams a).sorted_solve_times (getTeam teams b).sorted_solve_times
            = some (x, y) →
          team_less teams a b = decide (x < y))
      ∧ (∀ a b, (getTeam teams a).solved_count = (getTeam teams b).solved_count →
          (getTeam teams a).penalty_time = (getTeam teams b).penalty_time →
          (getTeam teams a).sorted_solve_times = (getTeam teams b).sorted_solve_times →
          team_less teams a b = str_less a b))
    ∧ (∀ (s : ICPCSystem), Visited s → ∀ p ∈ s.teams, shaped p.2) := by
  refine ⟨?_, shaped_of_visited⟩
  intro teams h
  have hs := shaped_getTeam teams h
  refine ⟨team_less_irrefl teams, ?_, ?_, ?_, ?_, ?_, ?_⟩
  · intro a b c h1 h2
    exact team_less_trans teams (hs a) (hs b) (hs c) h1 h2
  · intro a b hne
    have ht := team_less_total teams hne
    cases hab : team_less teams a b
    · right
      rw [hab] at ht
      exact ⟨rfl, by simpa using ht.symm⟩
    · left
      rw [hab] at ht
      exact ⟨rfl, by simpa using ht.symm⟩
  · intro a b hgt
    have hne : (getTeam teams a).solved_count ≠ (getTeam teams b).solved_count := by omega
    rw [team_less_eq]
    simp [hne, hgt]
  · intro a b he hlt
    have hne : (getTeam teams a).penalty_time ≠ (getTeam teams b).penalty_time := by omega
    rw [team_less_eq]
    simp [he, hne, hlt]
  · intro a b x y he hp hd
    rw [team_less_eq]
    simp [he, hp, tie_break, hd]
  · intro a b he hp hl
    have hd : ∀ l : List Int, firstDiff l l = none := by
      intro l
      induction l with
      | nil => rfl
      | cons x xs ih => simp [firstDiff, ih]
    rw [team_less_eq]
    simp [he, hp, tie_break, hl, hd]

/-- An instance of `team_less_strict_total_order`: team `B` (one problem, penalty 5) goes
before team `A` (one problem, penalty 40) and not the other way round. -/
theorem team_less_strict_total_order_witness :
    team_less [("A", { solved_count := 1, penalty_time := 40, sorted_solve_times := [20] }),
        ("B", { solved_count := 1, penalty_time := 5, sorted_solve_times := [5] })] "B" "A"
      = true
    ∧ team_less [("A", { solved_count := 1, penalty_time := 40, sorted_solve_times := [20] }),
        ("B", { solved_count := 1, penalty_time := 5, sorted_solve_times := [5] })] "A" "B"
      = false := by
  have h := team_less_strict_total_order.1
    [("A", { solved_count := 1, penalty_time := 40, sorted_solve_times := [20] }),
     ("B", { solved_count := 1, penalty_time := 5, sorted_solve_times := [5] })]
    (by decide)
  have h5 := h.2.2.2.2.1 "B" "A" (by decide) (by decide)
  rcases h.2.2.1 "B" "A" (by decide) with h3 | h3
  · exact h3
  · rw [h5] at h3
    exact absurd h3.1 (by decide)

/-- Claim C3: for every state the program passes through, `update_scoreboard` leaves in
`team_order` a permutation of all team names in which every team goes strictly before
the next one under the comparator, gives the team at index `i` the rank `i + 1`, and so
gives no two distinct teams the same rank.  In the scenario of the spec, team `B`
(penalty 5) gets rank 1 and team `A` (penalty 40) gets rank 2. -/
theorem update_scoreboard_ranking :
    (∀ (s : ICPCSystem), Visited s →
      List.Perm (update_scoreboard s).team_order (mapKeys (update_scoreboard s).teams)
      ∧ (mapKeys (update_scoreboard s).teams).Nodup
      ∧ (update_scoreboard s).team_order.length = s.teams.length
      ∧ List.Chain' (fun a b => team_less (update_scoreboard s).teams a b = true)
          (update_scoreboard s).team_order
      ∧ (∀ (i : Nat) (hi : i < (update_scoreboard s).team_order.length),
          (getTeam (update_scoreboard s).teams
            ((update_scoreboard s).team_order.get ⟨i, hi⟩)).ranking = (i : Int) + 1)
      ∧ (∀ a ∈ mapKeys (update_scoreboard s).teams,
          ∀ b ∈ mapKeys (update_scoreboard s).teams, a ≠ b →
          (getTeam (update_scoreboard s).teams a).ranking
            ≠ (getTeam (update_scoreboard s).teams b).ranking))
    ∧ ((getTeam state_AB.teams "A").solved_count = 1
      ∧ (getTeam state_AB.teams "A").penalty_time = 40
      ∧ (getTeam state_AB.teams "B").solved_count = 1
      ∧ (getTeam state_AB.teams "B").penalty_time = 5
      ∧ (update_scoreboard state_AB).team_order = ["B", "A"]
      ∧ (getTeam (update_scoreboard state_AB).teams "B").ranking = 1
      ∧ (getTeam (update_scoreboard state_AB).teams "A").ranking = 2) := by
  refine ⟨fun s hv => scoreboard_sorted s (rankInv_of_visited s hv), ?_⟩
  decide

/-- An instance of `update_scoreboard_ranking`: the state of the spec's scenario is
reached by its commands, and its scoreboard lists `B` before `A`. -/
theorem update_scoreboard_ranking_witness :
    Visited state_AB
    ∧ List.Chain' (fun a b => team_less (update_scoreboard state_AB).teams a b = true)
        (update_scoreboard state_AB).team_order
    ∧ (update_scoreboard state_AB).team_order.length = 2 :=
  have hv : Visited state_AB := visited_of_reachable state_AB ⟨0, scenario_AB, rfl⟩
  ⟨hv, (update_scoreboard_ranking.1 state_AB hv).2.2.2.1,
    (update_scoreboard_ranking.1 state_AB hv).2.2.1⟩

/-! ## Sums over the problems of a team -/

section MapSums

variable {κ : Type} {α : Type} [DecidableEq κ]

theorem sum_mapReplace (f : α → Int) (k : κ) (v old : α) : ∀ (m : List (κ × α)),
    mapFind m k = some old →
    ((mapReplace k v m).map (fun e => f e.2)).sum = (m.map (fun e => f e.2)).sum - f old + f v
  | [], h => by simp [mapFind] at h
  | (k', v') :: rest, h => by
    by_cases hk : k' = k
    · simp only [mapFind, hk, if_true, Option.some.injEq] at h
      subst h
      simp only [mapReplace, hk, if_true, List.map_cons, List.sum_cons]
      ring
    · simp only [mapFind, hk, if_false] at h
      simp only [mapReplace, hk, if_false, List.map_cons, List.sum_cons,
        sum_mapReplace f k v old rest h]
      ring

omit [DecidableEq κ] in
theorem sum_mapInsertNew (f : α → Int) (lt : κ → κ → Bool) (k : κ) (v : α) :
    ∀ (m : List (κ × α)),
    ((mapInsertNew lt k v m).map (fun e => f e.2)).sum = (m.map (fun e => f e.2)).sum + f v
  | [] => by simp [mapInsertNew]
  | (k', v') :: rest => by
    by_cases hl : lt k k' = true
    · simp only [mapInsertNew, hl, if_true, List.map_cons, List.sum_cons]
      ring
    · simp only [mapInsertNew, hl, Bool.false_eq_true, if_false, List.map_cons, List.sum_cons,
        sum_mapInsertNew f lt k v rest]
      ring

theorem sum_mapSet (f : α → Int) (lt : κ → κ → Bool) (m : List (κ × α)) (k : κ) (v : α) :
    ((mapSet lt m k v).map (fun e => f e.2)).sum
      = (m.map (fun e => f e.2)).sum - ((mapFind m k).map f).getD 0 + f v := by
  unfold mapSet
  cases h : mapFind m k with
  | none => simp [sum_mapInsertNew]
  | some old => simp [sum_mapReplace f k v old m h]

end MapSums

theorem penalty_sum_eq (problems : List (Nat × ProblemStatus)) :
    penalty_sum problems = (problems.map (fun e => penalty_of e.2)).sum := by
  induction problems with
  | nil => rfl
  | cons e rest ih =>
    unfold penalty_sum at ih ⊢
    by_cases h : e.2.solved = true
    · simp [List.filter, h, penalty_of, ih]
    · simp [List.filter, h, penalty_of, ih]

theorem solved_number_eq (problems : List (Nat × ProblemStatus)) :
    (solved_number problems : Int)
      = (problems.map (fun e => if e.2.solved = true then (1 : Int) else 0)).sum := by
  induction problems with
  | nil => rfl
  | cons e rest ih =>
    unfold solved_number at ih ⊢
    by_cases h : e.2.solved = true
    · simp [List.filter, h, ih]; ring
    · simp [List.filter, h, ih]

theorem penalty_sum_mapSet (m : List (Nat × ProblemStatus)) (k : Nat) (v : ProblemStatus) :
    penalty_sum (mapSet char_less m k v)
      = penalty_sum m - ((mapFind m k).map penalty_of).getD 0 + penalty_of v := by
  rw [penalty_sum_eq, penalty_sum_eq]
  exact sum_mapSet penalty_of char_less m k v

theorem solved_number_mapSet (m : List (Nat × ProblemStatus)) (k : Nat) (v : ProblemStatus) :
    (solved_number (mapSet char_less m k v) : Int)
      = solved_number m
        - ((mapFind m k).map (fun ps => if ps.solved = true then (1 : Int) else 0)).getD 0
        + (if v.solved = true then 1 else 0) := by
  rw [solved_number_eq, solved_number_eq]
  exact sum_mapSet (fun ps => if ps.solved = true then (1 : Int) else 0) char_less m k v

theorem penalty_term_unsolved (m : List (Nat × ProblemStatus)) (k : Nat)
    (h : (getProblem m k).solved = false) : ((mapFind m k).map penalty_of).getD 0 = 0 := by
  unfold getProblem at h
  cases hf : mapFind m k with
  | none => rfl
  | some ps => rw [hf] at h; simp at h; simp [penalty_of, h]

theorem solved_term_unsolved (m : List (Nat × ProblemStatus)) (k : Nat)
    (h : (getProblem m k).solved = false) :
    ((mapFind m k).map (fun ps => if ps.solved = true then (1 : Int) else 0)).getD 0 = 0 := by
  unfold getProblem at h
  cases hf : mapFind m k with
  | none => rfl
  | some ps => rw [hf] at h; simp at h; simp [h]

theorem penalty_term_solved (m : List (Nat × ProblemStatus)) (k : Nat)
    (h : (getProblem m k).solved = true) :
    ((mapFind m k).map penalty_of).getD 0 = penalty_of (getProblem m k) := by
  unfold getProblem at h ⊢
  cases hf : mapFind m k with
  | none => rw [hf] at h; simp at h
  | some ps => simp

theorem solved_term_solved (m : List (Nat × ProblemStatus)) (k : Nat)
    (h : (getProblem m k).solved = true) :
    ((mapFind m k).map (fun ps => if ps.solved = true then (1 : Int) else 0)).getD 0 = 1 := by
  unfold getProblem at h
  cases hf : mapFind m k with
  | none => rw [hf] at h; simp at h
  | some ps => rw [hf] at h; simp at h; simp [h]

/-! ## Submissions while the scoreboard is not frozen -/

theorem snoc_decomp {α : Type} (subs pre post : List α) (x z : α)
    (h : subs ++ [z] = pre ++ x :: post) :
    (post = [] ∧ pre = subs ∧ x = z) ∨ ∃ post', post = post' ++ [z] ∧ subs = pre ++ x :: post' := by
  rcases List.eq_nil_or_concat post with hp | ⟨post', a, hp⟩
  · left
    subst hp
    have := List.append_inj' h rfl
    refine ⟨rfl, this.1.symm, ?_⟩
    have h2 := this.2
    simp at h2
    exact h2.symm
  · right
    rw [List.concat_eq_append] at hp
    subst hp
    have h2 : subs ++ [z] = (pre ++ x :: post') ++ [a] := by simpa using h
    have := List.append_inj' h2 rfl
    have h3 := this.2
    simp at h3
    subst h3
    exact ⟨post', rfl, this.1⟩

theorem unfrozenInv_nil (t : Team) (hp : t.problems = []) (h1 : t.penalty_time = 0)
    (h2 : t.solved_count = 0) : UnfrozenInv [] t := by
  refine ⟨fun p => ⟨?_, ?_, ?_⟩, ?_, ?_⟩
  · simp [hp, getProblem, mapFind]
  · intro _; simp [hp, getProblem, mapFind]
  · intro pre x post h; simp at h
  · simp [hp, h1, penalty_sum]
  · simp [hp, h2, solved_number]

theorem countP_snoc_wrong (p : Nat) (subs : List Submission) (z : Submission) :
    ((subs ++ [z]).countP (is_wrong_for p) : Int)
      = subs.countP (is_wrong_for p) + (if is_wrong_for p z = true then 1 else 0) := by
  rw [List.countP_append]
  by_cases h : is_wrong_for p z = true <;> simp [List.countP_cons, h]

theorem unfrozenInv_step (subs : List Submission) (t : Team) (z : Submission)
    (h : UnfrozenInv subs t) :
    UnfrozenInv (subs ++ [z]) (submit_team false t (probKey z.problem) z.status z.time) := by
  obtain ⟨hprob, hpen, hcnt⟩ := h
  have hk := hprob (probKey z.problem)
  by_cases hacc : z.status = "Accepted"
  · by_cases hsol : (getProblem t.problems (probKey z.problem)).solved = true
    · -- accepted again: nothing changes
      have e1 : (submit_team false t (probKey z.problem) z.status z.time)
          = { t with problems := (mapSet char_less t.problems (probKey z.problem)
                (getProblem t.problems (probKey z.problem))) } := by
        simp [submit_team, hacc, hsol]
      rw [e1]
      refine ⟨fun p => ?_, ?_, ?_⟩
      · have hview : getProblem (mapSet char_less t.problems (probKey z.problem)
            (getProblem t.problems (probKey z.problem))) p = getProblem t.problems p := by
          rw [getProblem_mapSet]; split_ifs with hp
          · rw [hp]
          · rfl
        simp only [hview]
        obtain ⟨a1, a2, a3⟩ := hprob p
        refine ⟨?_, ?_, ?_⟩
        · rw [a1]
          constructor
          · rintro ⟨x, hx, hx2⟩
            exact ⟨x, List.mem_append_left _ hx, hx2⟩
          · rintro ⟨x, hx, hx2⟩
            rcases List.mem_append.1 hx with hx | hx
            · exact ⟨x, hx, hx2⟩
            · simp only [List.mem_singleton] at hx
              subst hx
              rw [← hx2.1]
              exact hk.1.1 hsol
        · intro hu
          rw [countP_snoc_wrong, a2 hu]
          simp [is_wrong_for, hacc]
        · intro pre x post hd hxp hxa hpre
          rcases snoc_decomp subs pre post x z hd with ⟨_, hps, hxz⟩ | ⟨post', _, hs⟩
          · exfalso
            subst hps hxz
            obtain ⟨y, hy, hy1, hy2⟩ := hk.1.1 hsol
            exact hpre y hy (hy1.trans hxp) hy2
          · exact a3 pre x post' hs hxp hxa hpre
      · simp only
        rw [penalty_sum_mapSet, penalty_term_solved _ _ hsol, hpen]; ring
      · simp only
        rw [solved_number_mapSet, solved_term_solved _ _ hsol, hcnt, hsol]; simp
    · -- first accepted submission
      have hsol' : (getProblem t.problems (probKey z.problem)).solved = false := by
        simpa using hsol
      have e1 : (submit_team false t (probKey z.problem) z.status z.time)
          = Team.update_sorted_times { t with
              problems := (mapSet char_less t.problems (probKey z.problem)
                { getProblem t.problems (probKey z.problem) with
                  solved := true, solve_time := z.time,
                  wrong_before_solve := (getProblem t.problems (probKey z.problem)).wrong_count })
              solved_count := t.solved_count + 1
              penalty_time := t.penalty_time
                + (20 * (getProblem t.problems (probKey z.problem)).wrong_count + z.time)
              solve_times := t.solve_times ++ [z.time] } := by
        simp [submit_team, hacc, hsol']
      rw [e1]
      simp only [Team.update_sorted_times]
      have hnone : ¬ ∃ x ∈ subs, probKey x.problem = probKey z.problem ∧ x.status = "Accepted" :=
        fun hx => hsol (hk.1.2 hx)
      refine ⟨fun p => ?_, ?_, ?_⟩
      · simp only [getProblem_mapSet]
        by_cases hp : p = probKey z.problem
        · subst hp
          simp only [if_true]
          refine ⟨?_, ?_, ?_⟩
          · simp only [true_iff]
            exact ⟨z, by simp, rfl, hacc⟩
          · intro hu; simp at hu
          · intro pre x post hd hxp hxa hpre
            rcases snoc_decomp subs pre post x z hd with ⟨_, hps, hxz⟩ | ⟨post', _, hs⟩
            · subst hps hxz
              exact ⟨rfl, hk.2.1 hsol'⟩
            · exfalso
              exact hnone ⟨x, by rw [hs]; simp, hxp, hxa⟩
        · simp only [hp, if_false]
          obtain ⟨a1, a2, a3⟩ := hprob p
          have hzp : ¬ probKey z.problem = p := fun e => hp e.symm
          refine ⟨?_, ?_, ?_⟩
          · rw [a1]
            constructor
            · rintro ⟨x, hx, hx2⟩
              exact ⟨x, List.mem_append_left _ hx, hx2⟩
            · rintro ⟨x, hx, hx2⟩
              rcases List.mem_append.1 hx with hx | hx
              · exact ⟨x, hx, hx2⟩
              · simp only [List.mem_singleton] at hx
                subst hx
                exact absurd hx2.1 hzp
          · intro hu
            rw [countP_snoc_wrong, a2 hu]
            simp [is_wrong_for, hzp]
          · intro pre x post hd hxp hxa hpre
            rcases snoc_decomp subs pre post x z hd with ⟨_, hps, hxz⟩ | ⟨post', _, hs⟩
            · exfalso
              subst hxz
              exact hzp hxp
            · exact a3 pre x post' hs hxp hxa hpre
      · simp only
        rw [penalty_sum_mapSet, penalty_term_unsolved _ _ hsol', hpen]
        simp [penalty_of]
      · simp only
        rw [solved_number_mapSet, solved_term_unsolved _ _ hsol', hcnt]
        simp
  · -- a wrong submission
    have e1 : (submit_team false t (probKey z.problem) z.status z.time)
        = { t with problems := (mapSet char_less t.problems (probKey z.problem)
              { getProblem t.problems (probKey z.problem) with
                wrong_count := (getProblem t.problems (probKey z.problem)).wrong_count + 1 }) } := by
      simp [submit_team, hacc]
    rw [e1]
    refine ⟨fun p => ?_, ?_, ?_⟩
    · simp only [getProblem_mapSet]
      obtain ⟨a1, a2, a3⟩ := hprob p
      have hex : (∃ x ∈ subs ++ [z], probKey x.problem = p ∧ x.status = "Accepted")
          ↔ ∃ x ∈ subs, probKey x.problem = p ∧ x.status = "Accepted" := by
        constructor
        · rintro ⟨x, hx, hx2⟩
          rcases List.mem_append.1 hx with hx | hx
          · exact ⟨x, hx, hx2⟩
          · simp only [List.mem_singleton] at hx
            subst hx
            exact absurd hx2.2 hacc
        · rintro ⟨x, hx, hx2⟩
          exact ⟨x, List.mem_append_left _ hx, hx2⟩
      have hdec : ∀ (pre : List Submission) (x : Submission) (post : List Submission),
          subs ++ [z] = pre ++ x :: post → x.status = "Accepted" →
          ∃ post', subs = pre ++ x :: post' := by
        intro pre x post hd hxa
        rcases snoc_decomp subs pre post x z hd with ⟨_, _, hxz⟩ | ⟨post', _, hs⟩
        · subst hxz; exact absurd hxa hacc
        · exact ⟨post', hs⟩
      by_cases hp : p = probKey z.problem
      · subst hp
        simp only [if_true]
        refine ⟨?_, ?_, ?_⟩
        · rw [hex]; exact a1
        · intro hu
          rw [countP_snoc_wrong, a2 hu]
          simp [is_wrong_for, hacc]
        · intro pre x post hd hxp hxa hpre
          obtain ⟨post', hs⟩ := hdec pre x post hd hxa
          exact a3 pre x post' hs hxp hxa hpre
      · simp only [hp, if_false]
        have hzp : ¬ probKey z.problem = p := fun e => hp e.symm
        refine ⟨?_, ?_, ?_⟩
        · rw [hex]; exact a1
        · intro hu
          rw [countP_snoc_wrong, a2 hu]
          simp [is_wrong_for, hzp]
        · intro pre x post hd hxp hxa hpre
          obtain ⟨post', hs⟩ := hdec pre x post hd hxa
          exact a3 pre x post' hs hxp hxa hpre
    · simp only
      rw [penalty_sum_mapSet, hpen]
      have : ((mapFind t.problems (probKey z.problem)).map penalty_of).getD 0
          = penalty_of { getProblem t.problems (probKey z.problem) with
              wrong_count := (getProblem t.problems (probKey z.problem)).wrong_count + 1 } := by
        unfold getProblem
        cases hf : mapFind t.problems (probKey z.problem) with
        | none => simp [penalty_of]
        | some ps => simp [penalty_of]
      rw [this]; ring
    · simp only
      rw [solved_number_mapSet, hcnt]
      have : ((mapFind t.problems (probKey z.problem)).map
            (fun ps => if ps.solved = true then (1 : Int) else 0)).getD 0
          = (if ({ getProblem t.problems (probKey z.problem) with
              wrong_count := (getProblem t.problems (probKey z.problem)).wrong_count + 1
              } : ProblemStatus).solved = true then (1 : Int) else 0) := by
        unfold getProblem
        cases hf : mapFind t.problems (probKey z.problem) with
        | none => simp
        | some ps => simp
      rw [this]; ring

theorem submit_all_snoc (s : ICPCSystem) (team_name : String) (subs : List Submission)
    (z : Submission) :
    submit_all s team_name (subs ++ [z])
      = submit (submit_all s team_name subs) z.problem team_name z.status z.time := by
  simp [submit_all, List.foldl_append]

theorem frozen_submit_all (s : ICPCSystem) (team_name : String) (subs : List Submission) :
    (submit_all s team_name subs).frozen = s.frozen := by
  induction subs using List.reverseRecOn with
  | nil => rfl
  | append_singleton l z ih => rw [submit_all_snoc]; exact ih

theorem unfrozenInv_submit_all (s : ICPCSystem) (team_name : String)
    (hf : s.frozen = false) (hfresh : FreshTeam (getTeam s.teams team_name))
    (subs : List Submission) :
    UnfrozenInv subs (getTeam (submit_all s team_name subs).teams team_name) := by
  induction subs using List.reverseRecOn with
  | nil =>
    have e : getTeam (submit_all s team_name []).teams team_name = getTeam s.teams team_name :=
      rfl
    rw [e]
    exact unfrozenInv_nil _ hfresh.1 hfresh.2.2 hfresh.2.1
  | append_singleton l z ih =>
    rw [submit_all_snoc, getTeam_submit]
    simp only [if_true]
    rw [frozen_submit_all, hf]
    exact unfrozenInv_step l
      { getTeam (submit_all s team_name l).teams team_name with
        submissions := (getTeam (submit_all s team_name l).teams team_name).submissions
          ++ [⟨z.problem, z.status, z.time⟩] } z ih

theorem submissions_submit_team (frozen : Bool) (t : Team) (prob : Nat) (status : String)
    (time : Int) : (submit_team frozen t prob status time).submissions = t.submissions := by
  unfold submit_team
  simp only [Team.update_sorted_times]
  split_ifs <;> rfl

/-! ## Instances and evaluations -/

/-- An instance of `solved_is_terminal`: team `T` has solved problem `A` at time 5; a later
wrong submission for it at time 9 leaves the problem and the team's score as they were. -/
theorem solved_is_terminal_witness :
    (problemOf state_solved "T" (probKey "A")).solved = true
    ∧ (problemOf (submit state_solved "A" "T" "Wrong_Answer" 9) "T" (probKey "A")).solved = true
    ∧ (problemOf (submit state_solved "A" "T" "Wrong_Answer" 9) "T" (probKey "A")).solve_time
        = 5
    ∧ (getTeam (submit state_solved "A" "T" "Wrong_Answer" 9).teams "T").penalty_time = 5 :=
  have h0 : (problemOf state_solved "T" (probKey "A")).solved = true := by decide
  have h := solved_is_terminal.2.2 state_solved "A" "T" "Wrong_Answer" 9 h0
  ⟨h0, h.1, h.2.1, h.2.2.2.2.1⟩

/-- An instance of `reveal_accepted`: the reveal step on `state_hidden_ac` solves problem
`A` of team `T` at time 5 and brings the team to one solved problem and penalty 5. -/
theorem reveal_accepted_witness :
    (problemOf ((scroll_step state_hidden_ac).getD ({}, none)).1 "T" 65).solved = true
    ∧ (problemOf ((scroll_step state_hidden_ac).getD ({}, none)).1 "T" 65).solve_time = 5
    ∧ (getTeam ((scroll_step state_hidden_ac).getD ({}, none)).1.teams "T").solved_count = 1
    ∧ (getTeam ((scroll_step state_hidden_ac).getD ({}, none)).1.teams "T").penalty_time = 5 :=
  have h := reveal_accepted state_hidden_ac
    ((scroll_step state_hidden_ac).getD ({}, none)).1
    ((scroll_step state_hidden_ac).getD ({}, none)).2 "T" 65
    (problemOf state_hidden_ac "T" 65)
    (problemOf ((scroll_step state_hidden_ac).getD ({}, none)).1 "T" 65)
    (getTeam state_hidden_ac.teams "T")
    (getTeam ((scroll_step state_hidden_ac).getD ({}, none)).1.teams "T")
    (by decide) (by decide) (by decide) rfl rfl rfl rfl (by decide)
  ⟨h.1, h.2.2.1, h.2.2.2.2.1, h.2.2.2.2.2.1⟩

/-! ## The scroll loop and a team whose name is the empty string

`scroll` tests `lowest_team.empty()` to decide that no team has a frozen problem.  When
the lowest ranked team with a frozen problem is registered under the empty name, the loop
breaks although frozen problems remain, and the scoreboard is unfrozen around them. -/

/-- Claim C7, evaluated: after `cmds_empty_name` the scroll has completed and the global
mode is not frozen, yet problem `A` of the team with the empty name is still frozen; an
accepted submission then makes it frozen and solved at once. -/
theorem frozen_problem_survives_scroll :
    (run 1 {} cmds_empty_name).map
        (fun s => (s.frozen, (problemOf s "" 65).frozen, (problemOf s "" 65).solved))
      = some (false, true, false)
    ∧ (run 1 {} (cmds_empty_name ++ [.submit "A" "" "Accepted" 2])).map
        (fun s => (s.frozen, (problemOf s "" 65).frozen, (problemOf s "" 65).solved))
      = some (false, true, true) := by
  decide

/-- Claim C10, evaluated: at the head of the scroll loop entered by `cmds_empty_name` the
only team has a frozen problem with letter `A`, and the loop breaks without revealing it. -/
theorem scroll_stops_with_frozen_problem :
    (run 0 {} (cmds_empty_name.take 4)).isSome = true
    ∧ state_empty_name_head.frozen = true
    ∧ state_empty_name_head.team_order = [""]
    ∧ has_frozen (getTeam state_empty_name_head.teams "") = true
    ∧ (problemOf state_empty_name_head "" 65).frozen = true
    ∧ find_lowest state_empty_name_head = ""
    ∧ (scroll_step state_empty_name_head).isNone = true
    ∧ (scroll_loop 1 state_empty_name_head).map (fun r => has_frozen (getTeam r.1.teams ""))
        = some true := by
  decide

/-- Claim C1, evaluated: after `cmds_skipped_reveal "Accepted"` and a scroll, team `T` has
solved count 3 and penalty 13, while two of its problems are solved and the sum of
`20 * wrong_before_solve + solve_time` over them is 6. -/
theorem solved_count_overcounts :
    (run 2 {} (cmds_skipped_reveal "Accepted" ++ [.scroll])).map
        (fun s => ((getTeam s.teams "T").solved_count,
          solved_number (getTeam s.teams "T").problems,
          (getTeam s.teams "T").penalty_time,
          penalty_sum (getTeam s.teams "T").problems))
      = some (3, 2, 13, 6) := by
  decide

/-- Claim C9, evaluated: after `cmds_skipped_reveal "Wrong_Answer"` the scroll loop selects
problem `B` of team `T`, which is frozen, has received one submission while the scoreboard
was frozen, a wrong one, and has no accepted time recorded in the freeze; the reveal step
writes no rank-change line and leaves the problem solved. -/
theorem reveal_without_ac_leaves_solved :
    (run 1 {} (cmds_skipped_reveal "Wrong_Answer")).isSome = true
    ∧ (state_skipped_head "Wrong_Answer").frozen = true
    ∧ find_lowest (state_skipped_head "Wrong_Answer") = "T"
    ∧ find_smallest (getTeam (state_skipped_head "Wrong_Answer").teams "T") = 66
    ∧ (problemOf (state_skipped_head "Wrong_Answer") "T" 66).frozen = true
    ∧ (problemOf (state_skipped_head "Wrong_Answer") "T" 66).first_ac_time_in_freeze = -1
    ∧ (problemOf (state_skipped_head "Wrong_Answer") "T" 66).frozen_count = 1
    ∧ (problemOf (state_skipped_head "Wrong_Answer") "T" 66).total_wrongs_in_freeze = 1
    ∧ (scroll_step (state_skipped_head "Wrong_Answer")).map
        (fun r => (problemOf r.1 "T" 66).solved) = some true
    ∧ (scroll_step (state_skipped_head "Wrong_Answer")).map
        (fun r => (problemOf r.1 "T" 66).frozen) = some false
    ∧ (scroll_step (state_skipped_head "Wrong_Answer")).map (fun r => r.2.isNone)
        = some true := by
  decide

/-! ## The frozen flags when no team has the empty name -/

theorem problemOf_submit_ne (s : ICPCSystem) (problem team_name status : String) (time : Int)
    (n : String) (p : Nat) (h : ¬ (n = team_name ∧ p = probKey problem)) :
    problemOf (submit s problem team_name status time) n p = problemOf s n p := by
  unfold problemOf
  rw [getTeam_submit]
  by_cases hn : n = team_name
  · subst hn
    have hp : p ≠ probKey problem := fun e => h ⟨rfl, e⟩
    simp only [if_true]
    rw [getProblem_submit_team_ne _ _ _ _ _ p hp]
  · simp [hn]

theorem problemOf_submit_self (s : ICPCSystem) (problem team_name status : String)
    (time : Int) :
    problemOf (submit s problem team_name status time) team_name (probKey problem)
      = getProblem (submit_team s.frozen (getTeam s.teams team_name) (probKey problem)
          status time).problems (probKey problem) := by
  unfold problemOf
  rw [getTeam_submit]
  simp only [if_true]
  unfold submit_team
  simp only [Team.update_sorted_times]
  split_ifs <;> simp [getProblem_mapSet]

theorem freezeInv_submit (s : ICPCSystem) (problem team_name status : String) (time : Int)
    (h : FreezeInv s) : FreezeInv (submit s problem team_name status time) := by
  obtain ⟨ha, hb, hc⟩ := h
  have hfz : (submit s problem team_name status time).frozen = s.frozen := rfl
  have key : ((problemOf (submit s problem team_name status time) team_name
        (probKey problem)).frozen = true →
        (problemOf (submit s problem team_name status time) team_name
          (probKey problem)).solved = false)
      ∧ (s.frozen = false → (problemOf (submit s problem team_name status time) team_name
          (probKey problem)).frozen = false)
      ∧ ((problemOf (submit s problem team_name status time) team_name
          (probKey problem)).frozen = false →
        (problemOf (submit s problem team_name status time) team_name
            (probKey problem)).first_ac_time_in_freeze = -1
        ∧ (problemOf (submit s problem team_name status time) team_name
            (probKey problem)).total_wrongs_in_freeze = 0
        ∧ (problemOf (submit s problem team_name status time) team_name
            (probKey problem)).frozen_count = 0
        ∧ (problemOf (submit s problem team_name status time) team_name
            (probKey problem)).wrongs_before_ac_in_freeze = 0) := by
    have a0 := ha team_name (probKey problem)
    have b0 := fun hf => hb hf team_name (probKey problem)
    have c0 := hc team_name (probKey problem)
    rw [problemOf_submit_self]
    unfold problemOf at a0 b0 c0
    generalize getTeam s.teams team_name = t at *
    unfold submit_team
    simp only [Team.update_sorted_times]
    generalize getProblem t.problems (probKey problem) = ps at *
    by_cases hg : s.frozen = true
    · by_cases hsol : ps.solved = true
      · have hnf : ps.frozen = false := by
          cases hfr : ps.frozen with
          | false => rfl
          | true => rw [a0 hfr] at hsol; simp at hsol
        have c1 := c0 hnf
        by_cases hacc : status = "Accepted" <;>
          simp [hg, hsol, hacc, getProblem_mapSet, hnf, c1]
      · have hsol' : ps.solved = false := by simpa using hsol
        by_cases hfr : ps.frozen = true <;> by_cases hacc : status = "Accepted" <;>
          by_cases h3 : ps.first_ac_time_in_freeze = -1 <;>
          simp [hg, hsol', hacc, getProblem_mapSet, hfr, h3]
    · have hg' : s.frozen = false := by simpa using hg
      have hnf := b0 hg'
      have c1 := c0 hnf
      by_cases hsol : ps.solved = true <;> by_cases hacc : status = "Accepted" <;>
        simp [hg', hsol, hacc, getProblem_mapSet, hnf, c1]
  refine ⟨?_, ?_, ?_⟩
  · intro n p
    by_cases hnp : n = team_name ∧ p = probKey problem
    · rw [hnp.1, hnp.2]; exact key.1
    · rw [problemOf_submit_ne _ _ _ _ _ n p hnp]; exact ha n p
  · intro hf n p
    rw [hfz] at hf
    by_cases hnp : n = team_name ∧ p = probKey problem
    · rw [hnp.1, hnp.2]; exact key.2.1 hf
    · rw [problemOf_submit_ne _ _ _ _ _ n p hnp]; exact hb hf n p
  · intro n p
    by_cases hnp : n = team_name ∧ p = probKey problem
    · rw [hnp.1, hnp.2]; exact key.2.2
    · rw [problemOf_submit_ne _ _ _ _ _ n p hnp]; exact hc n p

theorem freezeInv_congr (s s' : ICPCSystem) (hp : ∀ n p, problemOf s' n p = problemOf s n p)
    (hf : s'.frozen = s.frozen) (h : FreezeInv s) : FreezeInv s' := by
  obtain ⟨ha, hb, hc⟩ := h
  refine ⟨?_, ?_, ?_⟩
  · intro n p; rw [hp]; exact ha n p
  · intro hf2 n p; rw [hp]; exact hb (hf ▸ hf2) n p
  · intro n p; rw [hp]; exact hc n p

theorem frozen_add_team (s : ICPCSystem) (name : String) :
    (add_team s name).1.frozen = s.frozen := by
  unfold add_team; split_ifs <;> rfl

theorem frozen_start (s : ICPCSystem) (dur prob_count : Int) :
    (start s dur prob_count).1.frozen = s.frozen := by
  unfold start; split_ifs <;> rfl

theorem freezeInv_init : FreezeInv {} := by
  refine ⟨?_, ?_, ?_⟩ <;> intros <;> simp [problemOf, getTeam, getProblem, mapFind] at *

theorem problemOf_reveal_state_ne (s : ICPCSystem) (n : String) (p : Nat)
    (h : ¬ (n = find_lowest s ∧ p = find_smallest (getTeam s.teams (find_lowest s)))) :
    problemOf (reveal_state s) n p = problemOf s n p := by
  unfold problemOf
  rw [getTeam_reveal_state]
  by_cases hn : n = find_lowest s
  · have hp : p ≠ find_smallest (getTeam s.teams (find_lowest s)) := fun e => h ⟨hn, e⟩
    simp only [hn, if_true]
    rw [getProblem_reveal _ _ p hp]
  · simp [hn]

theorem problemOf_reveal_state_self (s : ICPCSystem) :
    problemOf (reveal_state s) (find_lowest s)
        (find_smallest (getTeam s.teams (find_lowest s)))
      = getProblem (reveal (getTeam s.teams (find_lowest s))
          (find_smallest (getTeam s.teams (find_lowest s)))).1.problems
          (find_smallest (getTeam s.teams (find_lowest s))) := by
  unfold problemOf
  rw [getTeam_reveal_state]
  simp

theorem reveal_self_cleared (t : Team) (p : Nat) :
    (getProblem (reveal t p).1.problems p).frozen = false
    ∧ (getProblem (reveal t p).1.problems p).first_ac_time_in_freeze = -1
    ∧ (getProblem (reveal t p).1.problems p).total_wrongs_in_freeze = 0
    ∧ (getProblem (reveal t p).1.problems p).frozen_count = 0
    ∧ (getProblem (reveal t p).1.problems p).wrongs_before_ac_in_freeze = 0 := by
  unfold reveal
  by_cases h : (getProblem t.problems p).first_ac_time_in_freeze = -1 <;>
    simp [h, Team.update_sorted_times, getProblem_mapSet]

theorem freezeInv_reveal_state (s : ICPCSystem) (h : FreezeInv s) :
    FreezeInv (reveal_state s) := by
  obtain ⟨ha, hb, hc⟩ := h
  have hcl := reveal_self_cleared (getTeam s.teams (find_lowest s))
    (find_smallest (getTeam s.teams (find_lowest s)))
  refine ⟨?_, ?_, ?_⟩
  · intro n p
    by_cases hnp : n = find_lowest s ∧ p = find_smallest (getTeam s.teams (find_lowest s))
    · rw [hnp.1, hnp.2, problemOf_reveal_state_self, hcl.1]
      intro hx; simp at hx
    · rw [problemOf_reveal_state_ne s n p hnp]; exact ha n p
  · intro hf n p
    by_cases hnp : n = find_lowest s ∧ p = find_smallest (getTeam s.teams (find_lowest s))
    · rw [hnp.1, hnp.2, problemOf_reveal_state_self]; exact hcl.1
    · rw [problemOf_reveal_state_ne s n p hnp]; exact hb hf n p
  · intro n p
    by_cases hnp : n = find_lowest s ∧ p = find_smallest (getTeam s.teams (find_lowest s))
    · rw [hnp.1, hnp.2, problemOf_reveal_state_self]
      intro _; exact hcl.2
    · rw [problemOf_reveal_state_ne s n p hnp]; exact hc n p

theorem freezeInv_update_scoreboard (s : ICPCSystem) (h : FreezeInv s) :
    FreezeInv (update_scoreboard s) :=
  freezeInv_congr s _ (problemOf_update_scoreboard s) rfl h

theorem freezeInv_scroll_step (s s' : ICPCSystem) (ev : Option RankChange)
    (hs : scroll_step s = some (s', ev)) (h : FreezeInv s) : FreezeInv s' := by
  obtain ⟨_, h1 | h1⟩ := scroll_step_cases s s' ev hs
  · rw [h1.1]; exact freezeInv_reveal_state s h
  · rw [h1.1]; exact freezeInv_update_scoreboard _ (freezeInv_reveal_state s h)

theorem orderInv_update_scoreboard (s : ICPCSystem) : OrderInv (update_scoreboard s) := by
  intro n
  rw [mapKeys_update_scoreboard, team_order_update_scoreboard]
  exact (perm_stable_sort _ _).mem_iff

theorem find_lowest_spec (s : ICPCSystem) (h : find_lowest s ≠ "") :
    find_lowest s ∈ s.team_order ∧ has_frozen (getTeam s.teams (find_lowest s)) = true := by
  unfold find_lowest at h ⊢
  cases hf : s.team_order.reverse.find? (fun n => has_frozen (getTeam s.teams n)) with
  | none => simp [hf] at h
  | some n =>
    simp only [Option.getD_some]
    have h1 := List.mem_of_find?_eq_some hf
    have h2 := List.find?_some hf
    exact ⟨List.mem_reverse.1 h1, h2⟩

theorem mapKeys_reveal_state (s : ICPCSystem) (h : find_lowest s ∈ mapKeys s.teams) :
    mapKeys (reveal_state s).teams = mapKeys s.teams :=
  mapKeys_mapSet_of_mem _ _ _ _ h

theorem orderInv_reveal_state (s : ICPCSystem) (h : OrderInv s) (hl : find_lowest s ≠ "") :
    OrderInv (reveal_state s) := by
  have hk := mapKeys_reveal_state s ((h _).1 (find_lowest_spec s hl).1)
  intro n
  rw [hk]
  exact h n

theorem mapKeys_scroll_step (s s' : ICPCSystem) (ev : Option RankChange)
    (hs : scroll_step s = some (s', ev)) (h : OrderInv s) :
    mapKeys s'.teams = mapKeys s.teams ∧ OrderInv s' := by
  obtain ⟨hl, h1 | h1⟩ := scroll_step_cases s s' ev hs
  · rw [h1.1]
    exact ⟨mapKeys_reveal_state s ((h _).1 (find_lowest_spec s hl).1),
      orderInv_reveal_state s h hl⟩
  · rw [h1.1, mapKeys_update_scoreboard]
    exact ⟨mapKeys_reveal_state s ((h _).1 (find_lowest_spec s hl).1),
      orderInv_update_scoreboard _⟩

theorem getProblem_not_frozen (problems : List (Nat × ProblemStatus))
    (h : problems.any (fun e => e.2.frozen) = false) (p : Nat) :
    (getProblem problems p).frozen = false := by
  unfold getProblem
  cases hf : mapFind problems p with
  | none => rfl
  | some ps =>
    have hm := mem_of_mapFind p ps problems hf
    simp only [List.any_eq_false] at h
    have := h (p, ps) hm
    simpa using this

theorem getTeam_of_not_mem (teams : List (String × Team)) (n : String)
    (h : n ∉ mapKeys teams) : getTeam teams n = {} := by
  unfold getTeam
  cases hf : mapFind teams n with
  | none => rfl
  | some t =>
    exfalso
    exact h ((mem_mapKeys_iff n teams).2 (by simp [hf]))

theorem no_frozen_of_loop_end (s : ICPCSystem) (ho : OrderInv s)
    (hne : "" ∉ mapKeys s.teams) (hl : find_lowest s = "") :
    ∀ n p, (problemOf s n p).frozen = false := by
  have hnone : s.team_order.reverse.find? (fun n => has_frozen (getTeam s.teams n)) = none := by
    unfold find_lowest at hl
    cases hf : s.team_order.reverse.find? (fun n => has_frozen (getTeam s.teams n)) with
    | none => rfl
    | some m =>
      exfalso
      rw [hf] at hl
      simp only [Option.getD_some] at hl
      have hm := List.mem_reverse.1 (List.mem_of_find?_eq_some hf)
      exact hne ((ho _).1 (hl ▸ hm))
  intro n p
  unfold problemOf
  by_cases hn : n ∈ mapKeys s.teams
  · have hm : n ∈ s.team_order.reverse := List.mem_reverse.2 ((ho n).2 hn)
    have := List.find?_eq_none.1 hnone n hm
    have hfz : has_frozen (getTeam s.teams n) = false := by simpa using this
    exact getProblem_not_frozen _ hfz p
  · rw [getTeam_of_not_mem _ _ hn]
    rfl

theorem scroll_step_none_iff (s : ICPCSystem) : scroll_step s = none ↔ find_lowest s = "" := by
  unfold scroll_step
  by_cases h : find_lowest s = ""
  · simp [h]
  · simp only [h, if_false, iff_false]
    split_ifs <;> simp

theorem frozen_scroll_step (s s' : ICPCSystem) (ev : Option RankChange)
    (hs : scroll_step s = some (s', ev)) : s'.frozen = s.frozen := by
  obtain ⟨_, h1 | h1⟩ := scroll_step_cases s s' ev hs
  · rw [h1.1]; rfl
  · rw [h1.1]; rfl

theorem scroll_loop_end : ∀ (fuel : Nat) (s s' : ICPCSystem) (evs : List RankChange),
    scroll_loop fuel s = some (s', evs) → FreezeInv s → OrderInv s → "" ∉ mapKeys s.teams →
    FreezeInv s' ∧ OrderInv s' ∧ mapKeys s'.teams = mapKeys s.teams
      ∧ s'.frozen = s.frozen ∧ ∀ n p, (problemOf s' n p).frozen = false
  | 0, _, _, _, h, _, _, _ => by simp [scroll_loop] at h
  | fuel + 1, s, s', evs, h, hi, ho, hne => by
    simp only [scroll_loop] at h
    cases hstep : scroll_step s with
    | none =>
      simp only [hstep, Option.some.injEq, Prod.mk.injEq] at h
      rw [← h.1]
      exact ⟨hi, ho, rfl, rfl,
        no_frozen_of_loop_end s ho hne ((scroll_step_none_iff s).1 hstep)⟩
    | some r =>
      obtain ⟨s1, ev⟩ := r
      simp only [hstep] at h
      cases hloop : scroll_loop fuel s1 with
      | none => simp [hloop] at h
      | some r2 =>
        obtain ⟨s2, evs2⟩ := r2
        simp only [hloop, Option.some.injEq, Prod.mk.injEq] at h
        rw [← h.1]
        have hk := mapKeys_scroll_step s s1 ev hstep ho
        have ih := scroll_loop_end fuel s1 s2 evs2 hloop
          (freezeInv_scroll_step s s1 ev hstep hi) hk.2 (by rw [hk.1]; exact hne)
        exact ⟨ih.1, ih.2.1, ih.2.2.1.trans hk.1,
          ih.2.2.2.1.trans (frozen_scroll_step s s1 ev hstep), ih.2.2.2.2⟩

theorem freezeInv_exec (fuel : Nat) (s : ICPCSystem) (c : Cmd) (s' : ICPCSystem)
    (out : List String) (h : exec fuel s c = some (s', out)) (hi : FreezeInv s)
    (hne : "" ∉ mapKeys s.teams) : FreezeInv s' := by
  cases c with
  | add_team name =>
    simp only [exec, Option.some.injEq] at h
    have e : s' = (add_team s name).1 := by rw [h]
    rw [e]
    exact freezeInv_congr s _ (problemOf_add_team s name) (frozen_add_team s name) hi
  | start dur prob_count =>
    simp only [exec, Option.some.injEq] at h
    have e : s' = (start s dur prob_count).1 := by rw [h]
    rw [e]
    exact freezeInv_congr s _ (problemOf_start s dur prob_count) (frozen_start s _ _) hi
  | submit problem team_name status time =>
    simp only [exec, Option.some.injEq, Prod.mk.injEq] at h
    rw [← h.1]; exact freezeInv_submit s problem team_name status time hi
  | flush =>
    simp only [exec, flush, Option.some.injEq, Prod.mk.injEq] at h
    rw [← h.1]; exact freezeInv_update_scoreboard s hi
  | freeze =>
    simp only [exec, freeze_scoreboard, Option.some.injEq] at h
    by_cases hf : s.frozen = true
    · simp only [hf, if_true, Prod.mk.injEq] at h
      rw [← h.1]; exact hi
    · simp only [hf, Bool.false_eq_true, if_false, Prod.mk.injEq] at h
      rw [← h.1]
      obtain ⟨ha, _, hc⟩ := hi
      exact ⟨ha, fun hx => by simp at hx, hc⟩
  | scroll =>
    simp only [exec, scroll] at h
    by_cases hf : s.frozen = true
    · simp only [hf, Bool.not_true, Bool.false_eq_true, if_false] at h
      cases hloop : scroll_loop fuel (update_scoreboard s) with
      | none => simp [hloop] at h
      | some r =>
        obtain ⟨s2, evs⟩ := r
        simp only [hloop, Option.some.injEq, Prod.mk.injEq] at h
        rw [← h.1]
        have hend := scroll_loop_end fuel _ s2 evs hloop (freezeInv_update_scoreboard s hi)
          (orderInv_update_scoreboard s) (by rw [mapKeys_update_scoreboard]; exact hne)
        obtain ⟨ha, _, hc⟩ := hend.1
        exact ⟨ha, fun _ => hend.2.2.2.2, hc⟩
    · simp only [hf, Bool.not_false, if_true, Option.some.injEq, Prod.mk.injEq] at h
      rw [← h.1]; exact hi
  | query_ranking team_name =>
    simp only [exec, Option.some.injEq, Prod.mk.injEq] at h
    rw [← h.1]; exact hi
  | query_submission team_name problem status =>
    simp only [exec, Option.some.injEq, Prod.mk.injEq] at h
    rw [← h.1]; exact hi

theorem mapKeys_scroll_loop : ∀ (fuel : Nat) (s s' : ICPCSystem) (evs : List RankChange),
    scroll_loop fuel s = some (s', evs) → OrderInv s →
    mapKeys s'.teams = mapKeys s.teams ∧ OrderInv s'
  | 0, _, _, _, h, _ => by simp [scroll_loop] at h
  | fuel + 1, s, s', evs, h, ho => by
    simp only [scroll_loop] at h
    cases hstep : scroll_step s with
    | none =>
      simp only [hstep, Option.some.injEq, Prod.mk.injEq] at h
      rw [← h.1]
      exact ⟨rfl, ho⟩
    | some r =>
      obtain ⟨s1, ev⟩ := r
      simp only [hstep] at h
      cases hloop : scroll_loop fuel s1 with
      | none => simp [hloop] at h
      | some r2 =>
        obtain ⟨s2, evs2⟩ := r2
        simp only [hloop, Option.some.injEq, Prod.mk.injEq] at h
        rw [← h.1]
        have hk := mapKeys_scroll_step s s1 ev hstep ho
        have ih := mapKeys_scroll_loop fuel s1 s2 evs2 hloop hk.2
        exact ⟨ih.1.trans hk.1, ih.2⟩

theorem mapKeys_exec (fuel : Nat) (s : ICPCSystem) (c : Cmd) (s' : ICPCSystem)
    (out : List String) (h : exec fuel s c = some (s', out)) (n : String)
    (hn : n ∈ mapKeys s.teams) : n ∈ mapKeys s'.teams := by
  cases c with
  | add_team name =>
    simp only [exec, Option.some.injEq] at h
    have e : s' = (add_team s name).1 := by rw [h]
    rw [e]
    unfold add_team
    split_ifs
    · exact hn
    · exact hn
    · exact (mem_mapKeys_mapSet _ _ _ _ _).2 (Or.inr hn)
  | start dur prob_count =>
    simp only [exec, Option.some.injEq] at h
    have e : s' = (start s dur prob_count).1 := by rw [h]
    rw [e]
    unfold start
    split_ifs
    · exact hn
    · simp only
      rw [mapKeys_assign_rankings _ _ _ (fun _ hm => (perm_stable_sort _ _).subset hm)]
      exact hn
  | submit problem team_name status time =>
    simp only [exec, Option.some.injEq, Prod.mk.injEq] at h
    rw [← h.1]
    exact (mem_mapKeys_mapSet _ _ _ _ _).2 (Or.inr hn)
  | flush =>
    simp only [exec, flush, Option.some.injEq, Prod.mk.injEq] at h
    rw [← h.1, mapKeys_update_scoreboard]; exact hn
  | freeze =>
    simp only [exec, freeze_scoreboard, Option.some.injEq] at h
    by_cases hf : s.frozen = true
    · simp only [hf, if_true, Prod.mk.injEq] at h
      rw [← h.1]; exact hn
    · simp only [hf, Bool.false_eq_true, if_false, Prod.mk.injEq] at h
      rw [← h.1]; exact hn
  | scroll =>
    simp only [exec, scroll] at h
    by_cases hf : s.frozen = true
    · simp only [hf, Bool.not_true, Bool.false_eq_true, if_false] at h
      cases hloop : scroll_loop fuel (update_scoreboard s) with
      | none => simp [hloop] at h
      | some r =>
        obtain ⟨s2, evs⟩ := r
        simp only [hloop, Option.some.injEq, Prod.mk.injEq] at h
        rw [← h.1]
        have hk := (mapKeys_scroll_loop fuel _ s2 evs hloop (orderInv_update_scoreboard s)).1
        simp only
        rw [hk, mapKeys_update_scoreboard]; exact hn
    · simp only [hf, Bool.not_false, if_true, Option.some.injEq, Prod.mk.injEq] at h
      rw [← h.1]; exact hn
  | query_ranking team_name =>
    simp only [exec, Option.some.injEq, Prod.mk.injEq] at h
    rw [← h.1]; exact hn
  | query_submission team_name problem status =>
    simp only [exec, Option.some.injEq, Prod.mk.injEq] at h
    rw [← h.1]; exact hn

theorem mapKeys_run (fuel : Nat) : ∀ (cmds : List Cmd) (s s' : ICPCSystem),
    run fuel s cmds = some s' → ∀ n, n ∈ mapKeys s.teams → n ∈ mapKeys s'.teams
  | [], s, s', h, n, hn => by
    simp only [run, Option.some.injEq] at h
    rw [← h]; exact hn
  | c :: cs, s, s', h, n, hn => by
    simp only [run] at h
    cases hx : exec fuel s c with
    | none => simp [hx] at h
    | some r =>
      obtain ⟨s1, out⟩ := r
      simp only [hx] at h
      exact mapKeys_run fuel cs s1 s' h n (mapKeys_exec fuel s c s1 out hx n hn)

theorem freezeInv_run (fuel : Nat) : ∀ (cmds : List Cmd) (s s' : ICPCSystem),
    run fuel s cmds = some s' → "" ∉ mapKeys s'.teams → FreezeInv s → FreezeInv s'
  | [], s, s', h, _, hi => by
    simp only [run, Option.some.injEq] at h
    rw [← h]; exact hi
  | c :: cs, s, s', h, hne, hi => by
    simp only [run] at h
    cases hx : exec fuel s c with
    | none => simp [hx] at h
    | some r =>
      obtain ⟨s1, out⟩ := r
      simp only [hx] at h
      have hne0 : "" ∉ mapKeys s.teams := fun hm =>
        hne (mapKeys_run fuel cs s1 s' h "" (mapKeys_exec fuel s c s1 out hx "" hm))
      exact freezeInv_run fuel cs s1 s' h hne (freezeInv_exec fuel s c s1 out hx hi hne0)

/-- Between commands, when no team is registered under the empty name: no problem is
frozen and solved at once, and no problem is frozen while the global mode is not frozen. -/
theorem frozen_flags_consistent (s : ICPCSystem) (h : Reachable s)
    (hne : "" ∉ mapKeys s.teams) :
    (∀ n p, ¬ ((problemOf s n p).frozen = true ∧ (problemOf s n p).solved = true))
    ∧ (s.frozen = false → ∀ n p, (problemOf s n p).frozen = false) := by
  obtain ⟨fuel, cmds, hr⟩ := h
  have hi := freezeInv_run fuel cmds {} s hr hne freezeInv_init
  refine ⟨?_, hi.2.1⟩
  rintro n p ⟨h1, h2⟩
  rw [hi.1 n p h1] at h2
  simp at h2

/-! ## The scoring invariant when no team has the empty name -/

theorem penalty_sum_set (m : List (Nat × ProblemStatus)) (k : Nat) (v : ProblemStatus) :
    penalty_sum (mapSet char_less m k v)
      = penalty_sum m - penalty_of (getProblem m k) + penalty_of v := by
  rw [penalty_sum_mapSet]
  unfold getProblem
  cases hf : mapFind m k with
  | none => simp [penalty_of]
  | some ps => simp

theorem solved_number_set (m : List (Nat × ProblemStatus)) (k : Nat) (v : ProblemStatus) :
    (solved_number (mapSet char_less m k v) : Int)
      = solved_number m - (if (getProblem m k).solved = true then 1 else 0)
        + (if v.solved = true then 1 else 0) := by
  rw [solved_number_mapSet]
  unfold getProblem
  cases hf : mapFind m k with
  | none => simp
  | some ps => simp

theorem teamScore_submit_team (frozen : Bool) (t : Team) (prob : Nat) (status : String)
    (time : Int) (h : TeamScore t) : TeamScore (submit_team frozen t prob status time) := by
  obtain ⟨h1, h2⟩ := h
  unfold submit_team
  simp only [Team.update_sorted_times]
  by_cases hsol : (getProblem t.problems prob).solved = true
  · by_cases hacc : status = "Accepted"
    · simp only [hsol, hacc, Bool.or_true, if_true, Bool.not_true, Bool.and_false,
        Bool.false_eq_true, if_false, ne_eq, not_true_eq_false, TeamScore, penalty_sum_set,
        solved_number_set, h1, h2]
      constructor <;> ring
    · simp only [hsol, hacc, Bool.or_true, if_true, Bool.not_true, Bool.and_false,
        Bool.false_eq_true, if_false, ne_eq, not_false_eq_true, TeamScore, penalty_sum_set,
        solved_number_set, penalty_of, h1, h2]
      constructor <;> ring
  · have hsol' : (getProblem t.problems prob).solved = false := by simpa using hsol
    cases frozen with
    | false =>
      by_cases hacc : status = "Accepted"
      · simp only [hsol', hacc, Bool.not_false, Bool.or_false, if_true, decide_True,
          Bool.and_self, TeamScore, penalty_sum_set, solved_number_set, penalty_of, h1, h2,
          Bool.false_eq_true, if_false]
        constructor <;> ring
      · simp only [hsol', hacc, Bool.not_false, Bool.or_false, if_true, decide_False,
          Bool.false_and, Bool.false_eq_true, if_false, ne_eq, not_false_eq_true, TeamScore,
          penalty_sum_set, solved_number_set, penalty_of, h1, h2]
        constructor <;> ring
    | true =>
      simp only [hsol', Bool.not_true, Bool.or_false, Bool.false_eq_true, if_false,
        Bool.not_false, if_true, TeamScore, penalty_sum_set, solved_number_set, penalty_of,
        h1, h2]
      split_ifs <;> simp_all

theorem teamScore_reveal (t : Team) (p : Nat) (h : TeamScore t)
    (hu : (getProblem t.problems p).first_ac_time_in_freeze ≠ -1 →
      (getProblem t.problems p).solved = false) : TeamScore (reveal t p).1 := by
  obtain ⟨h1, h2⟩ := h
  unfold reveal
  simp only [Team.update_sorted_times]
  by_cases hac : (getProblem t.problems p).first_ac_time_in_freeze = -1
  · simp only [hac, ne_eq, not_true_eq_false, if_false, TeamScore, penalty_sum_set,
      solved_number_set, penalty_of, h1, h2]
    constructor <;> ring
  · have hs := hu hac
    simp only [hac, ne_eq, not_false_eq_true, if_true, TeamScore, penalty_sum_set,
      solved_number_set, penalty_of, hs, h1, h2, Bool.false_eq_true, if_false]
    constructor <;> ring

theorem scoreInv_init : ScoreInv {} := by
  intro n
  simp [getTeam, mapFind, TeamScore, solved_number, penalty_sum]

theorem scoreInv_of_view (s s' : ICPCSystem)
    (hv : ∀ n, ∃ r, getTeam s'.teams n = { getTeam s.teams n with ranking := r })
    (h : ScoreInv s) : ScoreInv s' := by
  intro n
  obtain ⟨r, hr⟩ := hv n
  rw [hr]
  exact h n

theorem scoreInv_update_scoreboard (s : ICPCSystem) (h : ScoreInv s) :
    ScoreInv (update_scoreboard s) :=
  scoreInv_of_view s _ (getTeam_update_scoreboard s) h

theorem scoreInv_add_team (s : ICPCSystem) (name : String) (h : ScoreInv s) :
    ScoreInv (add_team s name).1 := by
  unfold add_team
  split_ifs
  · exact h
  · exact h
  · intro n
    simp only [getTeam_mapSet]
    split_ifs
    · simp [TeamScore, solved_number, penalty_sum]
    · exact h n

theorem scoreInv_start (s : ICPCSystem) (dur prob_count : Int) (h : ScoreInv s) :
    ScoreInv (start s dur prob_count).1 := by
  unfold start
  split_ifs
  · exact h
  · exact scoreInv_of_view s _ (fun n => getTeam_assign_rankings _ _ _ n) h

theorem scoreInv_submit (s : ICPCSystem) (problem team_name status : String) (time : Int)
    (h : ScoreInv s) : ScoreInv (submit s problem team_name status time) := by
  intro n
  rw [getTeam_submit]
  split_ifs
  · exact teamScore_submit_team _ _ _ _ _ (h team_name)
  · exact h n

theorem scoreInv_reveal_state (s : ICPCSystem) (hf : FreezeInv s) (h : ScoreInv s) :
    ScoreInv (reveal_state s) := by
  intro n
  rw [getTeam_reveal_state]
  split_ifs
  · refine teamScore_reveal _ _ (h _) ?_
    intro hac
    have hc := hf.2.2 (find_lowest s) (find_smallest (getTeam s.teams (find_lowest s)))
    have ha := hf.1 (find_lowest s) (find_smallest (getTeam s.teams (find_lowest s)))
    unfold problemOf at hc ha
    cases hfr : (getProblem (getTeam s.teams (find_lowest s)).problems
        (find_smallest (getTeam s.teams (find_lowest s)))).frozen with
    | true => exact ha hfr
    | false => exact absurd (hc hfr).1 hac
  · exact h n

theorem scoreInv_scroll_step (s s' : ICPCSystem) (ev : Option RankChange)
    (hs : scroll_step s = some (s', ev)) (hf : FreezeInv s) (h : ScoreInv s) : ScoreInv s' := by
  obtain ⟨_, h1 | h1⟩ := scroll_step_cases s s' ev hs
  · rw [h1.1]; exact scoreInv_reveal_state s hf h
  · rw [h1.1]; exact scoreInv_update_scoreboard _ (scoreInv_reveal_state s hf h)

theorem scoreInv_scroll_loop : ∀ (fuel : Nat) (s s' : ICPCSystem) (evs : List RankChange),
    scroll_loop fuel s = some (s', evs) → FreezeInv s → ScoreInv s → ScoreInv s'
  | 0, _, _, _, h, _, _ => by simp [scroll_loop] at h
  | fuel + 1, s, s', evs, h, hf, hi => by
    simp only [scroll_loop] at h
    cases hstep : scroll_step s with
    | none =>
      simp only [hstep, Option.some.injEq, Prod.mk.injEq] at h
      rw [← h.1]; exact hi
    | some r =>
      obtain ⟨s1, ev⟩ := r
      simp only [hstep] at h
      cases hloop : scroll_loop fuel s1 with
      | none => simp [hloop] at h
      | some r2 =>
        obtain ⟨s2, evs2⟩ := r2
        simp only [hloop, Option.some.injEq, Prod.mk.injEq] at h
        rw [← h.1]
        exact scoreInv_scroll_loop fuel s1 s2 evs2 hloop
          (freezeInv_scroll_step s s1 ev hstep hf) (scoreInv_scroll_step s s1 ev hstep hf hi)

theorem scoreInv_exec (fuel : Nat) (s : ICPCSystem) (c : Cmd) (s' : ICPCSystem)
    (out : List String) (h : exec fuel s c = some (s', out)) (hf : FreezeInv s)
    (hi : ScoreInv s) : ScoreInv s' := by
  cases c with
  | add_team name =>
    simp only [exec, Option.some.injEq] at h
    have e : s' = (add_team s name).1 := by rw [h]
    rw [e]; exact scoreInv_add_team s name hi
  | start dur prob_count =>
    simp only [exec, Option.some.injEq] at h
    have e : s' = (start s dur prob_count).1 := by rw [h]
    rw [e]; exact scoreInv_start s dur prob_count hi
  | submit problem team_name status time =>
    simp only [exec, Option.some.injEq, Prod.mk.injEq] at h
    rw [← h.1]; exact scoreInv_submit s problem team_name status time hi
  | flush =>
    simp only [exec, flush, Option.some.injEq, Prod.mk.injEq] at h
    rw [← h.1]; exact scoreInv_update_scoreboard s hi
  | freeze =>
    simp only [exec, freeze_scoreboard, Option.some.injEq] at h
    by_cases hfz : s.frozen = true
    · simp only [hfz, if_true, Prod.mk.injEq] at h
      rw [← h.1]; exact hi
    · simp only [hfz, Bool.false_eq_true, if_false, Prod.mk.injEq] at h
      rw [← h.1]; exact hi
  | scroll =>
    simp only [exec, scroll] at h
    by_cases hfz : s.frozen = true
    · simp only [hfz, Bool.not_true, Bool.false_eq_true, if_false] at h
      cases hloop : scroll_loop fuel (update_scoreboard s) with
      | none => simp [hloop] at h
      | some r =>
        obtain ⟨s2, evs⟩ := r
        simp only [hloop, Option.some.injEq, Prod.mk.injEq] at h
        rw [← h.1]
        exact scoreInv_scroll_loop fuel _ s2 evs hloop (freezeInv_update_scoreboard s hf)
          (scoreInv_update_scoreboard s hi)
    · simp only [hfz, Bool.not_false, if_true, Option.some.injEq, Prod.mk.injEq] at h
      rw [← h.1]; exact hi
  | query_ranking team_name =>
    simp only [exec, Option.some.injEq, Prod.mk.injEq] at h
    rw [← h.1]; exact hi
  | query_submission team_name problem status =>
    simp only [exec, Option.some.injEq, Prod.mk.injEq] at h
    rw [← h.1]; exact hi

/-- In every state the program passes through, when no team is registered under the empty
name: the frozen flags are consistent and every team's solved count and penalty agree
with its solved problems. -/
theorem score_consistent (s : ICPCSystem) (h : Visited s) :
    "" ∉ mapKeys s.teams → FreezeInv s ∧ ScoreInv s := by
  induction h with
  | init => exact fun _ => ⟨freezeInv_init, scoreInv_init⟩
  | cmd fuel s c s' out _ hx ih =>
    intro hne
    have hne0 : "" ∉ mapKeys s.teams := fun hm => hne (mapKeys_exec fuel s c s' out hx "" hm)
    obtain ⟨hf, hi⟩ := ih hne0
    exact ⟨freezeInv_exec fuel s c s' out hx hf hne0, scoreInv_exec fuel s c s' out hx hf hi⟩
  | ranked s _ ih =>
    intro hne
    rw [mapKeys_update_scoreboard] at hne
    obtain ⟨hf, hi⟩ := ih hne
    exact ⟨freezeInv_update_scoreboard s hf, scoreInv_update_scoreboard s hi⟩
  | revealed s _ _ ih =>
    intro hne
    have hne0 : "" ∉ mapKeys s.teams := fun hm =>
      hne ((mem_mapKeys_mapSet _ _ _ _ _).2 (Or.inr hm))
    obtain ⟨hf, hi⟩ := ih hne0
    exact ⟨freezeInv_reveal_state s hf, scoreInv_reveal_state s hf hi⟩

/-! ## The selection made by the scroll loop -/

theorem problemsInv_init : ProblemsInv {} := by
  intro n; simp [getTeam, mapFind, mapKeys]

theorem nodup_problems_submit_team (frozen : Bool) (t : Team) (prob : Nat) (status : String)
    (time : Int) (h : (mapKeys t.problems).Nodup) :
    (mapKeys (submit_team frozen t prob status time).problems).Nodup := by
  unfold submit_team
  simp only [Team.update_sorted_times]
  split_ifs <;> exact nodup_mapKeys_mapSet _ _ _ _ h

theorem nodup_problems_reveal (t : Team) (p : Nat) (h : (mapKeys t.problems).Nodup) :
    (mapKeys (reveal t p).1.problems).Nodup := by
  unfold reveal
  simp only [Team.update_sorted_times]
  split_ifs <;> exact nodup_mapKeys_mapSet _ _ _ _ h

theorem problemsInv_of_view (s s' : ICPCSystem)
    (hv : ∀ n, ∃ r, getTeam s'.teams n = { getTeam s.teams n with ranking := r })
    (h : ProblemsInv s) : ProblemsInv s' := by
  intro n
  obtain ⟨r, hr⟩ := hv n
  rw [hr]
  exact h n

theorem problemsInv_update_scoreboard (s : ICPCSystem) (h : ProblemsInv s) :
    ProblemsInv (update_scoreboard s) :=
  problemsInv_of_view s _ (getTeam_update_scoreboard s) h

theorem problemsInv_reveal_state (s : ICPCSystem) (h : ProblemsInv s) :
    ProblemsInv (reveal_state s) := by
  intro n
  rw [getTeam_reveal_state]
  split_ifs
  · exact nodup_problems_reveal _ _ (h _)
  · exact h n

theorem problemsInv_scroll_step (s s' : ICPCSystem) (ev : Option RankChange)
    (hs : scroll_step s = some (s', ev)) (h : ProblemsInv s) : ProblemsInv s' := by
  obtain ⟨_, h1 | h1⟩ := scroll_step_cases s s' ev hs
  · rw [h1.1]; exact problemsInv_reveal_state s h
  · rw [h1.1]; exact problemsInv_update_scoreboard _ (problemsInv_reveal_state s h)

theorem problemsInv_scroll_loop : ∀ (fuel : Nat) (s s' : ICPCSystem) (evs : List RankChange),
    scroll_loop fuel s = some (s', evs) → ProblemsInv s → ProblemsInv s'
  | 0, _, _, _, h, _ => by simp [scroll_loop] at h
  | fuel + 1, s, s', evs, h, hi => by
    simp only [scroll_loop] at h
    cases hstep : scroll_step s with
    | none =>
      simp only [hstep, Option.some.injEq, Prod.mk.injEq] at h
      rw [← h.1]; exact hi
    | some r =>
      obtain ⟨s1, ev⟩ := r
      simp only [hstep] at h
      cases hloop : scroll_loop fuel s1 with
      | none => simp [hloop] at h
      | some r2 =>
        obtain ⟨s2, evs2⟩ := r2
        simp only [hloop, Option.some.injEq, Prod.mk.injEq] at h
        rw [← h.1]
        exact problemsInv_scroll_loop fuel s1 s2 evs2 hloop
          (problemsInv_scroll_step s s1 ev hstep hi)

theorem problemsInv_exec (fuel : Nat) (s : ICPCSystem) (c : Cmd) (s' : ICPCSystem)
    (out : List String) (h : exec fuel s c = some (s', out)) (hi : ProblemsInv s) :
    ProblemsInv s' := by
  cases c with
  | add_team name =>
    simp only [exec, Option.some.injEq] at h
    have e : s' = (add_team s name).1 := by rw [h]
    rw [e]
    unfold add_team
    split_ifs
    · exact hi
    · exact hi
    · intro n
      simp only [getTeam_mapSet]
      split_ifs
      · simp [mapKeys]
      · exact hi n
  | start dur prob_count =>
    simp only [exec, Option.some.injEq] at h
    have e : s' = (start s dur prob_count).1 := by rw [h]
    rw [e]
    unfold start
    split_ifs
    · exact hi
    · exact problemsInv_of_view s _ (fun n => getTeam_assign_rankings _ _ _ n) hi
  | submit problem team_name status time =>
    simp only [exec, Option.some.injEq, Prod.mk.injEq] at h
    rw [← h.1]
    intro n
    rw [getTeam_submit]
    split_ifs
    · exact nodup_problems_submit_team _ _ _ _ _ (hi team_name)
    · exact hi n
  | flush =>
    simp only [exec, flush, Option.some.injEq, Prod.mk.injEq] at h
    rw [← h.1]; exact problemsInv_update_scoreboard s hi
  | freeze =>
    simp only [exec, freeze_scoreboard, Option.some.injEq] at h
    by_cases hfz : s.frozen = true
    · simp only [hfz, if_true, Prod.mk.injEq] at h
      rw [← h.1]; exact hi
    · simp only [hfz, Bool.false_eq_true, if_false, Prod.mk.injEq] at h
      rw [← h.1]; exact hi
  | scroll =>
    simp only [exec, scroll] at h
    by_cases hfz : s.frozen = true
    · simp only [hfz, Bool.not_true, Bool.false_eq_true, if_false] at h
      cases hloop : scroll_loop fuel (update_scoreboard s) with
      | none => simp [hloop] at h
      | some r =>
        obtain ⟨s2, evs⟩ := r
        simp only [hloop, Option.some.injEq, Prod.mk.injEq] at h
        rw [← h.1]
        exact problemsInv_scroll_loop fuel _ s2 evs hloop (problemsInv_update_scoreboard s hi)
    · simp only [hfz, Bool.not_false, if_true, Option.some.injEq, Prod.mk.injEq] at h
      rw [← h.1]; exact hi
  | query_ranking team_name =>
    simp only [exec, Option.some.injEq, Prod.mk.injEq] at h
    rw [← h.1]; exact hi
  | query_submission team_name problem status =>
    simp only [exec, Option.some.injEq, Prod.mk.injEq] at h
    rw [← h.1]; exact hi

theorem problemsInv_of_visited (s : ICPCSystem) (h : Visited s) : ProblemsInv s := by
  induction h with
  | init => exact problemsInv_init
  | cmd fuel s c s' out _ hx ih => exact problemsInv_exec fuel s c s' out hx ih
  | ranked s _ ih => exact problemsInv_update_scoreboard s ih
  | revealed s _ _ ih => exact problemsInv_reveal_state s ih

theorem loopInv_update_scoreboard (s : ICPCSystem) (h : (mapKeys s.teams).Nodup) :
    LoopInv (update_scoreboard s) :=
  ⟨orderInv_update_scoreboard s, (perm_stable_sort _ _).nodup_iff.2 h,
    ranking_update_scoreboard s h⟩

theorem ranking_reveal (t : Team) (p : Nat) : (reveal t p).1.ranking = t.ranking := by
  unfold reveal
  simp only [Team.update_sorted_times]
  split_ifs <;> rfl

theorem loopInv_reveal_state (s : ICPCSystem) (h : LoopInv s) (hl : find_lowest s ≠ "") :
    LoopInv (reveal_state s) := by
  refine ⟨orderInv_reveal_state s h.1 hl, h.2.1, ?_⟩
  intro i hi
  have := h.2.2 i hi
  show (getTeam (reveal_state s).teams (s.team_order.get ⟨i, hi⟩)).ranking = _
  rw [getTeam_reveal_state]
  split_ifs with hn
  · rw [ranking_reveal, ← hn]; exact this
  · exact this

theorem loopInv_scroll_step (s s' : ICPCSystem) (ev : Option RankChange)
    (hs : scroll_step s = some (s', ev)) (hk : (mapKeys s.teams).Nodup) (h : LoopInv s) :
    LoopInv s' := by
  obtain ⟨hl, h1 | h1⟩ := scroll_step_cases s s' ev hs
  · rw [h1.1]; exact loopInv_reveal_state s h hl
  · rw [h1.1]
    refine loopInv_update_scoreboard _ ?_
    rw [mapKeys_reveal_state s ((h.1 _).1 (find_lowest_spec s hl).1)]
    exact hk

theorem rank_of_split {α : Type} (rank : α → Int) (l1 l2 : List α) (x : α)
    (h : ∀ (i : Nat) (hi : i < (l1 ++ x :: l2).length),
      rank ((l1 ++ x :: l2).get ⟨i, hi⟩) = (i : Int) + 1) :
    rank x = (l1.length : Int) + 1 ∧ ∀ n ∈ l1, rank n ≤ (l1.length : Int) := by
  constructor
  · have := h l1.length (by simp)
    simp only [List.get_eq_getElem] at this
    rw [List.getElem_append_right (Nat.le_refl _)] at this
    simpa using this
  · intro n hn
    obtain ⟨j, hj, hjn⟩ := List.getElem_of_mem hn
    have := h j (by simp; omega)
    simp only [List.get_eq_getElem] at this
    rw [List.getElem_append_left hj, hjn] at this
    rw [this]
    omega

theorem split_of_find_last {α : Type} (p : α → Bool) (l : List α) (x : α)
    (h : l.reverse.find? p = some x) :
    p x = true ∧ ∃ l1 l2, l = l1 ++ x :: l2 ∧ ∀ y ∈ l2, p y = false := by
  obtain ⟨hp, as, bs, he, hn⟩ := List.find?_eq_some.1 h
  refine ⟨hp, bs.reverse, as.reverse, ?_, ?_⟩
  · have := congrArg List.reverse he
    simpa using this
  · intro y hy
    have := hn y (List.mem_reverse.1 hy)
    simpa using this

theorem find_lowest_is_lowest (s : ICPCSystem) (h : LoopInv s) (hl : find_lowest s ≠ "")
    (n : String) (hn : n ∈ s.team_order) (hf : has_frozen (getTeam s.teams n) = true) :
    (getTeam s.teams n).ranking ≤ (getTeam s.teams (find_lowest s)).ranking := by
  have hfind : s.team_order.reverse.find? (fun m => has_frozen (getTeam s.teams m))
      = some (find_lowest s) := by
    unfold find_lowest at hl ⊢
    cases hx : s.team_order.reverse.find? (fun m => has_frozen (getTeam s.teams m)) with
    | none => simp [hx] at hl
    | some m => simp
  obtain ⟨_, l1, l2, he, hn2⟩ := split_of_find_last _ _ _ hfind
  have hr := h.2.2
  generalize find_lowest s = x at *
  generalize s.team_order = l at *
  subst he
  obtain ⟨r1, r2⟩ := rank_of_split (fun m => (getTeam s.teams m).ranking) l1 l2 x hr
  rcases List.mem_append.1 hn with h1 | h1
  · have := r2 n h1
    simp only at r1 this
    omega
  · rcases List.mem_cons.1 h1 with h2 | h2
    · rw [h2]
    · have := hn2 n h2
      simp only at this
      rw [this] at hf
      simp at hf

/-! The loop over the problems of the selected team. -/

theorem find_smallest_fold : ∀ (l : List (Nat × ProblemStatus)) (sp : Nat),
    l.foldl (fun sp p => if p.2.frozen && decide (p.1 < sp) then p.1 else sp) sp ≤ sp
    ∧ (l.foldl (fun sp p => if p.2.frozen && decide (p.1 < sp) then p.1 else sp) sp = sp
        ∨ ∃ e ∈ l, e.2.frozen = true
            ∧ e.1 = l.foldl (fun sp p => if p.2.frozen && decide (p.1 < sp) then p.1 else sp) sp)
    ∧ ∀ e ∈ l, e.2.frozen = true →
        l.foldl (fun sp p => if p.2.frozen && decide (p.1 < sp) then p.1 else sp) sp ≤ e.1
  | [], sp => by simp
  | e :: l, sp => by
    simp only [List.foldl_cons]
    by_cases hc : (e.2.frozen && decide (e.1 < sp)) = true
    · obtain ⟨i1, i2, i3⟩ := find_smallest_fold l e.1
      simp only [hc, if_true]
      simp only [Bool.and_eq_true, decide_eq_true_eq] at hc
      refine ⟨by omega, ?_, ?_⟩
      · right
        rcases i2 with h | ⟨e', he', hf', hk'⟩
        · exact ⟨e, by simp, hc.1, h.symm⟩
        · exact ⟨e', List.mem_cons_of_mem _ he', hf', hk'⟩
      · intro e' he' hf'
        rcases List.mem_cons.1 he' with h | h
        · rw [h]; exact i1
        · exact i3 e' h hf'
    · obtain ⟨i1, i2, i3⟩ := find_smallest_fold l sp
      simp only [hc, Bool.false_eq_true, if_false]
      refine ⟨i1, ?_, ?_⟩
      · rcases i2 with h | ⟨e', he', hf', hk'⟩
        · exact Or.inl h
        · exact Or.inr ⟨e', List.mem_cons_of_mem _ he', hf', hk'⟩
      · intro e' he' hf'
        rcases List.mem_cons.1 he' with h | h
        · subst h
          simp only [Bool.and_eq_true, decide_eq_true_eq, not_and] at hc
          have := hc hf'
          omega
        · exact i3 e' h hf'

theorem find_smallest_spec (t : Team) (hnd : (mapKeys t.problems).Nodup)
    (hex : ∃ p, (getProblem t.problems p).frozen = true ∧ p ≤ 90) :
    (getProblem t.problems (find_smallest t)).frozen = true
    ∧ ∀ p, (getProblem t.problems p).frozen = true → find_smallest t ≤ p := by
  obtain ⟨i1, i2, i3⟩ := find_smallest_fold t.problems 91
  have hmem : ∀ p, (getProblem t.problems p).frozen = true →
      ∃ ps, (p, ps) ∈ t.problems ∧ ps.frozen = true := by
    intro p hp
    unfold getProblem at hp
    cases hf : mapFind t.problems p with
    | none => rw [hf] at hp; simp at hp
    | some ps =>
      rw [hf] at hp
      exact ⟨ps, mem_of_mapFind p ps _ hf, by simpa using hp⟩
  have hmin : ∀ p, (getProblem t.problems p).frozen = true → find_smallest t ≤ p := by
    intro p hp
    obtain ⟨ps, hm, hfz⟩ := hmem p hp
    exact i3 (p, ps) hm hfz
  refine ⟨?_, hmin⟩
  obtain ⟨p0, hp0, hle⟩ := hex
  have hlt : find_smallest t ≤ 90 := le_trans (hmin p0 hp0) hle
  rcases i2 with h | ⟨e, he, hfz, hk⟩
  · unfold find_smallest at hlt
    omega
  · have hfind := mapFind_of_mem e.1 e.2 t.problems hnd he
    unfold find_smallest
    rw [← hk]
    simp [getProblem, hfind, hfz]

theorem has_frozen_of_problem (t : Team) (p : Nat)
    (h : (getProblem t.problems p).frozen = true) : has_frozen t = true := by
  unfold getProblem at h
  cases hf : mapFind t.problems p with
  | none => rw [hf] at h; simp at h
  | some ps =>
    rw [hf] at h
    unfold has_frozen
    exact List.any_eq_true.2 ⟨(p, ps), mem_of_mapFind p ps _ hf, by simpa using h⟩

theorem problem_of_has_frozen (t : Team) (hnd : (mapKeys t.problems).Nodup)
    (h : has_frozen t = true) : ∃ p, (getProblem t.problems p).frozen = true := by
  unfold has_frozen at h
  obtain ⟨e, he, hf⟩ := List.any_eq_true.1 h
  refine ⟨e.1, ?_⟩
  simp [getProblem, mapFind_of_mem e.1 e.2 t.problems hnd he, hf]

theorem mem_keys_of_frozen (s : ICPCSystem) (n : String) (p : Nat)
    (h : (problemOf s n p).frozen = true) : n ∈ mapKeys s.teams := by
  by_contra hn
  unfold problemOf at h
  rw [getTeam_of_not_mem _ _ hn] at h
  simp [getProblem, mapFind] at h

theorem find_lowest_ne_of_frozen (s : ICPCSystem) (ho : OrderInv s)
    (hne : "" ∉ mapKeys s.teams) (n : String) (p : Nat)
    (h : (problemOf s n p).frozen = true) : find_lowest s ≠ "" := by
  have hk := mem_keys_of_frozen s n p h
  have hm : n ∈ s.team_order.reverse := List.mem_reverse.2 ((ho n).2 hk)
  have hf : has_frozen (getTeam s.teams n) = true := has_frozen_of_problem _ p h
  unfold find_lowest
  cases hx : s.team_order.reverse.find? (fun m => has_frozen (getTeam s.teams m)) with
  | none =>
    have := List.find?_eq_none.1 hx n hm
    simp [hf] at this
  | some m =>
    simp only [Option.getD_some]
    intro e
    exact hne ((ho _).1 (List.mem_reverse.1 (e ▸ List.mem_of_find?_eq_some hx)))

/-- The selection of the scroll loop, at the head of an iteration, when no team is
registered under the empty name and every frozen problem has a letter up to `Z`: the loop
breaks exactly when no problem is frozen; otherwise the iteration reveals, of the team
with the largest rank among the teams with a frozen problem, the frozen problem with the
smallest letter, and leaves every other frozen flag as it is. -/
theorem scroll_selection (s : ICPCSystem) (hl : LoopInv s) (hp : ProblemsInv s)
    (hne : "" ∉ mapKeys s.teams)
    (hz : ∀ n p, (problemOf s n p).frozen = true → p ≤ 90) :
    (scroll_step s = none ↔ ∀ n p, (problemOf s n p).frozen = false)
    ∧ ((∃ n p, (problemOf s n p).frozen = true) →
        find_lowest s ∈ mapKeys s.teams
        ∧ (problemOf s (find_lowest s)
            (find_smallest (getTeam s.teams (find_lowest s)))).frozen = true
        ∧ (∀ n p, (problemOf s n p).frozen = true →
            (getTeam s.teams n).ranking ≤ (getTeam s.teams (find_lowest s)).ranking)
        ∧ (∀ p, (problemOf s (find_lowest s) p).frozen = true →
            find_smallest (getTeam s.teams (find_lowest s)) ≤ p)
        ∧ ∃ s' ev, scroll_step s = some (s', ev)
            ∧ (problemOf s' (find_lowest s)
                (find_smallest (getTeam s.teams (find_lowest s)))).frozen = false
            ∧ ∀ n p, ¬ (n = find_lowest s
                  ∧ p = find_smallest (getTeam s.teams (find_lowest s))) →
                problemOf s' n p = problemOf s n p) := by
  constructor
  · constructor
    · intro h
      exact no_frozen_of_loop_end s hl.1 hne ((scroll_step_none_iff s).1 h)
    · intro h
      rw [scroll_step_none_iff]
      by_contra hc
      obtain ⟨_, hf⟩ := find_lowest_spec s hc
      obtain ⟨p, hpf⟩ := problem_of_has_frozen _ (hp _) hf
      have := h (find_lowest s) p
      unfold problemOf at this
      rw [this] at hpf
      simp at hpf
  · rintro ⟨n0, p0, h0⟩
    have hlow := find_lowest_ne_of_frozen s hl.1 hne n0 p0 h0
    obtain ⟨hmem, hfz⟩ := find_lowest_spec s hlow
    obtain ⟨q, hq⟩ := problem_of_has_frozen _ (hp _) hfz
    have hsm := find_smallest_spec (getTeam s.teams (find_lowest s)) (hp _)
      ⟨q, hq, hz (find_lowest s) q hq⟩
    refine ⟨(hl.1 _).1 hmem, hsm.1, ?_, hsm.2, ?_⟩
    · intro n p hnp
      exact find_lowest_is_lowest s hl hlow n ((hl.1 n).2 (mem_keys_of_frozen s n p hnp))
        (has_frozen_of_problem _ p hnp)
    · cases hstep : scroll_step s with
      | none => exact absurd ((scroll_step_none_iff s).1 hstep) hlow
      | some r =>
        obtain ⟨s', ev⟩ := r
        refine ⟨s', ev, rfl, ?_, ?_⟩
        · obtain ⟨_, h1 | h1⟩ := scroll_step_cases s s' ev hstep
          · rw [h1.1, problemOf_reveal_state_self]
            exact (reveal_self_cleared _ _).1
          · rw [h1.1, problemOf_update_scoreboard, problemOf_reveal_state_self]
            exact (reveal_self_cleared _ _).1
        · intro n p hnp
          obtain ⟨_, h1 | h1⟩ := scroll_step_cases s s' ev hstep
          · rw [h1.1, problemOf_reveal_state_ne s n p hnp]
          · rw [h1.1, problemOf_update_scoreboard, problemOf_reveal_state_ne s n p hnp]

/-- The premises of `scroll_selection` hold at the head of every iteration of the scroll
loop: they hold when the loop is entered and each iteration keeps them. -/
theorem loop_head_invariants :
    (∀ s, Visited s → LoopInv (update_scoreboard s) ∧ ProblemsInv (update_scoreboard s))
    ∧ (∀ s s' ev, (mapKeys s.teams).Nodup → LoopInv s → ProblemsInv s →
        scroll_step s = some (s', ev) →
        (mapKeys s'.teams).Nodup ∧ LoopInv s' ∧ ProblemsInv s'
        ∧ mapKeys s'.teams = mapKeys s.teams) := by
  constructor
  · intro s hv
    exact ⟨loopInv_update_scoreboard s (rankInv_of_visited s hv).1,
      problemsInv_update_scoreboard s (problemsInv_of_visited s hv)⟩
  · intro s s' ev hk hl hp hs
    have hk2 := (mapKeys_scroll_step s s' ev hs hl.1).1
    exact ⟨hk2 ▸ hk, loopInv_scroll_step s s' ev hs hk hl,
      problemsInv_scroll_step s s' ev hs hp, hk2⟩

/-! ## The reveal of a problem without an accepted submission -/

theorem countInv_congr (s s' : ICPCSystem) (hp : ∀ n p, problemOf s' n p = problemOf s n p)
    (h : CountInv s) : CountInv s' := by
  intro n p; rw [hp]; exact h n p

theorem countInv_init : CountInv {} := by
  intro n p _; simp [problemOf, getTeam, getProblem, mapFind]

theorem countInv_submit (s : ICPCSystem) (problem team_name status : String) (time : Int)
    (ht : 0 ≤ time) (hf : FreezeInv s) (h : CountInv s) :
    CountInv (submit s problem team_name status time) := by
  intro n p
  by_cases hnp : n = team_name ∧ p = probKey problem
  · rw [hnp.1, hnp.2, problemOf_submit_self]
    have a0 := hf.1 team_name (probKey problem)
    have b0 := fun hx => hf.2.1 hx team_name (probKey problem)
    have c0 := hf.2.2 team_name (probKey problem)
    have d0 := h team_name (probKey problem)
    unfold problemOf at a0 b0 c0 d0
    generalize getTeam s.teams team_name = t at *
    unfold submit_team
    simp only [Team.update_sorted_times]
    generalize getProblem t.problems (probKey problem) = ps at *
    have htime : time ≠ -1 := by omega
    by_cases hg : s.frozen = true
    · by_cases hsol : ps.solved = true
      · by_cases hacc : status = "Accepted" <;>
          simp [hg, hsol, hacc, getProblem_mapSet] <;> exact d0
      · have hsol' : ps.solved = false := by simpa using hsol
        by_cases hfr : ps.frozen = true
        · by_cases hacc : status = "Accepted" <;>
            by_cases h3 : ps.first_ac_time_in_freeze = -1 <;>
            simp [hg, hsol', hacc, getProblem_mapSet, hfr, h3, htime, d0]
        · have hfr' : ps.frozen = false := by simpa using hfr
          have c1 := c0 hfr'
          by_cases hacc : status = "Accepted" <;>
            simp [hg, hsol', hacc, getProblem_mapSet, hfr', c1, htime]
    · have hg' : s.frozen = false := by simpa using hg
      by_cases hsol : ps.solved = true <;> by_cases hacc : status = "Accepted" <;>
        simp [hg', hsol, hacc, getProblem_mapSet] <;> exact d0
  · rw [problemOf_submit_ne _ _ _ _ _ n p hnp]; exact h n p

theorem countInv_update_scoreboard (s : ICPCSystem) (h : CountInv s) :
    CountInv (update_scoreboard s) :=
  countInv_congr s _ (problemOf_update_scoreboard s) h

theorem countInv_reveal_state (s : ICPCSystem) (h : CountInv s) :
    CountInv (reveal_state s) := by
  intro n p
  by_cases hnp : n = find_lowest s ∧ p = find_smallest (getTeam s.teams (find_lowest s))
  · rw [hnp.1, hnp.2, problemOf_reveal_state_self]
    have hcl := reveal_self_cleared (getTeam s.teams (find_lowest s))
      (find_smallest (getTeam s.teams (find_lowest s)))
    intro _
    rw [hcl.2.2.1, hcl.2.2.2.1]
  · rw [problemOf_reveal_state_ne s n p hnp]; exact h n p

theorem countInv_scroll_step (s s' : ICPCSystem) (ev : Option RankChange)
    (hs : scroll_step s = some (s', ev)) (h : CountInv s) : CountInv s' := by
  obtain ⟨_, h1 | h1⟩ := scroll_step_cases s s' ev hs
  · rw [h1.1]; exact countInv_reveal_state s h
  · rw [h1.1]; exact countInv_update_scoreboard _ (countInv_reveal_state s h)

theorem countInv_scroll_loop : ∀ (fuel : Nat) (s s' : ICPCSystem) (evs : List RankChange),
    scroll_loop fuel s = some (s', evs) → CountInv s → CountInv s'
  | 0, _, _, _, h, _ => by simp [scroll_loop] at h
  | fuel + 1, s, s', evs, h, hi => by
    simp only [scroll_loop] at h
    cases hstep : scroll_step s with
    | none =>
      simp only [hstep, Option.some.injEq, Prod.mk.injEq] at h
      rw [← h.1]; exact hi
    | some r =>
      obtain ⟨s1, ev⟩ := r
      simp only [hstep] at h
      cases hloop : scroll_loop fuel s1 with
      | none => simp [hloop] at h
      | some r2 =>
        obtain ⟨s2, evs2⟩ := r2
        simp only [hloop, Option.some.injEq, Prod.mk.injEq] at h
        rw [← h.1]
        exact countInv_scroll_loop fuel s1 s2 evs2 hloop (countInv_scroll_step s s1 ev hstep hi)

theorem countInv_exec (fuel : Nat) (s : ICPCSystem) (c : Cmd) (s' : ICPCSystem)
    (out : List String) (h : exec fuel s c = some (s', out)) (ht : times_ok c)
    (hf : FreezeInv s) (hi : CountInv s) : CountInv s' := by
  cases c with
  | add_team name =>
    simp only [exec, Option.some.injEq] at h
    have e : s' = (add_team s name).1 := by rw [h]
    rw [e]; exact countInv_congr s _ (problemOf_add_team s name) hi
  | start dur prob_count =>
    simp only [exec, Option.some.injEq] at h
    have e : s' = (start s dur prob_count).1 := by rw [h]
    rw [e]; exact countInv_congr s _ (problemOf_start s dur prob_count) hi
  | submit problem team_name status time =>
    simp only [exec, Option.some.injEq, Prod.mk.injEq] at h
    rw [← h.1]; exact countInv_submit s problem team_name status time ht hf hi
  | flush =>
    simp only [exec, flush, Option.some.injEq, Prod.mk.injEq] at h
    rw [← h.1]; exact countInv_update_scoreboard s hi
  | freeze =>
    simp only [exec, freeze_scoreboard, Option.some.injEq] at h
    by_cases hfz : s.frozen = true
    · simp only [hfz, if_true, Prod.mk.injEq] at h
      rw [← h.1]; exact hi
    · simp only [hfz, Bool.false_eq_true, if_false, Prod.mk.injEq] at h
      rw [← h.1]; exact hi
  | scroll =>
    simp only [exec, scroll] at h
    by_cases hfz : s.frozen = true
    · simp only [hfz, Bool.not_true, Bool.false_eq_true, if_false] at h
      cases hloop : scroll_loop fuel (update_scoreboard s) with
      | none => simp [hloop] at h
      | some r =>
        obtain ⟨s2, evs⟩ := r
        simp only [hloop, Option.some.injEq, Prod.mk.injEq] at h
        rw [← h.1]
        exact countInv_scroll_loop fuel _ s2 evs hloop (countInv_update_scoreboard s hi)
    · simp only [hfz, Bool.not_false, if_true, Option.some.injEq, Prod.mk.injEq] at h
      rw [← h.1]; exact hi
  | query_ranking team_name =>
    simp only [exec, Option.some.injEq, Prod.mk.injEq] at h
    rw [← h.1]; exact hi
  | query_submission team_name problem status =>
    simp only [exec, Option.some.injEq, Prod.mk.injEq] at h
    rw [← h.1]; exact hi

theorem countInv_run (fuel : Nat) : ∀ (cmds : List Cmd) (s s' : ICPCSystem),
    run fuel s cmds = some s' → (∀ c ∈ cmds, times_ok c) → "" ∉ mapKeys s'.teams →
    FreezeInv s → CountInv s → FreezeInv s' ∧ CountInv s'
  | [], s, s', h, _, _, hf, hi => by
    simp only [run, Option.some.injEq] at h
    rw [← h]; exact ⟨hf, hi⟩
  | c :: cs, s, s', h, ht, hne, hf, hi => by
    simp only [run] at h
    cases hx : exec fuel s c with
    | none => simp [hx] at h
    | some r =>
      obtain ⟨s1, out⟩ := r
      simp only [hx] at h
      have hne0 : "" ∉ mapKeys s.teams := fun hm =>
        hne (mapKeys_run fuel cs s1 s' h "" (mapKeys_exec fuel s c s1 out hx "" hm))
      exact countInv_run fuel cs s1 s' h (fun c' hc' => ht c' (List.mem_cons_of_mem _ hc')) hne
        (freezeInv_exec fuel s c s1 out hx hf hne0)
        (countInv_exec fuel s c s1 out hx (ht c (by simp)) hf hi)

theorem reveal_no_ac_team (t : Team) (p : Nat)
    (h : (getProblem t.problems p).first_ac_time_in_freeze = -1) :
    (reveal t p).2 = false
    ∧ (getProblem (reveal t p).1.problems p).solved = (getProblem t.problems p).solved
    ∧ (getProblem (reveal t p).1.problems p).wrong_count
        = (getProblem t.problems p).wrong_before_freeze
          + (getProblem t.problems p).total_wrongs_in_freeze
    ∧ (reveal t p).1.solved_count = t.solved_count
    ∧ (reveal t p).1.penalty_time = t.penalty_time
    ∧ (reveal t p).1.ranking = t.ranking := by
  unfold reveal
  simp [h, getProblem_mapSet]

/-- The reveal of a problem without an accepted submission, when the frozen flags and the
in-freeze counters are consistent: the problem ends unsolved and not frozen with
`wrong_count = wrong_before_freeze + frozen_count`, no team's solved count, penalty or
rank changes, the team order stays, and no rank-change line is written.  The premises
hold at the head of every iteration of the scroll loop when no team is registered under
the empty name and no submission time is negative. -/
theorem reveal_without_ac :
    (∀ (s s' : ICPCSystem) (ev : Option RankChange), FreezeInv s → CountInv s →
      scroll_step s = some (s', ev) →
      (problemOf s (find_lowest s)
        (find_smallest (getTeam s.teams (find_lowest s)))).frozen = true →
      (problemOf s (find_lowest s)
        (find_smallest (getTeam s.teams (find_lowest s)))).first_ac_time_in_freeze = -1 →
      (problemOf s' (find_lowest s)
          (find_smallest (getTeam s.teams (find_lowest s)))).solved = false
      ∧ (problemOf s' (find_lowest s)
          (find_smallest (getTeam s.teams (find_lowest s)))).frozen = false
      ∧ (problemOf s' (find_lowest s)
          (find_smallest (getTeam s.teams (find_lowest s)))).wrong_count
          = (problemOf s (find_lowest s)
              (find_smallest (getTeam s.teams (find_lowest s)))).wrong_before_freeze
            + (problemOf s (find_lowest s)
              (find_smallest (getTeam s.teams (find_lowest s)))).frozen_count
      ∧ (∀ n, (getTeam s'.teams n).solved_count = (getTeam s.teams n).solved_count
          ∧ (getTeam s'.teams n).penalty_time = (getTeam s.teams n).penalty_time
          ∧ (getTeam s'.teams n).ranking = (getTeam s.teams n).ranking)
      ∧ s'.team_order = s.team_order
      ∧ ev = none)
    ∧ (∀ (fuel : Nat) (cmds : List Cmd) (s : ICPCSystem), run fuel {} cmds = some s →
        (∀ c ∈ cmds, times_ok c) → "" ∉ mapKeys s.teams →
        FreezeInv (update_scoreboard s) ∧ CountInv (update_scoreboard s))
    ∧ (∀ (s s' : ICPCSystem) (ev : Option RankChange), scroll_step s = some (s', ev) →
        FreezeInv s → CountInv s → FreezeInv s' ∧ CountInv s') := by
  refine ⟨?_, ?_, ?_⟩
  · intro s s' ev hf hc hs hfr hac
    have hno := reveal_no_ac_team (getTeam s.teams (find_lowest s))
      (find_smallest (getTeam s.teams (find_lowest s))) hac
    obtain ⟨_, h1 | h1⟩ := scroll_step_cases s s' ev hs
    · obtain ⟨e1, e2, _⟩ := h1
      subst e1
      refine ⟨?_, ?_, ?_, ?_, rfl, e2⟩
      · rw [problemOf_reveal_state_self, hno.2.1]
        exact hf.1 _ _ hfr
      · rw [problemOf_reveal_state_self]
        exact (reveal_self_cleared _ _).1
      · rw [problemOf_reveal_state_self, hno.2.2.1]
        have := hc _ _ hac
        unfold problemOf at this ⊢
        rw [this]
      · intro n
        rw [getTeam_reveal_state]
        split_ifs with hn
        · rw [hn]; exact ⟨hno.2.2.2.1, hno.2.2.2.2.1, hno.2.2.2.2.2⟩
        · exact ⟨rfl, rfl, rfl⟩
    · exfalso
      rw [hno.1] at h1
      simp at h1
  · intro fuel cmds s hr ht hne
    obtain ⟨hf, hc⟩ := countInv_run fuel cmds {} s hr ht hne freezeInv_init countInv_init
    exact ⟨freezeInv_update_scoreboard s hf, countInv_update_scoreboard s hc⟩
  · intro s s' ev hs hf hc
    exact ⟨freezeInv_scroll_step s s' ev hs hf, countInv_scroll_step s s' ev hs hc⟩

/-! ## Queries and rejected commands -/

theorem find_last_iff {α : Type} (p : α → Bool) (l : List α) (x : α) :
    l.reverse.find? p = some x
      ↔ p x = true ∧ ∃ pre post, l = pre ++ x :: post ∧ ∀ y ∈ post, p y = false := by
  constructor
  · intro h
    obtain ⟨hp, l1, l2, he, hn⟩ := split_of_find_last p l x h
    exact ⟨hp, l1, l2, he, hn⟩
  · rintro ⟨hp, pre, post, he, hn⟩
    rw [List.find?_eq_some]
    refine ⟨hp, post.reverse, pre.reverse, ?_, ?_⟩
    · rw [he]; simp
    · intro a ha
      have := hn a (List.mem_reverse.1 ha)
      simp [this]

theorem sub_matches_iff (problem status : String) (sub : Submission) :
    sub_matches problem status sub = true
      ↔ (problem = "ALL" ∨ sub.problem = problem) ∧ (status = "ALL" ∨ sub.status = status) := by
  unfold sub_matches
  by_cases h1 : problem = "ALL" <;> by_cases h2 : sub.problem = problem <;>
    by_cases h3 : status = "ALL" <;> by_cases h4 : sub.status = status <;>
    simp [h1, h2, h3, h4]

/-- Claim C13: for a registered team, `query_submission` reports the submission with the
largest log index among those whose problem equals the problem filter (or the filter is
`ALL`) and whose status equals the status filter (or the filter is `ALL`), and reports
that it cannot find any submission iff no logged submission matches.  Every `submit`
appends exactly one record to the log of its team, whatever the global mode, and with
both filters `ALL` the query on a non-empty log gives the record submitted last. -/
theorem query_submission_latest :
    (∀ (subs : List Submission) (problem status : String) (sub : Submission),
      find_submission subs problem status = some sub
        ↔ ((problem = "ALL" ∨ sub.problem = problem) ∧ (status = "ALL" ∨ sub.status = status))
          ∧ ∃ pre post, subs = pre ++ sub :: post
            ∧ ∀ y ∈ post, ¬ ((problem = "ALL" ∨ y.problem = problem)
                ∧ (status = "ALL" ∨ y.status = status)))
    ∧ (∀ (subs : List Submission) (problem status : String),
      find_submission subs problem status = none
        ↔ ∀ y ∈ subs, ¬ ((problem = "ALL" ∨ y.problem = problem)
            ∧ (status = "ALL" ∨ y.status = status)))
    ∧ (∀ (s : ICPCSystem) (team_name problem status : String),
      (mapFind s.teams team_name).isSome = true →
      (∀ sub, find_submission (getTeam s.teams team_name).submissions problem status = some sub →
        query_submission s team_name problem status
          = ["[Info]Complete query submission.",
              team_name ++ " " ++ sub.problem ++ " " ++ sub.status ++ " " ++ toString sub.time])
      ∧ (find_submission (getTeam s.teams team_name).submissions problem status = none →
        query_submission s team_name problem status
          = ["[Info]Complete query submission.", "Cannot find any submission."]))
    ∧ (∀ (s : ICPCSystem) (problem team_name status : String) (time : Int) (n : String),
      (getTeam (submit s problem team_name status time).teams n).submissions
        = if n = team_name then (getTeam s.teams n).submissions ++ [⟨problem, status, time⟩]
          else (getTeam s.teams n).submissions)
    ∧ (∀ (s : ICPCSystem) (problem team_name status : String) (time : Int),
      find_submission (getTeam (submit s problem team_name status time).teams team_name).submissions
        "ALL" "ALL" = some ⟨problem, status, time⟩) := by
  refine ⟨?_, ?_, ?_, ?_, ?_⟩
  · intro subs problem status sub
    unfold find_submission
    rw [find_last_iff, sub_matches_iff]
    constructor
    · rintro ⟨h1, pre, post, he, hn⟩
      refine ⟨h1, pre, post, he, fun y hy => ?_⟩
      rw [← sub_matches_iff, hn y hy]
      simp
    · rintro ⟨h1, pre, post, he, hn⟩
      refine ⟨h1, pre, post, he, fun y hy => ?_⟩
      have := hn y hy
      rw [← sub_matches_iff] at this
      simpa using this
  · intro subs problem status
    unfold find_submission
    rw [List.find?_eq_none]
    constructor
    · intro h y hy
      have := h y (List.mem_reverse.2 hy)
      rw [← sub_matches_iff]
      exact this
    · intro h y hy
      have := h y (List.mem_reverse.1 hy)
      rw [← sub_matches_iff] at this
      exact this
  · intro s team_name problem status hreg
    have hn : (mapFind s.teams team_name).isNone = false := by
      cases h : mapFind s.teams team_name with
      | none => simp [h] at hreg
      | some t => rfl
    constructor
    · intro sub hs
      simp [query_submission, hn, hs]
    · intro hs
      simp [query_submission, hn, hs]
  · intro s problem team_name status time n
    rw [getTeam_submit]
    by_cases h : n = team_name
    · subst h
      simp only [if_true]
      unfold submit_team
      simp only [Team.update_sorted_times]
      split_ifs <;> rfl
    · simp [h]
  · intro s problem team_name status time
    have hlog : (getTeam (submit s problem team_name status time).teams team_name).submissions
        = (getTeam s.teams team_name).submissions ++ [⟨problem, status, time⟩] := by
      rw [getTeam_submit]
      simp only [if_true]
      unfold submit_team
      simp only [Team.update_sorted_times]
      split_ifs <;> rfl
    rw [hlog]
    simp [find_submission, sub_matches]

/-- An instance of `query_submission_latest`: team `T` is wrong on `A` at 1 and accepted on
`B` at 2 while the scoreboard is frozen; the query with both filters `ALL` gives the
submission at 2, the query for status `Wrong_Answer` the one at 1. -/
theorem query_submission_latest_witness :
    query_submission
        ((run 0 {} [.add_team "T", .start 300 2, .freeze,
          .submit "A" "T" "Wrong_Answer" 1, .submit "B" "T" "Accepted" 2]).getD {})
        "T" "ALL" "ALL"
      = ["[Info]Complete query submission.", "T B Accepted 2"]
    ∧ find_submission [⟨"A", "Wrong_Answer", 1⟩, ⟨"B", "Accepted", 2⟩] "ALL" "Wrong_Answer"
      = some ⟨"A", "Wrong_Answer", 1⟩ :=
  ⟨(query_submission_latest.2.2.1
      ((run 0 {} [.add_team "T", .start 300 2, .freeze,
          .submit "A" "T" "Wrong_Answer" 1, .submit "B" "T" "Accepted" 2]).getD {})
      "T" "ALL" "ALL" (by decide)).1 ⟨"B", "Accepted", 2⟩ (by decide),
   (query_submission_latest.1 [⟨"A", "Wrong_Answer", 1⟩, ⟨"B", "Accepted", 2⟩]
      "ALL" "Wrong_Answer" ⟨"A", "Wrong_Answer", 1⟩).2
      ⟨by decide, [], [⟨"B", "Accepted", 2⟩], rfl, by decide⟩⟩

/-- Claim C14: every rejected command writes an error line and leaves the whole state as
it is: `add_team` with a registered name, `add_team` after the start, `start` after the
start, `freeze_scoreboard` when frozen, `scroll` when not frozen, and the two queries for
a name that is not registered; the error lines are pairwise distinct.  A
`freeze_scoreboard` in a state that is not frozen succeeds and changes only the global
`frozen` flag. -/
theorem rejected_commands :
    (∀ (s : ICPCSystem) (name : String), s.started = true →
      add_team s name = (s, ["[Error]Add failed: competition has started."]))
    ∧ (∀ (s : ICPCSystem) (name : String), s.started = false →
      (mapFind s.teams name).isSome = true →
      add_team s name = (s, ["[Error]Add failed: duplicated team name."]))
    ∧ (∀ (s : ICPCSystem) (dur prob_count : Int), s.started = true →
      start s dur prob_count = (s, ["[Error]Start failed: competition has started."]))
    ∧ (∀ (s : ICPCSystem), s.frozen = true →
      freeze_scoreboard s = (s, ["[Error]Freeze failed: scoreboard has been frozen."]))
    ∧ (∀ (fuel : Nat) (s : ICPCSystem), s.frozen = false →
      scroll fuel s = some (s, ["[Error]Scroll failed: scoreboard has not been frozen."]))
    ∧ (∀ (fuel : Nat) (s : ICPCSystem) (team_name : String),
      (mapFind s.teams team_name).isSome = false →
      exec fuel s (.query_ranking team_name)
        = some (s, ["[Error]Query ranking failed: cannot find the team."]))
    ∧ (∀ (fuel : Nat) (s : ICPCSystem) (team_name problem status : String),
      (mapFind s.teams team_name).isSome = false →
      exec fuel s (.query_submission team_name problem status)
        = some (s, ["[Error]Query submission failed: cannot find the team."]))
    ∧ (∀ (s : ICPCSystem), s.frozen = false →
      freeze_scoreboard s = ({ s with frozen := true }, ["[Info]Freeze scoreboard."]))
    ∧ ["[Error]Add failed: competition has started.",
        "[Error]Add failed: duplicated team name.",
        "[Error]Start failed: competition has started.",
        "[Error]Freeze failed: scoreboard has been frozen.",
        "[Error]Scroll failed: scoreboard has not been frozen.",
        "[Error]Query ranking failed: cannot find the team.",
        "[Error]Query submission failed: cannot find the team."].Nodup := by
  refine ⟨?_, ?_, ?_, ?_, ?_, ?_, ?_, ?_, by decide⟩
  · intro s name h; simp [add_team, h]
  · intro s name h1 h2; simp [add_team, h1, h2]
  · intro s dur prob_count h; simp [start, h]
  · intro s h; simp [freeze_scoreboard, h]
  · intro fuel s h; simp [scroll, h]
  · intro fuel s team_name h
    have hn : (mapFind s.teams team_name).isNone = true := by
      cases hf : mapFind s.teams team_name with
      | none => rfl
      | some t => simp [hf] at h
    simp [exec, query_ranking, hn]
  · intro fuel s team_name problem status h
    have hn : (mapFind s.teams team_name).isNone = true := by
      cases hf : mapFind s.teams team_name with
      | none => rfl
      | some t => simp [hf] at h
    simp [exec, query_submission, hn]
  · intro s h; simp [freeze_scoreboard, h]

/-- An instance of `rejected_commands`: in the state of the spec's scenario, which is
started and not frozen, a second `add_team "A"`, a second `start` and a `scroll` are
rejected and change nothing. -/
theorem rejected_commands_witness :
    add_team state_AB "A" = (state_AB, ["[Error]Add failed: competition has started."])
    ∧ start state_AB 10 2 = (state_AB, ["[Error]Start failed: competition has started."])
    ∧ scroll 5 state_AB
        = some (state_AB, ["[Error]Scroll failed: scoreboard has not been frozen."]) :=
  ⟨rejected_commands.1 state_AB "A" (by decide),
   rejected_commands.2.2.1 state_AB 10 2 (by decide),
   rejected_commands.2.2.2.2.1 5 state_AB (by decide)⟩

/-! ## The cells of the scoreboard -/

theorem append_ne_dot (a x : String) (c d : Char) (l : List Char) (ha : a.data = c :: d :: l) :
    a ++ x ≠ "." := by
  intro h
  have := congrArg String.data h
  simp [String.data_append, ha] at this

theorem append_ne_dot_head (a x : String) (c : Char) (l : List Char) (ha : a.data = c :: l)
    (hc : c ≠ '.') : a ++ x ≠ "." := by
  intro h
  have := congrArg String.data h
  simp [String.data_append, ha] at this
  exact hc this.1

/-- Claim C17: the cell printed for a problem is `.` iff the team has no record for it or
the record is unsolved, not frozen and has `wrong_count = 0`; otherwise, for a frozen
problem it is `0/M` when `wrong_before_freeze = 0` and `-N/M` when
`wrong_before_freeze = N` is not 0, with `M = frozen_count`; otherwise, for a solved
problem it is `+` when `wrong_before_solve = 0` and `+N` when `wrong_before_solve = N` is
not 0; otherwise it is `-N` with `N = wrong_count`. -/
theorem print_cell_encoding (t : Team) (i : Nat) :
    (print_cell t i = "."
      ↔ mapFind t.problems (65 + i) = none
        ∨ ∃ ps, mapFind t.problems (65 + i) = some ps
            ∧ ps.solved = false ∧ ps.frozen = false ∧ ps.wrong_count = 0)
    ∧ (∀ ps, mapFind t.problems (65 + i) = some ps →
        (ps.frozen = true → ps.wrong_before_freeze = 0 →
          print_cell t i = "0/" ++ toString ps.frozen_count)
        ∧ (ps.frozen = true → ps.wrong_before_freeze ≠ 0 →
          print_cell t i
            = "-" ++ toString ps.wrong_before_freeze ++ "/" ++ toString ps.frozen_count)
        ∧ (ps.frozen = false → ps.solved = true → ps.wrong_before_solve = 0 →
          print_cell t i = "+")
        ∧ (ps.frozen = false → ps.solved = true → ps.wrong_before_solve ≠ 0 →
          print_cell t i = "+" ++ toString ps.wrong_before_solve)
        ∧ (ps.frozen = false → ps.solved = false → ps.wrong_count ≠ 0 →
          print_cell t i = "-" ++ toString ps.wrong_count)) := by
  constructor
  · unfold print_cell
    cases hf : mapFind t.problems (65 + i) with
    | none => simp
    | some ps =>
      simp only [false_or, Option.some.injEq, exists_eq_left', reduceCtorEq]
      by_cases h1 : ps.solved = true <;> by_cases h2 : ps.frozen = true <;>
        by_cases h3 : ps.wrong_count = 0 <;> by_cases h4 : ps.wrong_before_freeze = 0 <;>
        by_cases h5 : ps.wrong_before_solve = 0 <;>
        simp [h1, h2, h3, h4, h5] <;>
        first
          | exact append_ne_dot "0/" _ '0' '/' [] rfl
          | exact append_ne_dot_head _ _ '-' [] rfl (by decide)
          | exact append_ne_dot_head _ _ '+' [] rfl (by decide)
          | (rw [String.append_assoc, String.append_assoc]
             exact append_ne_dot_head _ _ '-' [] rfl (by decide))
  · intro ps hf
    unfold print_cell
    rw [hf]
    refine ⟨?_, ?_, ?_, ?_, ?_⟩
    · intro h2 h4; simp [h2, h4]
    · intro h2 h4; simp [h2, h4]
    · intro h2 h1 h5; simp [h2, h1, h5]
    · intro h2 h1 h5; simp [h2, h1, h5]
    · intro h2 h1 h3; simp [h2, h1, h3]

/-- An instance of `print_cell_encoding`: a team that solved problem `A` after two wrong
attempts shows `+2` for it and `.` for problem `B`. -/
theorem print_cell_encoding_witness :
    print_cell team_plus_two 0 = "+2" ∧ print_cell team_plus_two 1 = "." :=
  ⟨((print_cell_encoding team_plus_two 0).2
      { solved := true, solve_time := 30, wrong_before_solve := 2 } rfl).2.2.2.1
      rfl rfl (by decide),
   (print_cell_encoding team_plus_two 1).1.2 (Or.inl rfl)⟩

/-- Claim C18, refuted: after one wrong submission while frozen on the untouched problem
`B`, the cell of team `A` for `B` is `0/1`, not `-0/1`. -/
theorem frozen_wrong_cell_counterexample :
    (run 0 {} [.add_team "A", .add_team "B", .start 300 2, .freeze,
      .submit "B" "A" "Wrong_Answer" 10]).isSome = true
    ∧ (problemOf state_frozen_wrong "A" 66).frozen = true
    ∧ (problemOf state_frozen_wrong "A" 66).frozen_count = 1
    ∧ print_cell (getTeam state_frozen_wrong.teams "A") 1 = "0/1"
    ∧ print_cell (getTeam state_frozen_wrong.teams "A") 1 ≠ "-0/1" := by
  decide

/-- Claim C18, amended: for a problem that is untouched and receives one submission with a
verdict other than Accepted while the scoreboard is frozen, the cell shown while it is
frozen is `0/1`. -/
theorem frozen_wrong_cell (s : ICPCSystem) (problem team_name status : String) (time : Int)
    (i : Nat) (hf : s.frozen = true) (hw : status ≠ "Accepted")
    (hu : problemOf s team_name (probKey problem) = {}) (hk : probKey problem = 65 + i) :
    (problemOf (submit s problem team_name status time) team_name (probKey problem)).frozen
      = true
    ∧ (problemOf (submit s problem team_name status time) team_name
        (probKey problem)).frozen_count = 1
    ∧ print_cell (getTeam (submit s problem team_name status time).teams team_name) i
      = "0/1" := by
  unfold problemOf at hu ⊢
  rw [getTeam_submit]
  simp only [if_true]
  generalize getTeam s.teams team_name = t at *
  have hprob : (submit_team s.frozen
      { t with submissions := t.submissions ++ [⟨problem, status, time⟩] }
      (probKey problem) status time).problems
      = mapSet char_less t.problems (probKey problem)
          { frozen := true, frozen_count := 1, total_wrongs_in_freeze := 1 } := by
    unfold submit_team
    simp only [hu, hf]
    simp [hw]
  unfold print_cell
  rw [hprob, ← hk]
  simp only [getProblem_mapSet, if_true, mapFind_mapSet]
  refine ⟨trivial, trivial, ?_⟩
  decide

/-- An instance of `frozen_wrong_cell`: team `A` sends a wrong answer for problem `B` into
a frozen system without records. -/
theorem frozen_wrong_cell_witness :
    print_cell (getTeam (submit { frozen := true } "B" "A" "Wrong_Answer" 10).teams "A") 1
      = "0/1" :=
  (frozen_wrong_cell { frozen := true } "B" "A" "Wrong_Answer" 10 1 rfl (by decide) rfl
    rfl).2.2

/-! ## Commands before the start of the contest -/

/-- Claim C15, refuted: in a state in which the contest has not started, a submission is
accounted and writes nothing, a freeze sets the global mode and writes an info line, and
a flush writes an info line. -/
theorem unstarted_commands_counterexample :
    state_unstarted.started = false
    ∧ (exec 0 state_unstarted (.submit "A" "T" "Accepted" 5)).map (fun r => r.2) = some []
    ∧ (exec 0 state_unstarted (.submit "A" "T" "Accepted" 5)).map
        (fun r => (getTeam r.1.teams "T").solved_count) = some 1
    ∧ (getTeam state_unstarted.teams "T").solved_count = 0
    ∧ (exec 0 state_unstarted .freeze).map (fun r => r.2) = some ["[Info]Freeze scoreboard."]
    ∧ (exec 0 state_unstarted .freeze).map (fun r => r.1.frozen) = some true
    ∧ state_unstarted.frozen = false
    ∧ (exec 0 state_unstarted .flush).map (fun r => r.2) = some ["[Info]Flush scoreboard."]
    ∧ (exec 0 state_unstarted .flush).map (fun r => r.1.team_order) = some ["T"]
    ∧ state_unstarted.team_order = [] := by
  decide

theorem update_scoreboard_set_started (b : Bool) (s : ICPCSystem) :
    update_scoreboard (set_started b s) = set_started b (update_scoreboard s) := rfl

theorem reveal_state_set_started (b : Bool) (s : ICPCSystem) :
    reveal_state (set_started b s) = set_started b (reveal_state s) := rfl

theorem print_scoreboard_set_started (b : Bool) (s : ICPCSystem) :
    print_scoreboard (set_started b s) = print_scoreboard s := rfl

theorem scroll_step_set_started (b : Bool) (s : ICPCSystem) :
    scroll_step (set_started b s)
      = (scroll_step s).map (fun r => (set_started b r.1, r.2)) := by
  unfold scroll_step
  have e1 : find_lowest (set_started b s) = find_lowest s := rfl
  have e2 : (set_started b s).teams = s.teams := rfl
  have e3 : ∀ u : ICPCSystem, (set_started b u).teams = u.teams := fun _ => rfl
  have e4 : ∀ (u : ICPCSystem) (n : String) (r : Int),
      find_replaced (set_started b u) n r = find_replaced u n r := fun _ _ _ => rfl
  simp only [e1, e2, reveal_state_set_started, update_scoreboard_set_started, e3, e4]
  by_cases h1 : find_lowest s = ""
  · simp only [h1, if_true, Option.map_none']
  · simp only [h1, if_false]
    by_cases h2 : (reveal (getTeam s.teams (find_lowest s))
        (find_smallest (getTeam s.teams (find_lowest s)))).2 = true
    · simp only [h2, if_true]
      by_cases h3 : (getTeam (update_scoreboard (reveal_state s)).teams (find_lowest s)).ranking
          < (getTeam s.teams (find_lowest s)).ranking
      · simp only [h3, if_true, Option.map_some']
      · simp only [h3, if_false, Option.map_some']
    · simp only [h2, if_false, Option.map_some']
      rfl

theorem scroll_loop_set_started (b : Bool) : ∀ (fuel : Nat) (s : ICPCSystem),
    scroll_loop fuel (set_started b s)
      = (scroll_loop fuel s).map (fun r => (set_started b r.1, r.2))
  | 0, _ => rfl
  | fuel + 1, s => by
    simp only [scroll_loop, scroll_step_set_started]
    cases hstep : scroll_step s with
    | none => rfl
    | some r =>
      obtain ⟨s1, ev⟩ := r
      simp only [Option.map_some']
      rw [scroll_loop_set_started b fuel s1]
      cases hloop : scroll_loop fuel s1 with
      | none => rfl
      | some r2 => rfl

/-- Claim C15, amended: a submission, a freeze, a flush and a scroll never read the
`started` flag: in a state with the flag set to `b` each of them gives the result it
gives in any other state with the same remaining fields, with the flag left at `b`, and
writes the same lines; no error is reported for a contest that has not started. -/
theorem commands_ignore_started (fuel : Nat) (b : Bool) (s : ICPCSystem) :
    (∀ problem team_name status time,
      exec fuel (set_started b s) (.submit problem team_name status time)
        = (exec fuel s (.submit problem team_name status time)).map
            (fun r => (set_started b r.1, r.2)))
    ∧ exec fuel (set_started b s) .freeze
        = (exec fuel s .freeze).map (fun r => (set_started b r.1, r.2))
    ∧ exec fuel (set_started b s) .flush
        = (exec fuel s .flush).map (fun r => (set_started b r.1, r.2))
    ∧ exec fuel (set_started b s) .scroll
        = (exec fuel s .scroll).map (fun r => (set_started b r.1, r.2))
    ∧ (∀ problem team_name status time,
        exec fuel s (.submit problem team_name status time)
          = some (submit s problem team_name status time, []))
    ∧ exec fuel s .flush = some (update_scoreboard s, ["[Info]Flush scoreboard."])
    ∧ (s.frozen = false →
        exec fuel s .freeze = some ({ s with frozen := true }, ["[Info]Freeze scoreboard."])) := by
  refine ⟨fun _ _ _ _ => rfl, ?_, rfl, ?_, fun _ _ _ _ => rfl, rfl, ?_⟩
  · simp only [exec, freeze_scoreboard]
    have e : (set_started b s).frozen = s.frozen := rfl
    rw [e]
    split_ifs <;> rfl
  · simp only [exec, scroll]
    have e : (set_started b s).frozen = s.frozen := rfl
    rw [e, update_scoreboard_set_started, scroll_loop_set_started,
      print_scoreboard_set_started]
    by_cases hf : s.frozen = true
    · simp only [hf, Bool.not_true, Bool.false_eq_true, if_false]
      cases hloop : scroll_loop fuel (update_scoreboard s) with
      | none => rfl
      | some r => rfl
    · simp only [hf, Bool.not_false, if_true]
      rfl
  · intro hf
    simp [exec, freeze_scoreboard, hf]

/-- An instance of `commands_ignore_started`: a freeze in the unstarted state
`state_unstarted` succeeds. -/
theorem commands_ignore_started_witness :
    exec 0 state_unstarted .freeze
      = some ({ state_unstarted with frozen := true }, ["[Info]Freeze scoreboard."]) :=
  (commands_ignore_started 0 false state_unstarted).2.2.2.2.2.2 (by decide)

/-! ## The reset of the shadow fields -/

/-- Claim C19 at its failing input: at the loop head reached after `cmds_stale_snapshot`
the reveal step reveals problem `A` of team `T`; afterwards the problem is not frozen,
`frozen_count`, `first_ac_time_in_freeze`, `wrongs_before_ac_in_freeze` and
`total_wrongs_in_freeze` are at their defaults, and `wrong_before_freeze` is still 1. -/
theorem reveal_keeps_wrong_before_freeze :
    find_lowest state_stale_head = "T"
    ∧ find_smallest (getTeam state_stale_head.teams "T") = 65
    ∧ (problemOf state_stale_head "T" 65).frozen = true
    ∧ (scroll_step state_stale_head).map (fun r => (problemOf r.1 "T" 65).frozen) = some false
    ∧ (scroll_step state_stale_head).map (fun r => (problemOf r.1 "T" 65).frozen_count)
        = some 0
    ∧ (scroll_step state_stale_head).map
        (fun r => (problemOf r.1 "T" 65).first_ac_time_in_freeze) = some (-1)
    ∧ (scroll_step state_stale_head).map
        (fun r => (problemOf r.1 "T" 65).wrongs_before_ac_in_freeze) = some 0
    ∧ (scroll_step state_stale_head).map
        (fun r => (problemOf r.1 "T" 65).total_wrongs_in_freeze) = some 0
    ∧ (scroll_step state_stale_head).map
        (fun r => (problemOf r.1 "T" 65).wrong_before_freeze) = some 1
    ∧ ({} : ProblemStatus).wrong_before_freeze = 0
    ∧ (problemOf (state_after 2 (cmds_stale_snapshot ++ [.scroll])) "T" 65).wrong_before_freeze
        = 1
    ∧ (state_after 2 (cmds_stale_snapshot ++ [.scroll])).frozen = false := by
  decide

/-! ## Freezing and the final result -/

/-- Claim C20 at its failing input: from the started state with the single team named by
the empty string, the wrong submission followed by a flush leaves `wrong_count = 1` for
problem `A`, while freeze, the same submission and a completed scroll leave
`wrong_count = 0`, the problem unsolved on both sides and still frozen on the second. -/
theorem freeze_not_transparent_empty_name :
    (state_after 0 cmds_empty_start).started = true
    ∧ (state_after 0 cmds_empty_start).frozen = false
    ∧ (run 0 {} (cmds_empty_start ++ cmds_empty_wrong ++ [.flush])).isSome = true
    ∧ (run 1 {} (cmds_empty_start ++ [.freeze] ++ cmds_empty_wrong ++ [.scroll])).isSome = true
    ∧ (problemOf (state_after 0 (cmds_empty_start ++ cmds_empty_wrong ++ [.flush]))
        "" 65).solved = false
    ∧ (problemOf (state_after 0 (cmds_empty_start ++ cmds_empty_wrong ++ [.flush]))
        "" 65).wrong_count = 1
    ∧ (problemOf (state_after 1 (cmds_empty_start ++ [.freeze] ++ cmds_empty_wrong ++ [.scroll]))
        "" 65).solved = false
    ∧ (problemOf (state_after 1 (cmds_empty_start ++ [.freeze] ++ cmds_empty_wrong ++ [.scroll]))
        "" 65).wrong_count = 0
    ∧ (problemOf (state_after 1 (cmds_empty_start ++ [.freeze] ++ cmds_empty_wrong ++ [.scroll]))
        "" 65).frozen = true
    ∧ (state_after 1 (cmds_empty_start ++ [.freeze] ++ cmds_empty_wrong ++ [.scroll])).frozen
        = false := by
  decide

/-! ## The states at the head of the scroll loop -/

theorem visited_scroll_step (s s' : ICPCSystem) (ev : Option RankChange)
    (hs : scroll_step s = some (s', ev)) (h : Visited s) : Visited s' := by
  obtain ⟨hl, h1 | h1⟩ := scroll_step_cases s s' ev hs
  · rw [h1.1]; exact Visited.revealed s h hl
  · rw [h1.1]; exact Visited.ranked _ (Visited.revealed s h hl)

theorem visited_of_loopHead (s : ICPCSystem) (h : LoopHead s) : Visited s := by
  induction h with
  | enter s hr _ => exact Visited.ranked s (visited_of_reachable s hr)
  | next s s' ev _ hs ih => exact visited_scroll_step s s' ev hs ih

theorem loopInv_of_loopHead (s : ICPCSystem) (h : LoopHead s) : LoopInv s := by
  induction h with
  | enter s hr _ =>
    exact loopInv_update_scoreboard s (rankInv_of_visited s (visited_of_reachable s hr)).1
  | next s s' ev hh hs ih =>
    exact loopInv_scroll_step s s' ev hs
      (rankInv_of_visited s (visited_of_loopHead s hh)).1 ih

theorem frozenLetters_scroll_step (s s' : ICPCSystem) (ev : Option RankChange)
    (hs : scroll_step s = some (s', ev)) (h : FrozenLetters s) : FrozenLetters s' := by
  intro n p hf
  have key : (problemOf (reveal_state s) n p).frozen = true → p ≤ 90 := by
    intro hf
    by_cases hnp : n = find_lowest s ∧ p = find_smallest (getTeam s.teams (find_lowest s))
    · rw [hnp.1, hnp.2, problemOf_reveal_state_self, (reveal_self_cleared _ _).1] at hf
      exact absurd hf (by simp)
    · rw [problemOf_reveal_state_ne s n p hnp] at hf
      exact h n p hf
  obtain ⟨_, h1 | h1⟩ := scroll_step_cases s s' ev hs
  · rw [h1.1] at hf; exact key hf
  · rw [h1.1, problemOf_update_scoreboard] at hf; exact key hf

/-! ## The number of frozen problems -/

theorem frozen_number_eq (problems : List (Nat × ProblemStatus)) :
    (frozen_number problems : Int)
      = (problems.map (fun e => if e.2.frozen = true then (1 : Int) else 0)).sum := by
  induction problems with
  | nil => rfl
  | cons e rest ih =>
    unfold frozen_number at ih ⊢
    by_cases h : e.2.frozen = true
    · simp [List.filter, h, ih]; ring
    · simp [List.filter, h, ih]

theorem frozen_number_set (m : List (Nat × ProblemStatus)) (k : Nat) (v : ProblemStatus) :
    (frozen_number (mapSet char_less m k v) : Int)
      = frozen_number m - (if (getProblem m k).frozen = true then 1 else 0)
        + (if v.frozen = true then 1 else 0) := by
  rw [frozen_number_eq, frozen_number_eq]
  have e := sum_mapSet (fun ps : ProblemStatus => if ps.frozen = true then (1 : Int) else 0)
    char_less m k v
  rw [e]
  unfold getProblem
  cases hf : mapFind m k with
  | none => simp
  | some ps => simp

theorem frozen_total_eq (s : ICPCSystem) :
    (frozen_total s : Int)
      = (s.teams.map (fun e => (frozen_number e.2.problems : Int))).sum := by
  unfold frozen_total
  generalize s.teams = l
  induction l with
  | nil => rfl
  | cons e rest ih => simp only [List.map_cons, List.sum_cons, Nat.cast_add, ih]

theorem frozen_sum_mapSet (teams : List (String × Team)) (n : String) (v : Team) :
    ((mapSet str_less teams n v).map (fun e => (frozen_number e.2.problems : Int))).sum
      = (teams.map (fun e => (frozen_number e.2.problems : Int))).sum
        - (frozen_number (getTeam teams n).problems : Int) + frozen_number v.problems := by
  have e := sum_mapSet (fun t : Team => (frozen_number t.problems : Int)) str_less teams n v
  rw [e]
  unfold getTeam
  cases hf : mapFind teams n with
  | none => simp [frozen_number]
  | some t => simp

theorem frozen_sum_assign_rankings : ∀ (order : List String) (i : Nat)
    (teams : List (String × Team)),
    ((assign_rankings order i teams).map (fun e => (frozen_number e.2.problems : Int))).sum
      = (teams.map (fun e => (frozen_number e.2.problems : Int))).sum
  | [], _, _ => rfl
  | n :: rest, i, teams => by
    simp only [assign_rankings]
    rw [frozen_sum_assign_rankings rest (i + 1), frozen_sum_mapSet]
    ring

theorem frozen_total_update_scoreboard (s : ICPCSystem) :
    frozen_total (update_scoreboard s) = frozen_total s := by
  have h : (frozen_total (update_scoreboard s) : Int) = frozen_total s := by
    rw [frozen_total_eq, frozen_total_eq]
    exact frozen_sum_assign_rankings _ 0 s.teams
  exact_mod_cast h

theorem frozen_number_reveal (t : Team) (p : Nat)
    (h : (getProblem t.problems p).frozen = true) :
    (frozen_number (reveal t p).1.problems : Int) = frozen_number t.problems - 1 := by
  unfold reveal
  simp only [Team.update_sorted_times]
  split_ifs <;> simp [frozen_number_set, h]

theorem frozen_total_reveal_state (s : ICPCSystem)
    (h : (problemOf s (find_lowest s)
      (find_smallest (getTeam s.teams (find_lowest s)))).frozen = true) :
    frozen_total (reveal_state s) + 1 = frozen_total s := by
  have e : (frozen_total (reveal_state s) : Int) + 1 = frozen_total s := by
    rw [frozen_total_eq, frozen_total_eq]
    unfold reveal_state
    simp only
    rw [frozen_sum_mapSet, frozen_number_reveal _ _ h]
    ring
  exact_mod_cast e

/-- At a loop head whose frozen problems have letters up to `'Z'`, the problem selected by
an iteration that does not break is frozen. -/
theorem selected_is_frozen (s : ICPCSystem) (hp : ProblemsInv s) (hz : FrozenLetters s)
    (hl : find_lowest s ≠ "") :
    (problemOf s (find_lowest s)
      (find_smallest (getTeam s.teams (find_lowest s)))).frozen = true := by
  have h1 := (find_lowest_spec s hl).2
  obtain ⟨p, hpf⟩ := problem_of_has_frozen _ (hp (find_lowest s)) h1
  exact (find_smallest_spec _ (hp (find_lowest s)) ⟨p, hpf, hz (find_lowest s) p hpf⟩).1

theorem frozen_total_scroll_step (s s' : ICPCSystem) (ev : Option RankChange)
    (hs : scroll_step s = some (s', ev)) (hp : ProblemsInv s) (hz : FrozenLetters s) :
    frozen_total s' + 1 = frozen_total s := by
  obtain ⟨hl, h1 | h1⟩ := scroll_step_cases s s' ev hs
  · rw [h1.1]; exact frozen_total_reveal_state s (selected_is_frozen s hp hz hl)
  · rw [h1.1, frozen_total_update_scoreboard]
    exact frozen_total_reveal_state s (selected_is_frozen s hp hz hl)

theorem problemOf_of_mem (s : ICPCSystem) (hk : (mapKeys s.teams).Nodup) (hp : ProblemsInv s)
    (n : String) (t : Team) (hn : (n, t) ∈ s.teams) (k : Nat) (ps : ProblemStatus)
    (hps : (k, ps) ∈ t.problems) : problemOf s n k = ps := by
  have e1 : getTeam s.teams n = t := by
    unfold getTeam; rw [mapFind_of_mem n t s.teams hk hn]; rfl
  have e2 := hp n
  rw [e1] at e2
  unfold problemOf getProblem
  rw [e1, mapFind_of_mem k ps t.problems e2 hps]; rfl

theorem frozen_total_eq_zero (s : ICPCSystem) (hk : (mapKeys s.teams).Nodup)
    (hp : ProblemsInv s) (h : ∀ n p, (problemOf s n p).frozen = false) :
    frozen_total s = 0 := by
  unfold frozen_total
  apply List.sum_eq_zero
  intro x hx
  obtain ⟨e, he, rfl⟩ := List.mem_map.1 hx
  unfold frozen_number
  rw [List.length_eq_zero, List.filter_eq_nil_iff]
  intro q hq
  have := problemOf_of_mem s hk hp e.1 e.2 he q.1 q.2 hq
  rw [← this, h]
  simp

theorem frozen_number_le (m : List (Nat × ProblemStatus)) (hnd : (mapKeys m).Nodup)
    (c : Nat) (h : ∀ e ∈ m, e.2.frozen = true → 65 ≤ e.1 ∧ e.1 < 65 + c) :
    frozen_number m ≤ c := by
  unfold frozen_number
  have hsub : List.Sublist ((m.filter (fun e => e.2.frozen)).map Prod.fst) (mapKeys m) :=
    List.Sublist.map _ (List.filter_sublist m)
  have hnd2 : ((m.filter (fun e => e.2.frozen)).map Prod.fst).Nodup := hnd.sublist hsub
  have hss : ((m.filter (fun e => e.2.frozen)).map Prod.fst).toFinset ⊆ Finset.Ico 65 (65 + c) := by
    intro k hk
    rw [List.mem_toFinset, List.mem_map] at hk
    obtain ⟨e, he, rfl⟩ := hk
    rw [List.mem_filter] at he
    rw [Finset.mem_Ico]
    exact h e he.1 he.2
  have hc := Finset.card_le_card hss
  rw [List.toFinset_card_of_nodup hnd2, List.length_map, Nat.card_Ico] at hc
  omega

theorem sum_le_length_mul (c : Nat) : ∀ (l : List Nat), (∀ x ∈ l, x ≤ c) → l.sum ≤ l.length * c
  | [], _ => by simp
  | a :: l, h => by
    have h1 := h a (by simp)
    have h2 := sum_le_length_mul c l (fun x hx => h x (List.mem_cons_of_mem _ hx))
    simp only [List.sum_cons, List.length_cons]
    rw [Nat.add_mul, Nat.one_mul]
    omega

theorem frozen_total_le (s : ICPCSystem) (hk : (mapKeys s.teams).Nodup) (hp : ProblemsInv s)
    (h : ∀ n p, (problemOf s n p).frozen = true → 65 ≤ p ∧ (p : Int) < 65 + s.problem_count) :
    frozen_total s ≤ s.teams.length * s.problem_count.toNat := by
  unfold frozen_total
  have := sum_le_length_mul s.problem_count.toNat
    (s.teams.map (fun e => frozen_number e.2.problems)) (by
      intro x hx
      obtain ⟨e, he, rfl⟩ := List.mem_map.1 hx
      have e1 : getTeam s.teams e.1 = e.2 := by
        unfold getTeam; rw [mapFind_of_mem e.1 e.2 s.teams hk he]; rfl
      have e2 := hp e.1
      rw [e1] at e2
      apply frozen_number_le _ e2
      intro q hq hf
      have e3 := problemOf_of_mem s hk hp e.1 e.2 he q.1 q.2 hq
      have e4 := h e.1 q.1 (by rw [e3]; exact hf)
      omega)
  simpa using this

/-! ## Termination of the scroll loop -/

theorem frozenLetters_of_check (s : ICPCSystem) (h : frozen_letters_ok s = true) :
    FrozenLetters s := by
  intro n p hf
  unfold problemOf getTeam getProblem at hf
  cases h1 : mapFind s.teams n with
  | none => rw [h1] at hf; simp [mapFind] at hf
  | some t =>
    rw [h1] at hf
    cases h2 : mapFind t.problems p with
    | none => rw [Option.getD_some, h2] at hf; simp at hf
    | some ps =>
      rw [Option.getD_some, h2, Option.getD_some] at hf
      have m1 := mem_of_mapFind n t s.teams h1
      have m2 := mem_of_mapFind p ps t.problems h2
      unfold frozen_letters_ok at h
      rw [List.all_eq_true] at h
      have h3 := h _ m1
      rw [List.all_eq_true] at h3
      have h4 := h3 _ m2
      simpa [hf] using h4

theorem reachable_state_after (fuel : Nat) (cmds : List Cmd)
    (h : (run fuel {} cmds).isSome = true) : Reachable (state_after fuel cmds) := by
  unfold state_after
  cases hr : run fuel {} cmds with
  | none => rw [hr] at h; simp at h
  | some s => exact ⟨fuel, cmds, hr⟩

theorem scroll_count_spec : ∀ (m : Nat) (s : ICPCSystem), ProblemsInv s → FrozenLetters s →
    frozen_total s = m →
    ∃ k, k ≤ m
      ∧ (∀ fuel, k < fuel →
          scroll_count fuel s = some k ∧ (scroll_loop fuel s).isSome = true)
      ∧ (OrderInv s → (mapKeys s.teams).Nodup → "" ∉ mapKeys s.teams → k = m) := by
  intro m
  induction m with
  | zero =>
    intro s hp hz hm
    cases hstep : scroll_step s with
    | none =>
      refine ⟨0, Nat.le_refl _, ?_, fun _ _ _ => rfl⟩
      intro fuel hfuel
      obtain ⟨f, rfl⟩ : ∃ f, fuel = f + 1 := ⟨fuel - 1, by omega⟩
      simp [scroll_count, scroll_loop, hstep]
    | some r =>
      obtain ⟨s1, ev⟩ := r
      have := frozen_total_scroll_step s s1 ev hstep hp hz
      omega
  | succ m ih =>
    intro s hp hz hm
    cases hstep : scroll_step s with
    | none =>
      refine ⟨0, Nat.zero_le _, ?_, ?_⟩
      · intro fuel hfuel
        obtain ⟨f, rfl⟩ : ∃ f, fuel = f + 1 := ⟨fuel - 1, by omega⟩
        simp [scroll_count, scroll_loop, hstep]
      · intro ho hk hne
        have h0 := frozen_total_eq_zero s hk hp
          (no_frozen_of_loop_end s ho hne ((scroll_step_none_iff s).1 hstep))
        omega
    | some r =>
      obtain ⟨s1, ev⟩ := r
      have hdec := frozen_total_scroll_step s s1 ev hstep hp hz
      obtain ⟨k, hk1, hk2, hk3⟩ := ih s1 (problemsInv_scroll_step s s1 ev hstep hp)
        (frozenLetters_scroll_step s s1 ev hstep hz) (by omega)
      refine ⟨k + 1, by omega, ?_, ?_⟩
      · intro fuel hfuel
        obtain ⟨f, rfl⟩ : ∃ f, fuel = f + 1 := ⟨fuel - 1, by omega⟩
        obtain ⟨c1, c2⟩ := hk2 f (by omega)
        cases hloop : scroll_loop f s1 with
        | none => rw [hloop] at c2; simp at c2
        | some r2 => simp [scroll_count, scroll_loop, hstep, c1, hloop]
      · intro ho hk hne
        have hks := mapKeys_scroll_step s s1 ev hstep ho
        have := hk3 hks.2 (hks.1 ▸ hk) (by rw [hks.1]; exact hne)
        omega

theorem frozenLetters_update_scoreboard (s : ICPCSystem) (h : FrozenLetters s) :
    FrozenLetters (update_scoreboard s) := by
  intro n p hf
  rw [problemOf_update_scoreboard] at hf
  exact h n p hf

theorem problemsInv_of_loopHead (s : ICPCSystem) (h : LoopHead s) : ProblemsInv s :=
  problemsInv_of_visited s (visited_of_loopHead s h)

/-- Enough fuel lets a scroll called in a reachable frozen state return. -/
theorem scroll_returns (s : ICPCSystem) (hr : Reachable s) (hz : FrozenLetters s)
    (fuel : Nat) (hfuel : frozen_total s < fuel) : (scroll fuel s).isSome = true := by
  have hv := visited_of_reachable s hr
  obtain ⟨k, hk1, hk2, _⟩ := scroll_count_spec (frozen_total s) (update_scoreboard s)
    (problemsInv_update_scoreboard s (problemsInv_of_visited s hv))
    (frozenLetters_update_scoreboard s hz) (frozen_total_update_scoreboard s)
  obtain ⟨_, c2⟩ := hk2 fuel (by omega)
  unfold scroll
  cases hloop : scroll_loop fuel (update_scoreboard s) with
  | none => rw [hloop] at c2; simp at c2
  | some r => split_ifs <;> simp [hloop]

/-- Claim C16, refuted: with one team and a contest started with one problem, a scroll
entered with the two problems `A` and `B` of the team frozen makes two reveal steps,
more than team count times problem count. -/
theorem reveal_steps_counterexample :
    (run 0 {} cmds_beyond_count).isSome = true
    ∧ (state_after 0 cmds_beyond_count).frozen = true
    ∧ frozen_letters_ok (state_after 0 cmds_beyond_count) = true
    ∧ (state_after 0 cmds_beyond_count).teams.length = 1
    ∧ (state_after 0 cmds_beyond_count).problem_count = 1
    ∧ frozen_total (state_after 0 cmds_beyond_count) = 2
    ∧ scroll_count 3 (update_scoreboard (state_after 0 cmds_beyond_count)) = some 2
    ∧ ¬ (2 ≤ 1 * 1) := by
  decide

/-- Claim C16, amended: at every head of the scroll loop whose frozen problems have
letters up to `'Z'`, an iteration that does not break lowers the total number of frozen
problems by exactly one; a scroll called in a reachable frozen state with such letters
breaks after a number `k` of reveal steps that is at most the number of problems frozen
when it began, with every fuel above `k` letting `scroll` return, and `k` is that number
when no team is registered under the empty name; the number of frozen problems is at most
team count times problem count when every frozen letter is among the first
`problem_count` letters. -/
theorem scroll_reveal_steps :
    (∀ s s' ev, LoopHead s → FrozenLetters s → scroll_step s = some (s', ev) →
        frozen_total s' + 1 = frozen_total s)
    ∧ (∀ s, Reachable s → s.frozen = true → FrozenLetters s →
        ∃ k, k ≤ frozen_total s
          ∧ (∀ fuel, k < fuel →
              scroll_count fuel (update_scoreboard s) = some k
              ∧ (scroll fuel s).isSome = true)
          ∧ ("" ∉ mapKeys s.teams → k = frozen_total s))
    ∧ (∀ s, Reachable s →
        (∀ n p, (problemOf s n p).frozen = true →
          65 ≤ p ∧ (p : Int) < 65 + s.problem_count) →
        frozen_total s ≤ s.teams.length * s.problem_count.toNat) := by
  refine ⟨?_, ?_, ?_⟩
  · intro s s' ev hh hz hs
    exact frozen_total_scroll_step s s' ev hs (problemsInv_of_loopHead s hh) hz
  · intro s hr hf hz
    have hv := visited_of_reachable s hr
    obtain ⟨k, hk1, hk2, hk3⟩ := scroll_count_spec (frozen_total s) (update_scoreboard s)
      (problemsInv_update_scoreboard s (problemsInv_of_visited s hv))
      (frozenLetters_update_scoreboard s hz) (frozen_total_update_scoreboard s)
    refine ⟨k, hk1, ?_, ?_⟩
    · intro fuel hfuel
      obtain ⟨c1, c2⟩ := hk2 fuel hfuel
      refine ⟨c1, ?_⟩
      unfold scroll
      cases hloop : scroll_loop fuel (update_scoreboard s) with
      | none => rw [hloop] at c2; simp at c2
      | some r => simp [hf, hloop]
    · intro hne
      have hl := loopInv_update_scoreboard s (rankInv_of_visited s hv).1
      refine hk3 hl.1 ?_ ?_
      · rw [mapKeys_update_scoreboard]; exact (rankInv_of_visited s hv).1
      · rw [mapKeys_update_scoreboard]; exact hne
  · intro s hr h
    have hv := visited_of_reachable s hr
    exact frozen_total_le s (rankInv_of_visited s hv).1 (problemsInv_of_visited s hv) h

/-- An instance of `scroll_reveal_steps`: the scroll called after `cmds_stale_snapshot`,
where one problem is frozen. -/
theorem scroll_reveal_steps_witness :
    ∃ k, k ≤ frozen_total (state_after 0 cmds_stale_snapshot)
      ∧ (∀ fuel, k < fuel →
          scroll_count fuel (update_scoreboard (state_after 0 cmds_stale_snapshot)) = some k
          ∧ (scroll fuel (state_after 0 cmds_stale_snapshot)).isSome = true)
      ∧ ("" ∉ mapKeys (state_after 0 cmds_stale_snapshot).teams →
          k = frozen_total (state_after 0 cmds_stale_snapshot)) :=
  scroll_reveal_steps.2.1 (state_after 0 cmds_stale_snapshot)
    (reachable_state_after 0 cmds_stale_snapshot (by decide)) (by decide)
    (frozenLetters_of_check _ (by decide))

/-! ## The scoreboard order inside the scroll loop -/

theorem team_less_of_fields (m1 m2 : List (String × Team)) (a b : String)
    (ha : (getTeam m2 a).solved_count = (getTeam m1 a).solved_count
      ∧ (getTeam m2 a).penalty_time = (getTeam m1 a).penalty_time
      ∧ (getTeam m2 a).sorted_solve_times = (getTeam m1 a).sorted_solve_times)
    (hb : (getTeam m2 b).solved_count = (getTeam m1 b).solved_count
      ∧ (getTeam m2 b).penalty_time = (getTeam m1 b).penalty_time
      ∧ (getTeam m2 b).sorted_solve_times = (getTeam m1 b).sorted_solve_times) :
    team_less m2 a b = team_less m1 a b := by
  rw [team_less_eq, team_less_eq, ha.1, ha.2.1, ha.2.2, hb.1, hb.2.1, hb.2.2]

theorem reveal_no_ac_fields (t : Team) (p : Nat) (h : (reveal t p).2 = false) :
    (reveal t p).1.solved_count = t.solved_count
    ∧ (reveal t p).1.penalty_time = t.penalty_time
    ∧ (reveal t p).1.sorted_solve_times = t.sorted_solve_times := by
  rw [reveal_snd] at h
  have h1 : (getProblem t.problems p).first_ac_time_in_freeze = -1 := by simpa using h
  unfold reveal
  simp [h1]

theorem reveal_state_fields (s : ICPCSystem) (n : String) (hn : n ≠ find_lowest s) :
    getTeam (reveal_state s).teams n = getTeam s.teams n := by
  rw [getTeam_reveal_state]; simp [hn]

theorem team_less_reveal_state_no_ac (s : ICPCSystem)
    (h : (reveal (getTeam s.teams (find_lowest s))
      (find_smallest (getTeam s.teams (find_lowest s)))).2 = false) (a b : String) :
    team_less (reveal_state s).teams a b = team_less s.teams a b := by
  have key : ∀ n, (getTeam (reveal_state s).teams n).solved_count = (getTeam s.teams n).solved_count
      ∧ (getTeam (reveal_state s).teams n).penalty_time = (getTeam s.teams n).penalty_time
      ∧ (getTeam (reveal_state s).teams n).sorted_solve_times
          = (getTeam s.teams n).sorted_solve_times := by
    intro n
    by_cases hn : n = find_lowest s
    · rw [getTeam_reveal_state, if_pos hn, hn]
      exact reveal_no_ac_fields _ _ h
    · rw [reveal_state_fields s n hn]
      exact ⟨rfl, rfl, rfl⟩
  exact team_less_of_fields _ _ a b (key a) (key b)

theorem sortedInv_update_scoreboard (s : ICPCSystem) (h : RankInv s) :
    SortedInv (update_scoreboard s) := by
  unfold SortedInv
  refine (pairwise_update_scoreboard s h).imp ?_
  intro a b hab
  rw [team_less_update_scoreboard]; exact hab

theorem sortedInv_scroll_step (s s' : ICPCSystem) (ev : Option RankChange)
    (hs : scroll_step s = some (s', ev)) (hr : RankInv s) (h : SortedInv s) :
    SortedInv s' := by
  obtain ⟨_, h1 | h1⟩ := scroll_step_cases s s' ev hs
  · rw [h1.1]
    unfold SortedInv
    have e : (reveal_state s).team_order = s.team_order := rfl
    rw [e]
    refine List.Pairwise.imp ?_ h
    intro a b hab
    rw [team_less_reveal_state_no_ac s h1.2.2]; exact hab
  · rw [h1.1]
    exact sortedInv_update_scoreboard _ (rankInv_reveal_state s hr)

theorem sortedInv_of_loopHead (s : ICPCSystem) (h : LoopHead s) : SortedInv s := by
  induction h with
  | enter s hr _ =>
    exact sortedInv_update_scoreboard s (rankInv_of_visited s (visited_of_reachable s hr))
  | next s s' ev hh hs ih =>
    exact sortedInv_scroll_step s s' ev hs (rankInv_of_visited s (visited_of_loopHead s hh)) ih

theorem team_less_antisymm (teams : List (String × Team)) :
    IsAntisymm String (fun a b => team_less teams a b = true) :=
  ⟨fun a b h1 h2 => by
    by_contra hne
    have h3 := team_less_total teams hne
    rw [h1, h2] at h3
    simp at h3⟩

theorem sorted_perm_unique (teams : List (String × Team)) (l1 l2 : List String)
    (hp : List.Perm l1 l2) (h1 : l1.Pairwise (fun a b => team_less teams a b = true))
    (h2 : l2.Pairwise (fun a b => team_less teams a b = true)) : l1 = l2 :=
  haveI := team_less_antisymm teams
  List.eq_of_perm_of_sorted hp h1 h2

theorem perm_keys_of_loopInv (s : ICPCSystem) (hk : (mapKeys s.teams).Nodup) (h : LoopInv s) :
    List.Perm s.team_order (mapKeys s.teams) :=
  (List.perm_ext_iff_of_nodup h.2.1 hk).2 h.1

/-- A scoreboard that is in ranking order with rank `i + 1` at index `i` is left as it is
by `update_scoreboard`. -/
theorem update_scoreboard_fixed (s : ICPCSystem) (hr : RankInv s) (hl : LoopInv s)
    (hs : SortedInv s) :
    (update_scoreboard s).team_order = s.team_order
    ∧ ∀ n, getTeam (update_scoreboard s).teams n = getTeam s.teams n := by
  have hord : (update_scoreboard s).team_order = s.team_order := by
    refine sorted_perm_unique s.teams _ _ ?_ (pairwise_update_scoreboard s hr) hs
    rw [team_order_update_scoreboard]
    exact (perm_stable_sort _ _).trans (perm_keys_of_loopInv s hr.1 hl).symm
  refine ⟨hord, ?_⟩
  intro n
  obtain ⟨r, hrk⟩ := getTeam_update_scoreboard s n
  have hrank : (getTeam (update_scoreboard s).teams n).ranking = (getTeam s.teams n).ranking := by
    by_cases hn : n ∈ s.team_order
    · obtain ⟨i, hi, rfl⟩ := List.getElem_of_mem hn
      have h1 := hl.2.2 i hi
      have hi2 : i < (update_scoreboard s).team_order.length := by rw [hord]; exact hi
      have h2 := ranking_update_scoreboard s hr.1 i hi2
      simp only [List.get_eq_getElem] at h1 h2
      simp only [hord] at h2
      rw [h1, h2]
    · have e : (update_scoreboard s).teams
          = assign_rankings (update_scoreboard s).team_order 0 s.teams := rfl
      rw [e, hord, getTeam_assign_rankings_of_not_mem _ 0 _ n hn]
  rw [hrk] at hrank ⊢
  simp only at hrank
  rw [hrank]

theorem loopHead_scroll_loop : ∀ (fuel : Nat) (s s' : ICPCSystem) (evs : List RankChange),
    scroll_loop fuel s = some (s', evs) → LoopHead s → LoopHead s'
  | 0, _, _, _, h, _ => by simp [scroll_loop] at h
  | fuel + 1, s, s', evs, h, hh => by
    simp only [scroll_loop] at h
    cases hstep : scroll_step s with
    | none =>
      simp only [hstep, Option.some.injEq, Prod.mk.injEq] at h
      rw [← h.1]; exact hh
    | some r =>
      obtain ⟨s1, ev⟩ := r
      simp only [hstep] at h
      cases hloop : scroll_loop fuel s1 with
      | none => simp [hloop] at h
      | some r2 =>
        obtain ⟨s2, evs2⟩ := r2
        simp only [hloop, Option.some.injEq, Prod.mk.injEq] at h
        rw [← h.1]
        exact loopHead_scroll_loop fuel s1 s2 evs2 hloop (LoopHead.next s s1 ev hh hstep)

theorem print_scoreboard_congr (s1 s2 : ICPCSystem) (ho : s1.team_order = s2.team_order)
    (hc : s1.problem_count = s2.problem_count)
    (ht : ∀ n, getTeam s1.teams n = getTeam s2.teams n) :
    print_scoreboard s1 = print_scoreboard s2 := by
  unfold print_scoreboard
  rw [ho]
  apply List.map_congr_left
  intro n _
  unfold print_row
  simp only [hc, ht]

/-- Claim C12: a scroll called in a reachable frozen state whose frozen problems have
letters up to `'Z'` returns for every fuel above the number of frozen problems, and in
the state it leaves, applying `update_scoreboard` changes neither `team_order` nor the
ranking (nor any other field) of any team record, so the scoreboard that the scroll
printed last is the one a recomputation prints. -/
theorem scroll_order_is_recomputed (s : ICPCSystem) (hr : Reachable s)
    (hf : s.frozen = true) (hz : FrozenLetters s) :
    (∀ fuel, frozen_total s < fuel → (scroll fuel s).isSome = true)
    ∧ ∀ fuel s' out, scroll fuel s = some (s', out) →
        (update_scoreboard s').team_order = s'.team_order
        ∧ (∀ n, (getTeam (update_scoreboard s').teams n).ranking = (getTeam s'.teams n).ranking)
        ∧ (∀ n, getTeam (update_scoreboard s').teams n = getTeam s'.teams n)
        ∧ print_scoreboard (update_scoreboard s') = print_scoreboard s'
        ∧ ∃ pre, out = pre ++ print_scoreboard s' := by
  refine ⟨fun fuel hfuel => scroll_returns s hr hz fuel hfuel, ?_⟩
  intro fuel s' out hsc
  unfold scroll at hsc
  simp only [hf, Bool.not_true, Bool.false_eq_true, if_false] at hsc
  cases hloop : scroll_loop fuel (update_scoreboard s) with
  | none => simp [hloop] at hsc
  | some r =>
    obtain ⟨s2, evs⟩ := r
    simp only [hloop, Option.some.injEq, Prod.mk.injEq] at hsc
    obtain ⟨e1, e2⟩ := hsc
    have hh : LoopHead s2 :=
      loopHead_scroll_loop fuel _ s2 evs hloop (LoopHead.enter s hr hf)
    have hfix := update_scoreboard_fixed s2 (rankInv_of_visited s2 (visited_of_loopHead s2 hh))
      (loopInv_of_loopHead s2 hh) (sortedInv_of_loopHead s2 hh)
    have u1 : (update_scoreboard s').team_order = (update_scoreboard s2).team_order := by
      rw [← e1]; rfl
    have u2 : (update_scoreboard s').teams = (update_scoreboard s2).teams := by
      rw [← e1]; rfl
    have u3 : s'.team_order = s2.team_order := by rw [← e1]
    have u4 : s'.teams = s2.teams := by rw [← e1]
    have u5 : s'.problem_count = s2.problem_count := by rw [← e1]
    have c1 : (update_scoreboard s').team_order = s'.team_order := by
      rw [u1, u3]; exact hfix.1
    have c3 : ∀ n, getTeam (update_scoreboard s').teams n = getTeam s'.teams n := by
      intro n; rw [u2, u4]; exact hfix.2 n
    refine ⟨c1, fun n => by rw [c3 n], c3, print_scoreboard_congr _ _ c1 rfl c3, ?_⟩
    refine ⟨["[Info]Scroll scoreboard."] ++ print_scoreboard (update_scoreboard s)
      ++ evs.map RankChange.render, ?_⟩
    rw [← e2]
    congr 1
    exact print_scoreboard_congr _ _ u3.symm u5.symm (fun n => by rw [u4])

/-- An instance of `scroll_order_is_recomputed`: the scroll called after `cmds_overtake`,
in which team `B` overtakes team `A`. -/
theorem scroll_order_is_recomputed_witness :
    (∀ fuel, frozen_total (state_after 0 cmds_overtake) < fuel →
      (scroll fuel (state_after 0 cmds_overtake)).isSome = true)
    ∧ ∀ fuel s' out, scroll fuel (state_after 0 cmds_overtake) = some (s', out) →
        (update_scoreboard s').team_order = s'.team_order
        ∧ (∀ n, (getTeam (update_scoreboard s').teams n).ranking = (getTeam s'.teams n).ranking)
        ∧ (∀ n, getTeam (update_scoreboard s').teams n = getTeam s'.teams n)
        ∧ print_scoreboard (update_scoreboard s') = print_scoreboard s'
        ∧ ∃ pre, out = pre ++ print_scoreboard s' :=
  scroll_order_is_recomputed (state_after 0 cmds_overtake)
    (reachable_state_after 0 cmds_overtake (by decide)) (by decide)
    (frozenLetters_of_check _ (by decide))

/-! ## The rank-change event -/

theorem find_at_split {α : Type} (p : α → Bool) (x : α) : ∀ (l1 l2 : List α),
    (∀ y ∈ l1, p y = false) → p x = true → (l1 ++ x :: l2).find? p = some x
  | [], _, _, hx => by simp [List.find?, hx]
  | a :: l1, l2, h, hx => by
    have ha : p a = false := h a (by simp)
    simp only [List.cons_append, List.find?, ha]
    exact find_at_split p x l1 l2 (fun y hy => h y (List.mem_cons_of_mem _ hy)) hx

theorem moved_up_index {α : Type} (L1 L2 A B : List α) (h : A ++ B = L1 ++ L2)
    (hlt : A.length < L1.length) :
    ∃ r B', B = r :: B' ∧ L1[A.length]? = some r := by
  cases B with
  | nil =>
    have := congrArg List.length h
    simp at this
    omega
  | cons r B' =>
    refine ⟨r, B', rfl, ?_⟩
    have e := congrArg (fun l => l[A.length]?) h
    simp only at e
    rw [List.getElem?_append_right (Nat.le_refl _), List.getElem?_append_left hlt] at e
    simpa using e.symm

theorem order_after_move (s s' : ICPCSystem) (ev : Option RankChange) (hh : LoopHead s)
    (hs : scroll_step s = some (s', ev))
    (hflag : (reveal (getTeam s.teams (find_lowest s))
      (find_smallest (getTeam s.teams (find_lowest s)))).2 = true) :
    ∃ L1 L2 A B, s.team_order = L1 ++ find_lowest s :: L2
      ∧ s'.team_order = A ++ find_lowest s :: B ∧ A ++ B = L1 ++ L2 := by
  obtain ⟨hl, h1 | h1⟩ := scroll_step_cases s s' ev hs
  · rw [hflag] at h1; exact absurd h1.2.2 (by simp)
  have hh' : LoopHead s' := LoopHead.next s s' ev hh hs
  have hr := rankInv_of_visited s (visited_of_loopHead s hh)
  have hr' := rankInv_of_visited s' (visited_of_loopHead s' hh')
  have hli := loopInv_of_loopHead s hh
  have hli' := loopInv_of_loopHead s' hh'
  have hkeys := (mapKeys_scroll_step s s' ev hs hli.1).1
  have hperm : List.Perm s'.team_order s.team_order := by
    refine (perm_keys_of_loopInv s' hr'.1 hli').trans ?_
    rw [hkeys]
    exact (perm_keys_of_loopInv s hr.1 hli).symm
  have hT : find_lowest s ∈ s.team_order := (find_lowest_spec s hl).1
  have hT' : find_lowest s ∈ s'.team_order := hperm.symm.subset hT
  obtain ⟨L1, L2, e1⟩ := List.append_of_mem hT
  obtain ⟨A, B, e2⟩ := List.append_of_mem hT'
  refine ⟨L1, L2, A, B, e1, e2, ?_⟩
  have hnd : (L1 ++ find_lowest s :: L2).Nodup := e1 ▸ hli.2.1
  have hnotin : ∀ a ∈ L1 ++ L2, a ≠ find_lowest s := by
    intro a ha e
    rw [List.nodup_middle, List.nodup_cons] at hnd
    exact hnd.1 (e ▸ ha)
  have p1 : List.Perm (A ++ B) (L1 ++ L2) := by
    have hp2 : List.Perm (A ++ find_lowest s :: B) (L1 ++ find_lowest s :: L2) := by
      rw [← e1, ← e2]; exact hperm
    exact ((List.perm_middle.symm.trans hp2).trans List.perm_middle).cons_inv
  have hs1 : SortedInv s := sortedInv_of_loopHead s hh
  have hs2 : SortedInv s' := sortedInv_of_loopHead s' hh'
  unfold SortedInv at hs1 hs2
  rw [e1] at hs1
  rw [e2] at hs2
  have q2 : (A ++ B).Pairwise (fun a b => team_less s'.teams a b = true) :=
    hs2.sublist (List.Sublist.append (List.Sublist.refl A) (List.sublist_cons_self _ B))
  have q1 : (L1 ++ L2).Pairwise (fun a b => team_less s.teams a b = true) :=
    hs1.sublist (List.Sublist.append (List.Sublist.refl L1) (List.sublist_cons_self _ L2))
  have q3 : (L1 ++ L2).Pairwise (fun a b => team_less s'.teams a b = true) := by
    refine List.Pairwise.imp_of_mem ?_ q1
    intro a b ha hb hab
    rw [h1.1, team_less_update_scoreboard]
    rw [team_less_of_fields s.teams (reveal_state s).teams a b
      (by rw [reveal_state_fields s a (hnotin a ha)]; exact ⟨rfl, rfl, rfl⟩)
      (by rw [reveal_state_fields s b (hnotin b hb)]; exact ⟨rfl, rfl, rfl⟩)]
    exact hab
  exact sorted_perm_unique s'.teams _ _ p1 q2 q3

theorem find_replaced_spec (s : ICPCSystem) (T R : String) (A B' : List String)
    (ho : s.team_order = A ++ T :: R :: B') (hli : LoopInv s) :
    s.team_order.find? (fun name => name ≠ T
        && (getTeam s.teams name).ranking = (getTeam s.teams T).ranking + 1) = some R
    ∧ find_replaced s T (getTeam s.teams T).ranking = R
    ∧ (getTeam s.teams T).ranking = (A.length : Int) + 1
    ∧ (getTeam s.teams R).ranking = (A.length : Int) + 2
    ∧ R ≠ T := by
  obtain ⟨_, hnd, hrank⟩ := hli
  rw [ho] at hnd
  have hrank1 : ∀ (i : Nat) (h : i < (A ++ T :: R :: B').length),
      (fun n => (getTeam s.teams n).ranking) ((A ++ T :: R :: B').get ⟨i, h⟩)
        = (i : Int) + 1 := by
    intro i h
    have := hrank i (by rw [ho]; exact h)
    simp only [List.get_eq_getElem] at this ⊢
    simp only [ho] at this
    exact this
  have e2 : A ++ T :: R :: B' = (A ++ [T]) ++ R :: B' := by simp
  have hrank2 : ∀ (i : Nat) (h : i < ((A ++ [T]) ++ R :: B').length),
      (fun n => (getTeam s.teams n).ranking) (((A ++ [T]) ++ R :: B').get ⟨i, h⟩)
        = (i : Int) + 1 := by
    intro i h
    have := hrank1 i (by rw [e2]; exact h)
    simp only [List.get_eq_getElem] at this ⊢
    simp only [e2] at this
    exact this
  obtain ⟨rT, rA⟩ := rank_of_split (fun n => (getTeam s.teams n).ranking) A (R :: B') T hrank1
  obtain ⟨rR, _⟩ := rank_of_split (fun n => (getTeam s.teams n).ranking) (A ++ [T]) B' R hrank2
  simp only [List.length_append, List.length_singleton, Nat.cast_add, Nat.cast_one] at rR
  have hRT : R ≠ T := by
    intro e
    rw [List.nodup_middle, List.nodup_cons] at hnd
    exact hnd.1 (by simp [e])
  have hfind : s.team_order.find? (fun name => name ≠ T
        && (getTeam s.teams name).ranking = (getTeam s.teams T).ranking + 1) = some R := by
    rw [ho, e2]
    apply find_at_split
    · intro y hy
      rcases List.mem_append.1 hy with hy | hy
      · have := rA y hy
        simp only [Bool.and_eq_false_imp, decide_eq_true_eq, decide_eq_false_iff_not]
        intro _
        rw [rT]
        simp only at this
        omega
      · have : y = T := by simpa using hy
        simp [this]
    · simp only [Bool.and_eq_true, decide_eq_true_eq]
      refine ⟨hRT, ?_⟩
      rw [rR, rT]
  refine ⟨hfind, ?_, rT, by rw [rR]; ring, hRT⟩
  unfold find_replaced
  simp only [hfind, Option.getD_some]
  split_ifs with hc
  · rw [rT, ho]
    have : ((A.length : Int) + 1).toNat = A.length + 1 := by omega
    rw [this]
    rw [List.getD_eq_getElem?_getD, List.getElem?_append_right (by omega)]
    simp
  · rfl

theorem scroll_step_event (s s' : ICPCSystem) (ev : Option RankChange)
    (hs : scroll_step s = some (s', ev))
    (hflag : (reveal (getTeam s.teams (find_lowest s))
      (find_smallest (getTeam s.teams (find_lowest s)))).2 = true) :
    s' = update_scoreboard (reveal_state s)
    ∧ ev = if (getTeam s'.teams (find_lowest s)).ranking
              < (getTeam s.teams (find_lowest s)).ranking then
            some
              { team := find_lowest s
                replaced := find_replaced s' (find_lowest s)
                  (getTeam s'.teams (find_lowest s)).ranking
                solved_count := (getTeam s'.teams (find_lowest s)).solved_count
                penalty_time := (getTeam s'.teams (find_lowest s)).penalty_time }
          else none := by
  have hl := (scroll_step_cases s s' ev hs).1
  unfold scroll_step at hs
  simp only [hl, if_false, hflag, if_true] at hs
  by_cases hc : (getTeam (update_scoreboard (reveal_state s)).teams (find_lowest s)).ranking
      < (getTeam s.teams (find_lowest s)).ranking
  · simp only [hc, if_true, Option.some.injEq, Prod.mk.injEq] at hs
    obtain ⟨e1, e2⟩ := hs
    subst e1
    exact ⟨rfl, by rw [if_pos hc]; exact e2.symm⟩
  · simp only [hc, if_false, Option.some.injEq, Prod.mk.injEq] at hs
    obtain ⟨e1, e2⟩ := hs
    subst e1
    exact ⟨rfl, by rw [if_neg hc]; exact e2.symm⟩

/-- Claim C11, refuted: after `cmds_empty_replaced` the reveal of problem `A` makes it
solved and moves team `T` from rank 2 to rank 1; the rank-change event names as replaced
team the team now at rank 2, whose name is the empty string. -/
theorem replaced_team_counterexample :
    (run 0 {} cmds_empty_replaced).isSome = true
    ∧ (state_after 0 cmds_empty_replaced).frozen = true
    ∧ (head_after cmds_empty_replaced).team_order = ["", "T"]
    ∧ find_lowest (head_after cmds_empty_replaced) = "T"
    ∧ (reveal (getTeam (head_after cmds_empty_replaced).teams "T")
        (find_smallest (getTeam (head_after cmds_empty_replaced).teams "T"))).2 = true
    ∧ (getTeam (head_after cmds_empty_replaced).teams "T").ranking = 2
    ∧ (scroll_step (head_after cmds_empty_replaced)).map (fun r => r.1.team_order)
        = some ["T", ""]
    ∧ (scroll_step (head_after cmds_empty_replaced)).map
        (fun r => (getTeam r.1.teams "T").ranking) = some 1
    ∧ (scroll_step (head_after cmds_empty_replaced)).map
        (fun r => (getTeam r.1.teams "").ranking) = some 2
    ∧ (scroll_step (head_after cmds_empty_replaced)).map
        (fun r => r.2.map (fun e => e.replaced)) = some (some "")
    ∧ (scroll_step (head_after cmds_empty_replaced)).map
        (fun r => r.2.map RankChange.render) = some (some "T  1 5") := by
  decide

/-- Claim C11, amended: for a reveal step of the scroll loop that makes a problem solved,
a rank-change event is written iff the rank of the revealed team after the recomputation
is strictly smaller than its rank before the reveal; the event names the revealed team
and carries its updated solved count and penalty; the replaced team it names is a
registered team other than the revealed one, is the one the first lookup finds, has rank
new rank + 1 after the recomputation and held the new rank before the reveal; its name
is not empty when no team is registered under the empty name. -/
theorem rank_change_event (s s' : ICPCSystem) (ev : Option RankChange) (hh : LoopHead s)
    (hs : scroll_step s = some (s', ev))
    (hflag : (reveal (getTeam s.teams (find_lowest s))
      (find_smallest (getTeam s.teams (find_lowest s)))).2 = true) :
    (ev.isSome = true ↔
      (getTeam s'.teams (find_lowest s)).ranking < (getTeam s.teams (find_lowest s)).ranking)
    ∧ ∀ e, ev = some e →
        e.team = find_lowest s
        ∧ e.solved_count = (getTeam s'.teams (find_lowest s)).solved_count
        ∧ e.penalty_time = (getTeam s'.teams (find_lowest s)).penalty_time
        ∧ e.solved_count = (getTeam s.teams (find_lowest s)).solved_count + 1
        ∧ e.penalty_time = (getTeam s.teams (find_lowest s)).penalty_time
            + (20 * ((problemOf s (find_lowest s)
                        (find_smallest (getTeam s.teams (find_lowest s)))).wrong_before_freeze
                  + (problemOf s (find_lowest s)
                        (find_smallest (getTeam s.teams (find_lowest s)))).wrongs_before_ac_in_freeze)
                + (problemOf s (find_lowest s)
                    (find_smallest (getTeam s.teams (find_lowest s)))).first_ac_time_in_freeze)
        ∧ e.replaced ∈ mapKeys s'.teams
        ∧ e.replaced ≠ find_lowest s
        ∧ s'.team_order.find? (fun name => name ≠ find_lowest s
            && (getTeam s'.teams name).ranking
                = (getTeam s'.teams (find_lowest s)).ranking + 1) = some e.replaced
        ∧ (getTeam s'.teams e.replaced).ranking
            = (getTeam s'.teams (find_lowest s)).ranking + 1
        ∧ (getTeam s.teams e.replaced).ranking = (getTeam s'.teams (find_lowest s)).ranking
        ∧ ("" ∉ mapKeys s.teams → e.replaced ≠ "") := by
  obtain ⟨hs', hev⟩ := scroll_step_event s s' ev hs hflag
  constructor
  · rw [hev]
    split_ifs with hc
    · simp [hc]
    · simp [hc]
  intro e he
  rw [hev] at he
  split_ifs at he with hc
  simp only [Option.some.injEq] at he
  have hh' : LoopHead s' := LoopHead.next s s' ev hh hs
  have hli := loopInv_of_loopHead s hh
  have hli' := loopInv_of_loopHead s' hh'
  have hkeys := (mapKeys_scroll_step s s' ev hs hli.1).1
  obtain ⟨L1, L2, A, B, e1, e2, e3⟩ := order_after_move s s' ev hh hs hflag
  -- the ranks of the revealed team before and after
  have hrank1 : ∀ (i : Nat) (h : i < (L1 ++ find_lowest s :: L2).length),
      (fun n => (getTeam s.teams n).ranking) ((L1 ++ find_lowest s :: L2).get ⟨i, h⟩)
        = (i : Int) + 1 := by
    intro i h
    have := hli.2.2 i (by rw [e1]; exact h)
    simp only [List.get_eq_getElem] at this ⊢
    simp only [e1] at this
    exact this
  have hrank2 : ∀ (i : Nat) (h : i < (A ++ find_lowest s :: B).length),
      (fun n => (getTeam s'.teams n).ranking) ((A ++ find_lowest s :: B).get ⟨i, h⟩)
        = (i : Int) + 1 := by
    intro i h
    have := hli'.2.2 i (by rw [e2]; exact h)
    simp only [List.get_eq_getElem] at this ⊢
    simp only [e2] at this
    exact this
  have r1 := (rank_of_split (fun n => (getTeam s.teams n).ranking) L1 L2 _ hrank1).1
  have r2 := (rank_of_split (fun n => (getTeam s'.teams n).ranking) A B _ hrank2).1
  simp only at r1 r2
  have hlt : A.length < L1.length := by
    rw [r1, r2] at hc
    omega
  obtain ⟨R, B', hB, hR⟩ := moved_up_index L1 L2 A B e3 hlt
  rw [hB] at e2
  obtain ⟨f1, f2, f3, f4, f5⟩ := find_replaced_spec s' (find_lowest s) R A B' e2 hli'
  have hrep : e.replaced = R := by rw [← he]; exact f2
  -- the rank of the replaced team before the reveal
  have hold : (getTeam s.teams R).ranking = (A.length : Int) + 1 := by
    have hi : A.length < s.team_order.length := by
      rw [e1, List.length_append]; omega
    have hget : s.team_order.get ⟨A.length, hi⟩ = R := by
      simp only [List.get_eq_getElem]
      have : s.team_order[A.length]? = some R := by
        rw [e1, List.getElem?_append_left hlt]; exact hR
      rw [List.getElem?_eq_getElem hi] at this
      exact Option.some.inj this
    have := hli.2.2 A.length hi
    rw [hget] at this
    exact this
  -- the updated values of the revealed team
  have hac : (getProblem (getTeam s.teams (find_lowest s)).problems
      (find_smallest (getTeam s.teams (find_lowest s)))).first_ac_time_in_freeze ≠ -1 := by
    rw [reveal_snd] at hflag
    simpa using hflag
  obtain ⟨_, _, _, _, a5, a6, _⟩ := reveal_accepted_team _ _ hac
  obtain ⟨r, hr⟩ := getTeam_update_scoreboard (reveal_state s) (find_lowest s)
  rw [← hs', getTeam_reveal_state, if_pos rfl] at hr
  have hmem : R ∈ mapKeys s'.teams := by
    apply (hli'.1 R).1
    rw [e2]; simp
  refine ⟨by rw [← he], by rw [← he], by rw [← he], ?_, ?_, hrep ▸ hmem, hrep ▸ f5,
    hrep ▸ f1, ?_, ?_, ?_⟩
  · rw [← he]; simp only; rw [hr]; exact a5
  · rw [← he]; simp only; rw [hr]; exact a6
  · rw [hrep, f4, f3]; ring
  · rw [hrep, hold, f3]
  · intro hne e0
    rw [hrep] at e0
    rw [e0, hkeys] at hmem
    exact hne hmem

theorem some_getD_of_isSome {α : Type} (o : Option α) (d : α) (h : o.isSome = true) :
    o = some (o.getD d) := by
  cases o with
  | none => simp at h
  | some x => rfl

/-- An instance of `rank_change_event`: the first iteration of the scroll loop entered
after `cmds_overtake`, in which team `B` moves from rank 2 to rank 1 and replaces
team `A`. -/
theorem rank_change_event_witness :
    ((step_after cmds_overtake).2.isSome = true ↔
      (getTeam (step_after cmds_overtake).1.teams
          (find_lowest (head_after cmds_overtake))).ranking
        < (getTeam (head_after cmds_overtake).teams
            (find_lowest (head_after cmds_overtake))).ranking)
    ∧ (step_after cmds_overtake).2.map (fun e => e.replaced) = some "A"
    ∧ find_lowest (head_after cmds_overtake) = "B" :=
  ⟨(rank_change_event (head_after cmds_overtake) (step_after cmds_overtake).1
      (step_after cmds_overtake).2
      (LoopHead.enter _ (reachable_state_after 0 cmds_overtake (by decide)) (by decide))
      (some_getD_of_isSome (scroll_step (head_after cmds_overtake)) ({}, none) (by decide))
      (by decide)).1,
    by decide, by decide⟩

/-! ## Freezing and the final result, without the empty team name -/

theorem probSim_submit_team (A B : Team) (prob : Nat) (status : String) (time : Int)
    (ht : 0 ≤ time)
    (h : ProbSim (getProblem A.problems prob) (getProblem B.problems prob))
    (hfc : (getProblem A.problems prob).frozen = false →
      (getProblem A.problems prob).first_ac_time_in_freeze = -1
      ∧ (getProblem A.problems prob).total_wrongs_in_freeze = 0) :
    ProbSim (getProblem (submit_team true A prob status time).problems prob)
      (getProblem (submit_team false B prob status time).problems prob) := by
  unfold submit_team
  simp only [Team.update_sorted_times]
  generalize getProblem A.problems prob = a at *
  generalize getProblem B.problems prob = b at *
  have htime : time ≠ -1 := by omega
  obtain ⟨h1, h2⟩ := h
  unfold SameProblem at h2
  unfold ProbSim SameProblem
  cases hfr : a.frozen <;> cases hsa : a.solved <;> cases hsb : b.solved <;>
    by_cases hacc : status = "Accepted" <;>
    by_cases hac : a.first_ac_time_in_freeze = -1 <;>
    simp_all [getProblem_mapSet]
  all_goals omega

theorem mapKeys_mapInsertNew_congr {κ α : Type} (lt : κ → κ → Bool) (k : κ) (v1 v2 : α) :
    ∀ (m1 m2 : List (κ × α)), mapKeys m1 = mapKeys m2 →
      mapKeys (mapInsertNew lt k v1 m1) = mapKeys (mapInsertNew lt k v2 m2)
  | [], [], _ => rfl
  | [], _ :: _, h => by simp [mapKeys] at h
  | _ :: _, [], h => by simp [mapKeys] at h
  | (k1, a1) :: r1, (k2, a2) :: r2, h => by
    simp only [mapKeys, List.map_cons, List.cons.injEq] at h
    obtain ⟨hk, hr⟩ := h
    subst hk
    have ih := mapKeys_mapInsertNew_congr lt k v1 v2 r1 r2 hr
    simp only [mapKeys] at ih
    by_cases hl : lt k k1 = true
    · simp [mapInsertNew, hl, mapKeys, hr]
    · simp [mapInsertNew, hl, mapKeys, ih]

theorem mapKeys_mapSet_congr {κ α : Type} [DecidableEq κ] (lt : κ → κ → Bool) (k : κ)
    (v1 v2 : α) (m1 m2 : List (κ × α)) (h : mapKeys m1 = mapKeys m2) :
    mapKeys (mapSet lt m1 k v1) = mapKeys (mapSet lt m2 k v2) := by
  by_cases hk : k ∈ mapKeys m1
  · rw [mapKeys_mapSet_of_mem lt m1 k v1 hk, mapKeys_mapSet_of_mem lt m2 k v2 (h ▸ hk), h]
  · have hk2 : k ∉ mapKeys m2 := h ▸ hk
    have e1 : (mapFind m1 k).isSome = false := by
      rw [mem_mapKeys_iff] at hk; simpa using hk
    have e2 : (mapFind m2 k).isSome = false := by
      rw [mem_mapKeys_iff] at hk2; simpa using hk2
    unfold mapSet
    rw [e1, e2]
    simp only [Bool.false_eq_true, if_false]
    exact mapKeys_mapInsertNew_congr lt k v1 v2 m1 m2 h

theorem mapKeys_submit_team (f1 f2 : Bool) (A B : Team) (prob : Nat) (status : String)
    (time : Int) (h : mapKeys A.problems = mapKeys B.problems) :
    mapKeys (submit_team f1 A prob status time).problems
      = mapKeys (submit_team f2 B prob status time).problems := by
  have key : ∀ (fr : Bool) (T : Team), ∃ v,
      (submit_team fr T prob status time).problems = mapSet char_less T.problems prob v := by
    intro fr T
    unfold submit_team
    simp only [Team.update_sorted_times]
    split_ifs <;> exact ⟨_, rfl⟩
  obtain ⟨v1, e1⟩ := key f1 A
  obtain ⟨v2, e2⟩ := key f2 B
  rw [e1, e2]
  exact mapKeys_mapSet_congr char_less prob v1 v2 _ _ h

theorem teamSim_submit_team (A B : Team) (prob : Nat) (status : String) (time : Int)
    (ht : 0 ≤ time) (h : TeamSim A B)
    (hfc : (getProblem A.problems prob).frozen = false →
      (getProblem A.problems prob).first_ac_time_in_freeze = -1
      ∧ (getProblem A.problems prob).total_wrongs_in_freeze = 0) :
    TeamSim (submit_team true A prob status time) (submit_team false B prob status time) := by
  obtain ⟨h1, h2, h3⟩ := h
  refine ⟨?_, mapKeys_submit_team _ _ A B prob status time h2, ?_⟩
  · rw [submissions_submit_team, submissions_submit_team, h1]
  · intro p
    by_cases hp : p = prob
    · subst hp
      exact probSim_submit_team A B p status time ht (h3 p) hfc
    · rw [getProblem_submit_team_ne _ _ _ _ _ p hp, getProblem_submit_team_ne _ _ _ _ _ p hp]
      exact h3 p

theorem sim_submit (f u : ICPCSystem) (problem team_name status : String) (time : Int)
    (ht : 0 ≤ time) (hf : f.frozen = true) (hu : u.frozen = false) (hfi : FreezeInv f)
    (h : Sim f u) :
    Sim (submit f problem team_name status time) (submit u problem team_name status time) := by
  obtain ⟨h1, h2⟩ := h
  constructor
  · unfold submit
    exact mapKeys_mapSet_congr str_less team_name _ _ _ _ h1
  · intro n
    rw [getTeam_submit, getTeam_submit, hf, hu]
    by_cases hn : n = team_name
    · simp only [hn, if_true]
      apply teamSim_submit_team _ _ _ _ _ ht
      · obtain ⟨a1, a2, a3⟩ := h2 team_name
        exact ⟨by simp only [a1], a2, a3⟩
      · intro hfr
        have := hfi.2.2 team_name (probKey problem) hfr
        exact ⟨this.1, this.2.1⟩
    · simp only [hn, if_false]
      exact h2 n

theorem teamSim_reveal (A B : Team) (p : Nat) (h : TeamSim A B)
    (hfr : (getProblem A.problems p).frozen = true) : TeamSim (reveal A p).1 B := by
  obtain ⟨h1, h2, h3⟩ := h
  have hmem : p ∈ mapKeys A.problems := by
    rw [mem_mapKeys_iff]
    unfold getProblem at hfr
    cases hm : mapFind A.problems p with
    | none => rw [hm] at hfr; simp at hfr
    | some v => rfl
  refine ⟨?_, ?_, ?_⟩
  · rw [← h1]
    unfold reveal
    simp only [Team.update_sorted_times]
    split_ifs <;> rfl
  · rw [← h2]
    unfold reveal
    simp only [Team.update_sorted_times]
    split_ifs <;> exact mapKeys_mapSet_of_mem char_less _ _ _ hmem
  · intro q
    by_cases hq : q = p
    · subst hq
      obtain ⟨c1, _⟩ := h3 q
      obtain ⟨d1, d2, d3⟩ := c1 hfr
      unfold reveal
      simp only [Team.update_sorted_times]
      unfold ProbSim SameProblem
      by_cases hac : (getProblem A.problems q).first_ac_time_in_freeze = -1
      · obtain ⟨e1, e2⟩ := d2 hac
        simp [hac, getProblem_mapSet, d1, e1, e2]
      · obtain ⟨e1, e2, e3⟩ := d3 hac
        simp [hac, getProblem_mapSet, e1, e2, e3]
    · rw [getProblem_reveal A p q hq]
      exact h3 q

theorem teamSim_ranking_left (A B : Team) (r : Int) (h : TeamSim A B) :
    TeamSim { A with ranking := r } B := h

theorem teamSim_ranking_right (A B : Team) (r : Int) (h : TeamSim A B) :
    TeamSim A { B with ranking := r } := h

theorem sim_update_scoreboard_left (f u : ICPCSystem) (h : Sim f u) :
    Sim (update_scoreboard f) u := by
  refine ⟨by rw [mapKeys_update_scoreboard]; exact h.1, ?_⟩
  intro n
  obtain ⟨r, hr⟩ := getTeam_update_scoreboard f n
  rw [hr]
  exact teamSim_ranking_left _ _ r (h.2 n)

theorem sim_update_scoreboard_right (f u : ICPCSystem) (h : Sim f u) :
    Sim f (update_scoreboard u) := by
  refine ⟨by rw [mapKeys_update_scoreboard]; exact h.1, ?_⟩
  intro n
  obtain ⟨r, hr⟩ := getTeam_update_scoreboard u n
  rw [hr]
  exact teamSim_ranking_right _ _ r (h.2 n)

theorem sim_reveal_state (f u : ICPCSystem) (h : Sim f u) (ho : OrderInv f)
    (hp : ProblemsInv f) (hz : FrozenLetters f) (hl : find_lowest f ≠ "") :
    Sim (reveal_state f) u := by
  have hmem : find_lowest f ∈ mapKeys f.teams := (ho _).1 (find_lowest_spec f hl).1
  refine ⟨by rw [mapKeys_reveal_state f hmem]; exact h.1, ?_⟩
  intro n
  rw [getTeam_reveal_state]
  by_cases hn : n = find_lowest f
  · rw [if_pos hn, hn]
    exact teamSim_reveal _ _ _ (h.2 _) (selected_is_frozen f hp hz hl)
  · rw [if_neg hn]
    exact h.2 n

theorem sim_scroll_step (f f' u : ICPCSystem) (ev : Option RankChange)
    (hs : scroll_step f = some (f', ev)) (h : Sim f u) (ho : OrderInv f)
    (hp : ProblemsInv f) (hz : FrozenLetters f) : Sim f' u := by
  obtain ⟨hl, h1 | h1⟩ := scroll_step_cases f f' ev hs
  · rw [h1.1]; exact sim_reveal_state f u h ho hp hz hl
  · rw [h1.1]; exact sim_update_scoreboard_left _ u (sim_reveal_state f u h ho hp hz hl)

theorem sim_scroll_loop : ∀ (fuel : Nat) (f f' u : ICPCSystem) (evs : List RankChange),
    scroll_loop fuel f = some (f', evs) → Sim f u → OrderInv f → ProblemsInv f →
    FrozenLetters f → Sim f' u
  | 0, _, _, _, _, h, _, _, _, _ => by simp [scroll_loop] at h
  | fuel + 1, f, f', u, evs, h, hsim, ho, hp, hz => by
    simp only [scroll_loop] at h
    cases hstep : scroll_step f with
    | none =>
      simp only [hstep, Option.some.injEq, Prod.mk.injEq] at h
      rw [← h.1]; exact hsim
    | some r =>
      obtain ⟨f1, ev⟩ := r
      simp only [hstep] at h
      cases hloop : scroll_loop fuel f1 with
      | none => simp [hloop] at h
      | some r2 =>
        obtain ⟨f2, evs2⟩ := r2
        simp only [hloop, Option.some.injEq, Prod.mk.injEq] at h
        rw [← h.1]
        exact sim_scroll_loop fuel f1 f2 u evs2 hloop
          (sim_scroll_step f f1 u ev hstep hsim ho hp hz)
          (mapKeys_scroll_step f f1 ev hstep ho).2
          (problemsInv_scroll_step f f1 ev hstep hp)
          (frozenLetters_scroll_step f f1 ev hstep hz)

theorem msum_mapReplace {κ α β : Type} [DecidableEq κ] [AddCommMonoid β] (g : α → β) (k : κ)
    (v old : α) : ∀ (m : List (κ × α)), mapFind m k = some old →
    ((mapReplace k v m).map (fun e => g e.2)).sum + g old = (m.map (fun e => g e.2)).sum + g v
  | [], h => by simp [mapFind] at h
  | (k', v') :: rest, h => by
    by_cases hk : k' = k
    · simp only [mapFind, hk, if_true, Option.some.injEq] at h
      subst h
      simp only [mapReplace, hk, if_true, List.map_cons, List.sum_cons]
      abel
    · simp only [mapFind, hk, if_false] at h
      have ih := msum_mapReplace g k v old rest h
      simp only [mapReplace, hk, if_false, List.map_cons, List.sum_cons]
      rw [add_assoc, ih]
      abel

theorem msum_mapInsertNew {κ α β : Type} [AddCommMonoid β] (g : α → β) (lt : κ → κ → Bool)
    (k : κ) (v : α) : ∀ (m : List (κ × α)),
    ((mapInsertNew lt k v m).map (fun e => g e.2)).sum = (m.map (fun e => g e.2)).sum + g v
  | [] => by simp [mapInsertNew]
  | (k', v') :: rest => by
    by_cases hl : lt k k' = true
    · simp only [mapInsertNew, hl, if_true, List.map_cons, List.sum_cons]
      abel
    · simp only [mapInsertNew, hl, Bool.false_eq_true, if_false, List.map_cons, List.sum_cons,
        msum_mapInsertNew g lt k v rest]
      abel

theorem times_of_set (m : List (Nat × ProblemStatus)) (k : Nat) (v : ProblemStatus) :
    times_of (mapSet char_less m k v) + time_of (getProblem m k) = times_of m + time_of v := by
  unfold times_of mapSet getProblem
  cases hf : mapFind m k with
  | none =>
    simp only [Option.isSome_none, Bool.false_eq_true, if_false, Option.getD_none]
    rw [msum_mapInsertNew time_of char_less k v m]
    have : time_of ({} : ProblemStatus) = 0 := rfl
    rw [this, add_zero]
  | some old =>
    simp only [Option.isSome_some, if_true, Option.getD_some]
    exact msum_mapReplace time_of k v old m hf

theorem times_of_set_same (m : List (Nat × ProblemStatus)) (k : Nat) (v : ProblemStatus)
    (h : time_of v = time_of (getProblem m k)) : times_of (mapSet char_less m k v) = times_of m := by
  have e := times_of_set m k v
  rw [h] at e
  exact add_right_cancel e

theorem times_of_set_new (m : List (Nat × ProblemStatus)) (k : Nat) (v : ProblemStatus)
    (h : (getProblem m k).solved = false) :
    times_of (mapSet char_less m k v) = times_of m + time_of v := by
  have e := times_of_set m k v
  have h0 : time_of (getProblem m k) = 0 := by simp [time_of, h]
  rw [h0, add_zero] at e
  exact e

theorem teamTimes_submit_team (frozen : Bool) (t : Team) (prob : Nat) (status : String)
    (time : Int) (h : TeamTimes t) : TeamTimes (submit_team frozen t prob status time) := by
  obtain ⟨h1, h2⟩ := h
  unfold submit_team
  simp only [Team.update_sorted_times]
  by_cases hsol : (getProblem t.problems prob).solved = true
  · have hsame : ∀ v : ProblemStatus, v.solved = (getProblem t.problems prob).solved →
        v.solve_time = (getProblem t.problems prob).solve_time →
        times_of (mapSet char_less t.problems prob v) = times_of t.problems := by
      intro v e1 e2
      apply times_of_set_same
      simp [time_of, e1, e2]
    by_cases hacc : status = "Accepted"
    · simp only [hsol, hacc, Bool.or_true, if_true, Bool.not_true, Bool.and_false,
        Bool.false_eq_true, if_false, ne_eq, not_true_eq_false]
      exact ⟨h1.trans (hsame _ (by simp [hsol]) (by simp)).symm, h2⟩
    · simp only [hsol, hacc, Bool.or_true, if_true, Bool.not_true, Bool.and_false,
        Bool.false_eq_true, if_false, ne_eq, not_false_eq_true, decide_True,
        decide_False, Bool.false_and]
      exact ⟨h1.trans (hsame _ (by simp [hsol]) (by simp)).symm, h2⟩
  · have hsol' : (getProblem t.problems prob).solved = false := by simpa using hsol
    have hsame : ∀ v : ProblemStatus, v.solved = false →
        times_of (mapSet char_less t.problems prob v) = times_of t.problems := by
      intro v e1
      apply times_of_set_same
      simp [time_of, e1, hsol']
    cases frozen with
    | true =>
      simp only [hsol', Bool.not_true, Bool.or_false, Bool.false_eq_true, if_false,
        Bool.not_false, if_true]
      exact ⟨h1.trans (hsame _ (by split_ifs <;> simp [hsol'])).symm, h2⟩
    | false =>
      by_cases hacc : status = "Accepted"
      · simp only [hsol', hacc, Bool.not_false, Bool.true_or, if_true, decide_True,
          Bool.and_self]
        refine ⟨?_, rfl⟩
        rw [times_of_set_new _ _ _ hsol', ← h1]
        simp [time_of, ← Multiset.coe_add]
      · simp only [hsol', hacc, Bool.not_false, Bool.true_or, if_true, decide_False,
          Bool.false_and, Bool.false_eq_true, if_false, ne_eq, not_false_eq_true]
        exact ⟨h1.trans (hsame _ (by simp)).symm, h2⟩

theorem teamTimes_reveal (t : Team) (p : Nat) (h : TeamTimes t)
    (hu : (getProblem t.problems p).first_ac_time_in_freeze ≠ -1 →
      (getProblem t.problems p).solved = false) : TeamTimes (reveal t p).1 := by
  obtain ⟨h1, h2⟩ := h
  unfold reveal
  simp only [Team.update_sorted_times]
  by_cases hac : (getProblem t.problems p).first_ac_time_in_freeze = -1
  · simp only [hac, ne_eq, not_true_eq_false, if_false]
    refine ⟨h1.trans (times_of_set_same _ _ _ ?_).symm, h2⟩
    simp [time_of]
  · have hs := hu hac
    simp only [hac, ne_eq, not_false_eq_true, if_true]
    refine ⟨?_, rfl⟩
    rw [times_of_set_new _ _ _ hs, ← h1]
    simp [time_of, ← Multiset.coe_add]

theorem timesInv_init : TimesInv {} := by
  intro n
  simp [getTeam, mapFind, TeamTimes, times_of, stable_sort]

theorem timesInv_of_view (s s' : ICPCSystem)
    (hv : ∀ n, ∃ r, getTeam s'.teams n = { getTeam s.teams n with ranking := r })
    (h : TimesInv s) : TimesInv s' := by
  intro n
  obtain ⟨r, hr⟩ := hv n
  rw [hr]
  exact h n

theorem timesInv_update_scoreboard (s : ICPCSystem) (h : TimesInv s) :
    TimesInv (update_scoreboard s) :=
  timesInv_of_view s _ (getTeam_update_scoreboard s) h

theorem timesInv_add_team (s : ICPCSystem) (name : String) (h : TimesInv s) :
    TimesInv (add_team s name).1 := by
  unfold add_team
  split_ifs
  · exact h
  · exact h
  · intro n
    simp only [getTeam_mapSet]
    split_ifs
    · simp [TeamTimes, times_of, stable_sort]
    · exact h n

theorem timesInv_start (s : ICPCSystem) (dur prob_count : Int) (h : TimesInv s) :
    TimesInv (start s dur prob_count).1 := by
  unfold start
  split_ifs
  · exact h
  · exact timesInv_of_view s _ (fun n => getTeam_assign_rankings _ _ _ n) h

theorem timesInv_submit (s : ICPCSystem) (problem team_name status : String) (time : Int)
    (h : TimesInv s) : TimesInv (submit s problem team_name status time) := by
  intro n
  rw [getTeam_submit]
  split_ifs
  · exact teamTimes_submit_team _ _ _ _ _ (h team_name)
  · exact h n

theorem timesInv_reveal_state (s : ICPCSystem) (hf : FreezeInv s) (h : TimesInv s) :
    TimesInv (reveal_state s) := by
  intro n
  rw [getTeam_reveal_state]
  split_ifs
  · refine teamTimes_reveal _ _ (h _) ?_
    intro hac
    have hc := hf.2.2 (find_lowest s) (find_smallest (getTeam s.teams (find_lowest s)))
    have ha := hf.1 (find_lowest s) (find_smallest (getTeam s.teams (find_lowest s)))
    unfold problemOf at hc ha
    cases hfr : (getProblem (getTeam s.teams (find_lowest s)).problems
        (find_smallest (getTeam s.teams (find_lowest s)))).frozen with
    | true => exact ha hfr
    | false => exact absurd (hc hfr).1 hac
  · exact h n

theorem timesInv_scroll_step (s s' : ICPCSystem) (ev : Option RankChange)
    (hs : scroll_step s = some (s', ev)) (hf : FreezeInv s) (h : TimesInv s) : TimesInv s' := by
  obtain ⟨_, h1 | h1⟩ := scroll_step_cases s s' ev hs
  · rw [h1.1]; exact timesInv_reveal_state s hf h
  · rw [h1.1]; exact timesInv_update_scoreboard _ (timesInv_reveal_state s hf h)

theorem timesInv_scroll_loop : ∀ (fuel : Nat) (s s' : ICPCSystem) (evs : List RankChange),
    scroll_loop fuel s = some (s', evs) → FreezeInv s → TimesInv s → TimesInv s'
  | 0, _, _, _, h, _, _ => by simp [scroll_loop] at h
  | fuel + 1, s, s', evs, h, hf, hi => by
    simp only [scroll_loop] at h
    cases hstep : scroll_step s with
    | none =>
      simp only [hstep, Option.some.injEq, Prod.mk.injEq] at h
      rw [← h.1]; exact hi
    | some r =>
      obtain ⟨s1, ev⟩ := r
      simp only [hstep] at h
      cases hloop : scroll_loop fuel s1 with
      | none => simp [hloop] at h
      | some r2 =>
        obtain ⟨s2, evs2⟩ := r2
        simp only [hloop, Option.some.injEq, Prod.mk.injEq] at h
        rw [← h.1]
        exact timesInv_scroll_loop fuel s1 s2 evs2 hloop
          (freezeInv_scroll_step s s1 ev hstep hf) (timesInv_scroll_step s s1 ev hstep hf hi)

theorem timesInv_exec (fuel : Nat) (s : ICPCSystem) (c : Cmd) (s' : ICPCSystem)
    (out : List String) (h : exec fuel s c = some (s', out)) (hf : FreezeInv s)
    (hi : TimesInv s) : TimesInv s' := by
  cases c with
  | add_team name =>
    simp only [exec, Option.some.injEq] at h
    have e : s' = (add_team s name).1 := by rw [h]
    rw [e]; exact timesInv_add_team s name hi
  | start dur prob_count =>
    simp only [exec, Option.some.injEq] at h
    have e : s' = (start s dur prob_count).1 := by rw [h]
    rw [e]; exact timesInv_start s dur prob_count hi
  | submit problem team_name status time =>
    simp only [exec, Option.some.injEq, Prod.mk.injEq] at h
    rw [← h.1]; exact timesInv_submit s problem team_name status time hi
  | flush =>
    simp only [exec, flush, Option.some.injEq, Prod.mk.injEq] at h
    rw [← h.1]; exact timesInv_update_scoreboard s hi
  | freeze =>
    simp only [exec, freeze_scoreboard, Option.some.injEq] at h
    by_cases hfz : s.frozen = true
    · simp only [hfz, if_true, Prod.mk.injEq] at h
      rw [← h.1]; exact hi
    · simp only [hfz, Bool.false_eq_true, if_false, Prod.mk.injEq] at h
      rw [← h.1]; exact hi
  | scroll =>
    simp only [exec, scroll] at h
    by_cases hfz : s.frozen = true
    · simp only [hfz, Bool.not_true, Bool.false_eq_true, if_false] at h
      cases hloop : scroll_loop fuel (update_scoreboard s) with
      | none => simp [hloop] at h
      | some r =>
        obtain ⟨s2, evs⟩ := r
        simp only [hloop, Option.some.injEq, Prod.mk.injEq] at h
        rw [← h.1]
        exact timesInv_scroll_loop fuel _ s2 evs hloop (freezeInv_update_scoreboard s hf)
          (timesInv_update_scoreboard s hi)
    · simp only [hfz, Bool.not_false, if_true, Option.some.injEq, Prod.mk.injEq] at h
      rw [← h.1]; exact hi
  | query_ranking team_name =>
    simp only [exec, Option.some.injEq, Prod.mk.injEq] at h
    rw [← h.1]; exact hi
  | query_submission team_name problem status =>
    simp only [exec, Option.some.injEq, Prod.mk.injEq] at h
    rw [← h.1]; exact hi

/-- In every state the program passes through, when no team is registered under the empty
name, the solve times of every team are those of its solved problems. -/
theorem times_consistent (s : ICPCSystem) (h : Visited s) :
    "" ∉ mapKeys s.teams → FreezeInv s ∧ TimesInv s := by
  induction h with
  | init => exact fun _ => ⟨freezeInv_init, timesInv_init⟩
  | cmd fuel s c s' out _ hx ih =>
    intro hne
    have hne0 : "" ∉ mapKeys s.teams := fun hm => hne (mapKeys_exec fuel s c s' out hx "" hm)
    obtain ⟨hf, hi⟩ := ih hne0
    exact ⟨freezeInv_exec fuel s c s' out hx hf hne0, timesInv_exec fuel s c s' out hx hf hi⟩
  | ranked s _ ih =>
    intro hne
    rw [mapKeys_update_scoreboard] at hne
    obtain ⟨hf, hi⟩ := ih hne
    exact ⟨freezeInv_update_scoreboard s hf, timesInv_update_scoreboard s hi⟩
  | revealed s _ _ ih =>
    intro hne
    have hne0 : "" ∉ mapKeys s.teams := fun hm =>
      hne ((mem_mapKeys_mapSet _ _ _ _ _).2 (Or.inr hm))
    obtain ⟨hf, hi⟩ := ih hne0
    exact ⟨freezeInv_reveal_state s hf, timesInv_reveal_state s hf hi⟩

/-! ### Records that a scoreboard reports alike -/

theorem sameProblem_refl (a : ProblemStatus) : SameProblem a a :=
  ⟨rfl, fun _ => ⟨rfl, rfl⟩, fun _ => rfl⟩

theorem map_eq_of_same {β : Type} (G : ProblemStatus → β)
    (hG : ∀ a b, SameProblem a b → G a = G b) :
    ∀ (m1 m2 : List (Nat × ProblemStatus)), mapKeys m1 = mapKeys m2 → (mapKeys m1).Nodup →
      (∀ p, SameProblem (getProblem m1 p) (getProblem m2 p)) →
      m1.map (fun e => G e.2) = m2.map (fun e => G e.2)
  | [], [], _, _, _ => rfl
  | [], _ :: _, h, _, _ => by simp [mapKeys] at h
  | _ :: _, [], h, _, _ => by simp [mapKeys] at h
  | (k1, a) :: r1, (k2, b) :: r2, h, hnd, hs => by
    simp only [mapKeys, List.map_cons, List.cons.injEq] at h
    obtain ⟨hk, hr⟩ := h
    subst hk
    simp only [mapKeys, List.map_cons, List.nodup_cons] at hnd
    have hhead : G a = G b := by
      have := hs k1
      simp only [getProblem, mapFind, if_true, Option.getD_some] at this
      exact hG a b this
    have htail : ∀ p, SameProblem (getProblem r1 p) (getProblem r2 p) := by
      intro p
      by_cases hp : k1 = p
      · subst hp
        have e1 : getProblem r1 k1 = {} := by
          unfold getProblem
          cases hm : mapFind r1 k1 with
          | none => rfl
          | some v =>
            exact absurd ((mem_mapKeys_iff k1 r1).2 (by rw [hm]; rfl)) hnd.1
        have e2 : getProblem r2 k1 = {} := by
          unfold getProblem
          cases hm : mapFind r2 k1 with
          | none => rfl
          | some v =>
            have : k1 ∈ mapKeys r2 := (mem_mapKeys_iff k1 r2).2 (by rw [hm]; rfl)
            unfold mapKeys at this
            rw [← hr] at this
            exact absurd this hnd.1
        rw [e1, e2]
        exact sameProblem_refl _
      · have := hs p
        simp only [getProblem, mapFind, hp, if_false] at this
        exact this
    have ih := map_eq_of_same G hG r1 r2 hr hnd.2 htail
    simp only [List.map_cons, hhead, ih]

theorem pairwise_insertSorted_desc (a : Int) : ∀ (l : List Int),
    l.Pairwise (fun x y => y ≤ x) →
    (insertSorted (fun a b => decide (b < a)) a l).Pairwise (fun x y => y ≤ x)
  | [], _ => by simp [insertSorted]
  | b :: l, hp => by
    obtain ⟨hb, hl⟩ := List.pairwise_cons.1 hp
    by_cases hc : a < b
    · simp only [insertSorted, hc, decide_True, if_true]
      refine List.pairwise_cons.2 ⟨?_, pairwise_insertSorted_desc a l hl⟩
      intro y hy
      have hy2 := (perm_insertSorted _ a l).subset hy
      rcases List.mem_cons.1 hy2 with e | e
      · rw [e]; omega
      · exact hb y e
    · simp only [insertSorted, hc, decide_False, Bool.false_eq_true, if_false]
      refine List.pairwise_cons.2 ⟨?_, hp⟩
      intro y hy
      rcases List.mem_cons.1 hy with e | e
      · rw [e]; omega
      · have := hb y e
        omega

theorem pairwise_stable_sort_desc : ∀ (l : List Int),
    (stable_sort (fun a b => decide (b < a)) l).Pairwise (fun x y => y ≤ x)
  | [] => by simp [stable_sort]
  | a :: l => by
    have ih := pairwise_stable_sort_desc l
    simp only [stable_sort, List.foldr_cons] at ih ⊢
    exact pairwise_insertSorted_desc a _ ih

theorem stable_sort_desc_perm (l1 l2 : List Int) (h : List.Perm l1 l2) :
    stable_sort (fun a b => decide (b < a)) l1 = stable_sort (fun a b => decide (b < a)) l2 := by
  haveI : IsAntisymm Int (fun x y => y ≤ x) := ⟨fun a b h1 h2 => le_antisymm h2 h1⟩
  refine List.eq_of_perm_of_sorted ?_ (pairwise_stable_sort_desc l1) (pairwise_stable_sort_desc l2)
  exact ((perm_stable_sort _ l1).trans h).trans (perm_stable_sort _ l2).symm

theorem sameProblem_solved_term (a b : ProblemStatus) (h : SameProblem a b) :
    (if a.solved = true then (1 : Int) else 0) = (if b.solved = true then (1 : Int) else 0) := by
  rw [h.1]

theorem sameProblem_penalty_of (a b : ProblemStatus) (h : SameProblem a b) :
    penalty_of a = penalty_of b := by
  obtain ⟨h1, h2, _⟩ := h
  unfold penalty_of
  cases hs : a.solved with
  | true =>
    obtain ⟨e1, e2⟩ := h2 hs
    rw [← h1, hs, e1, e2]
  | false => rw [← h1, hs]; rfl

theorem sameProblem_time_of (a b : ProblemStatus) (h : SameProblem a b) :
    time_of a = time_of b := by
  obtain ⟨h1, h2, _⟩ := h
  unfold time_of
  cases hs : a.solved with
  | true =>
    obtain ⟨e1, _⟩ := h2 hs
    rw [← h1, hs, e1]
  | false => rw [← h1, hs]; rfl

/-- Two team records with the same problem keys whose problems are reported alike have
the same solved count, penalty and sorted solve times, when each is consistent with its
own problems. -/
theorem team_fields_of_same (A B : Team) (hk : mapKeys A.problems = mapKeys B.problems)
    (hnd : (mapKeys A.problems).Nodup)
    (hs : ∀ p, SameProblem (getProblem A.problems p) (getProblem B.problems p))
    (sa : TeamScore A) (sb : TeamScore B) (ta : TeamTimes A) (tb : TeamTimes B) :
    A.solved_count = B.solved_count ∧ A.penalty_time = B.penalty_time
    ∧ A.sorted_solve_times = B.sorted_solve_times := by
  refine ⟨?_, ?_, ?_⟩
  · rw [sa.1, sb.1, solved_number_eq, solved_number_eq,
      map_eq_of_same _ sameProblem_solved_term _ _ hk hnd hs]
  · rw [sa.2, sb.2, penalty_sum_eq, penalty_sum_eq,
      map_eq_of_same _ sameProblem_penalty_of _ _ hk hnd hs]
  · rw [ta.2, tb.2]
    apply stable_sort_desc_perm
    rw [← Multiset.coe_eq_coe, ta.1, tb.1]
    unfold times_of
    rw [map_eq_of_same _ sameProblem_time_of _ _ hk hnd hs]

theorem run_cons_of_exec (fuel : Nat) (s s' : ICPCSystem) (c : Cmd) (cs : List Cmd)
    (out : List String) (h : exec fuel s c = some (s', out)) :
    run fuel s (c :: cs) = run fuel s' cs := by
  simp only [run, h]

theorem run_append (fuel : Nat) : ∀ (l1 l2 : List Cmd) (s s1 : ICPCSystem),
    run fuel s l1 = some s1 → run fuel s (l1 ++ l2) = run fuel s1 l2
  | [], _, s, s1, h => by
    simp only [run, Option.some.injEq] at h
    rw [h]; rfl
  | c :: cs, l2, s, s1, h => by
    simp only [run, List.cons_append] at h ⊢
    cases hx : exec fuel s c with
    | none => simp [hx] at h
    | some r =>
      obtain ⟨s', out⟩ := r
      simp only [hx] at h ⊢
      exact run_append fuel cs l2 s' s1 h

theorem run_submits_fuel (fuel : Nat) : ∀ (L : List Cmd) (s : ICPCSystem),
    (∀ c ∈ L, submit_ok c) → run fuel s L = run 0 s L
  | [], _, _ => rfl
  | c :: cs, s, h => by
    have hc := h c (by simp)
    cases c with
    | submit problem team_name status time =>
      simp only [run, exec]
      exact run_submits_fuel fuel cs _ (fun c' hc' => h c' (List.mem_cons_of_mem _ hc'))
    | add_team name => exact absurd hc (by simp [submit_ok])
    | start dur prob_count => exact absurd hc (by simp [submit_ok])
    | flush => exact absurd hc (by simp [submit_ok])
    | freeze => exact absurd hc (by simp [submit_ok])
    | scroll => exact absurd hc (by simp [submit_ok])
    | query_ranking team_name => exact absurd hc (by simp [submit_ok])
    | query_submission team_name problem status => exact absurd hc (by simp [submit_ok])

theorem scroll_loop_mono : ∀ (fuel : Nat) (s : ICPCSystem) (r : ICPCSystem × List RankChange),
    scroll_loop fuel s = some r → ∀ fuel2, fuel ≤ fuel2 → scroll_loop fuel2 s = some r
  | 0, _, _, h, _, _ => by simp [scroll_loop] at h
  | fuel + 1, s, r, h, fuel2, hle => by
    obtain ⟨f2, rfl⟩ : ∃ f2, fuel2 = f2 + 1 := ⟨fuel2 - 1, by omega⟩
    simp only [scroll_loop] at h ⊢
    cases hstep : scroll_step s with
    | none => simpa [hstep] using h
    | some r1 =>
      obtain ⟨s1, ev⟩ := r1
      simp only [hstep] at h ⊢
      cases hloop : scroll_loop fuel s1 with
      | none => simp [hloop] at h
      | some r2 =>
        rw [scroll_loop_mono fuel s1 r2 hloop f2 (by omega)]
        simpa [hloop] using h

theorem frozenLetters_submit (s : ICPCSystem) (problem team_name status : String) (time : Int)
    (hp : probKey problem ≤ 90) (h : FrozenLetters s) :
    FrozenLetters (submit s problem team_name status time) := by
  intro n p hf
  by_cases hnp : n = team_name ∧ p = probKey problem
  · rw [hnp.2]; exact hp
  · rw [problemOf_submit_ne s problem team_name status time n p hnp] at hf
    exact h n p hf

theorem sim_run : ∀ (L : List Cmd) (f u : ICPCSystem), (∀ c ∈ L, submit_ok c) →
    f.frozen = true → u.frozen = false → FreezeInv f → FrozenLetters f → Sim f u →
    "" ∉ mapKeys f.teams →
    ∃ f' u', run 0 f L = some f' ∧ run 0 u L = some u' ∧ f'.frozen = true ∧ u'.frozen = false
      ∧ FreezeInv f' ∧ FrozenLetters f' ∧ Sim f' u' ∧ "" ∉ mapKeys f'.teams
  | [], f, u, _, hf, hu, hfi, hz, hsim, hne => ⟨f, u, rfl, rfl, hf, hu, hfi, hz, hsim, hne⟩
  | c :: cs, f, u, h, hf, hu, hfi, hz, hsim, hne => by
    have hc := h c (by simp)
    cases c with
    | submit problem team_name status time =>
      simp only [submit_ok] at hc
      obtain ⟨c1, c2, c3⟩ := hc
      simp only [run, exec]
      refine sim_run cs _ _ (fun c' hc' => h c' (List.mem_cons_of_mem _ hc')) hf hu
        (freezeInv_submit f problem team_name status time hfi)
        (frozenLetters_submit f problem team_name status time c2 hz)
        (sim_submit f u problem team_name status time c3 hf hu hfi hsim) ?_
      intro hm
      unfold submit at hm
      rcases (mem_mapKeys_mapSet _ _ _ _ _).1 hm with e | e
      · exact c1 e.symm
      · exact hne e
    | add_team name => exact absurd hc (by simp [submit_ok])
    | start dur prob_count => exact absurd hc (by simp [submit_ok])
    | flush => exact absurd hc (by simp [submit_ok])
    | freeze => exact absurd hc (by simp [submit_ok])
    | scroll => exact absurd hc (by simp [submit_ok])
    | query_ranking team_name => exact absurd hc (by simp [submit_ok])
    | query_submission team_name problem status => exact absurd hc (by simp [submit_ok])

theorem same_of_sim (a u : ICPCSystem) (hsim : Sim a u)
    (hnf : ∀ n p, (problemOf a n p).frozen = false)
    (hra : RankInv a) (hla : LoopInv a) (hsa : SortedInv a) (hpa : ProblemsInv a)
    (hca : ScoreInv a) (hta : TimesInv a)
    (hru : RankInv u) (hlu : LoopInv u) (hsu : SortedInv u)
    (hcu : ScoreInv u) (htu : TimesInv u) :
    a.team_order = u.team_order
    ∧ ∀ n, (getTeam a.teams n).solved_count = (getTeam u.teams n).solved_count
      ∧ (getTeam a.teams n).penalty_time = (getTeam u.teams n).penalty_time
      ∧ (getTeam a.teams n).sorted_solve_times = (getTeam u.teams n).sorted_solve_times
      ∧ (getTeam a.teams n).ranking = (getTeam u.teams n).ranking
      ∧ (getTeam a.teams n).submissions = (getTeam u.teams n).submissions
      ∧ ∀ p, SameProblem (problemOf a n p) (problemOf u n p) := by
  have hsame : ∀ n p, SameProblem (problemOf a n p) (problemOf u n p) :=
    fun n p => ((hsim.2 n).2.2 p).2 (hnf n p)
  have hfields : ∀ n, (getTeam a.teams n).solved_count = (getTeam u.teams n).solved_count
      ∧ (getTeam a.teams n).penalty_time = (getTeam u.teams n).penalty_time
      ∧ (getTeam a.teams n).sorted_solve_times = (getTeam u.teams n).sorted_solve_times :=
    fun n => team_fields_of_same _ _ (hsim.2 n).2.1 (hpa n) (hsame n) (hca n) (hcu n)
      (hta n) (htu n)
  have hord : a.team_order = u.team_order := by
    refine sorted_perm_unique u.teams _ _ ?_ ?_ hsu
    · refine (perm_keys_of_loopInv a hra.1 hla).trans ?_
      rw [hsim.1]
      exact (perm_keys_of_loopInv u hru.1 hlu).symm
    · refine List.Pairwise.imp ?_ hsa
      intro x y hxy
      rw [team_less_of_fields a.teams u.teams x y
        ⟨(hfields x).1.symm, (hfields x).2.1.symm, (hfields x).2.2.symm⟩
        ⟨(hfields y).1.symm, (hfields y).2.1.symm, (hfields y).2.2.symm⟩]
      exact hxy
  refine ⟨hord, fun n => ⟨(hfields n).1, (hfields n).2.1, (hfields n).2.2, ?_,
    (hsim.2 n).1, hsame n⟩⟩
  by_cases hn : n ∈ a.team_order
  · obtain ⟨i, hi, rfl⟩ := List.getElem_of_mem hn
    have h1 := hla.2.2 i hi
    have hi2 : i < u.team_order.length := by rw [← hord]; exact hi
    have h2 := hlu.2.2 i hi2
    simp only [List.get_eq_getElem] at h1 h2
    simp only [← hord] at h2
    rw [h1, h2]
  · have hk1 : n ∉ mapKeys a.teams := fun hm => hn ((hla.1 n).2 hm)
    have hk2 : n ∉ mapKeys u.teams := by rw [← hsim.1]; exact hk1
    rw [getTeam_of_not_mem _ n hk1, getTeam_of_not_mem _ n hk2]

/-- Freezing is transparent to the final result when no team is registered under the
empty name: from a reachable state that is not frozen, a freeze, submissions (by teams
with non-empty names, for letters up to `'Z'`, at times that are not negative) and a
scroll with enough fuel lead to the same result as the same submissions and a flush. -/
theorem freeze_transparent (S : ICPCSystem) (hr : Reachable S) (hnf : S.frozen = false)
    (hne : "" ∉ mapKeys S.teams) (L : List Cmd) (hL : ∀ c ∈ L, submit_ok c) :
    ∃ F U k, (∀ fuel, k < fuel → run fuel S (.freeze :: L ++ [.scroll]) = some F)
      ∧ (∀ fuel, run fuel S (L ++ [.flush]) = some U)
      ∧ SameResult F U ∧ F.frozen = false := by
  obtain ⟨fuel0, cmds, hrun⟩ := hr
  have hv := visited_of_reachable S ⟨fuel0, cmds, hrun⟩
  obtain ⟨hfS, _⟩ := score_consistent S hv hne
  have hx0 : ∀ fuel, exec fuel S .freeze
      = some ({ S with frozen := true }, ["[Info]Freeze scoreboard."]) := by
    intro fuel; simp [exec, freeze_scoreboard, hnf]
  have hfi0 : FreezeInv { S with frozen := true } :=
    freezeInv_exec 0 S .freeze _ _ (hx0 0) hfS hne
  have hz0 : FrozenLetters { S with frozen := true } := by
    intro n p hf
    have h1 : (problemOf S n p).frozen = false := hfS.2.1 hnf n p
    have e : problemOf { S with frozen := true } n p = problemOf S n p := rfl
    rw [e, h1] at hf
    exact absurd hf (by simp)
  have hsim0 : Sim { S with frozen := true } S := by
    refine ⟨rfl, fun n => ⟨rfl, rfl, fun p => ⟨fun hfr => ?_, fun _ => sameProblem_refl _⟩⟩⟩
    have h1 : (problemOf S n p).frozen = false := hfS.2.1 hnf n p
    unfold problemOf at h1
    rw [h1] at hfr
    exact absurd hfr (by simp)
  obtain ⟨f1, u1, r1, r2, hf1, hu1, hfi1, hz1, hsim1, hne1⟩ :=
    sim_run L { S with frozen := true } S hL rfl hnf hfi0 hz0 hsim0 hne
  have hreach1 : Reachable f1 := by
    refine ⟨fuel0, cmds ++ (.freeze :: L), ?_⟩
    rw [run_append fuel0 cmds _ {} S hrun, run_cons_of_exec fuel0 S _ .freeze L _ (hx0 fuel0),
      run_submits_fuel fuel0 L _ hL]
    exact r1
  have hvu1 : Visited u1 := visited_run 0 L S u1 hv r2
  have hret := scroll_returns f1 hreach1 hz1 (frozen_total f1 + 1) (Nat.lt_succ_self _)
  cases hloop : scroll_loop (frozen_total f1 + 1) (update_scoreboard f1) with
  | none =>
    unfold scroll at hret
    simp [hf1, hloop] at hret
  | some r =>
    obtain ⟨s2, evs⟩ := r
    refine ⟨{ s2 with frozen := false }, update_scoreboard u1, frozen_total f1, ?_, ?_, ?_, rfl⟩
    · intro fuel hfuel
      have hl2 := scroll_loop_mono _ _ _ hloop fuel (by omega)
      rw [List.cons_append, run_cons_of_exec fuel S _ .freeze _ _ (hx0 fuel),
        run_append fuel L [.scroll] _ f1 (by rw [run_submits_fuel fuel L _ hL]; exact r1)]
      simp [run, exec, scroll, hf1, hl2]
    · intro fuel
      rw [run_append fuel L [.flush] S u1 (by rw [run_submits_fuel fuel L S hL]; exact r2)]
      simp [run, exec, flush]
    · have hh2 : LoopHead s2 :=
        loopHead_scroll_loop _ _ s2 evs hloop (LoopHead.enter f1 hreach1 hf1)
      have hv2 := visited_of_loopHead s2 hh2
      have hend := scroll_loop_end _ (update_scoreboard f1) s2 evs hloop
        (freezeInv_update_scoreboard f1 hfi1) (orderInv_update_scoreboard f1)
        (by rw [mapKeys_update_scoreboard]; exact hne1)
      have hne2 : "" ∉ mapKeys s2.teams := by
        rw [hend.2.2.1, mapKeys_update_scoreboard]; exact hne1
      have hsim2 : Sim s2 (update_scoreboard u1) :=
        sim_update_scoreboard_right _ _
          (sim_scroll_loop _ _ s2 u1 evs hloop (sim_update_scoreboard_left f1 u1 hsim1)
            (orderInv_update_scoreboard f1)
            (problemsInv_update_scoreboard f1
              (problemsInv_of_visited f1 (visited_of_reachable f1 hreach1)))
            (frozenLetters_update_scoreboard f1 hz1))
      have hneU : "" ∉ mapKeys (update_scoreboard u1).teams := by
        rw [← hsim2.1]; exact hne2
      have hvU : Visited (update_scoreboard u1) := Visited.ranked u1 hvu1
      have hru1 := rankInv_of_visited u1 hvu1
      have res := same_of_sim s2 (update_scoreboard u1) hsim2 hend.2.2.2.2
        (rankInv_of_visited s2 hv2) (loopInv_of_loopHead s2 hh2) (sortedInv_of_loopHead s2 hh2)
        (problemsInv_of_visited s2 hv2) (score_consistent s2 hv2 hne2).2
        (times_consistent s2 hv2 hne2).2
        (rankInv_of_visited _ hvU) (loopInv_update_scoreboard u1 hru1.1)
        (sortedInv_update_scoreboard u1 hru1) (score_consistent _ hvU hneU).2
        (times_consistent _ hvU hneU).2
      exact ⟨res.1, hu1.symm, res.2⟩

/-- An instance of `freeze_transparent`: teams `A` and `B` in a started contest, and an
accepted submission by `B`. -/
theorem freeze_transparent_instance :
    ∃ F U k,
      (∀ fuel, k < fuel →
        run fuel (state_after 0 (cmds_overtake.take 3))
          (.freeze :: [.submit "A" "B" "Accepted" 5] ++ [.scroll]) = some F)
      ∧ (∀ fuel, run fuel (state_after 0 (cmds_overtake.take 3))
          ([.submit "A" "B" "Accepted" 5] ++ [.flush]) = some U)
      ∧ SameResult F U ∧ F.frozen = false :=
  freeze_transparent (state_after 0 (cmds_overtake.take 3))
    (reachable_state_after 0 _ (by decide)) (by decide) (by decide)
    [.submit "A" "B" "Accepted" 5]
    (by
      intro c hc
      rw [List.mem_singleton] at hc
      subst hc
      exact ⟨by decide, by decide, by decide⟩)

/-! ## Submissions of a team that has not submitted before -/

theorem freshInv_init : FreshInv {} := by
  intro n _
  simp [getTeam, mapFind, FreshTeam]

theorem freshInv_of_view (s s' : ICPCSystem)
    (hv : ∀ n, ∃ r, getTeam s'.teams n = { getTeam s.teams n with ranking := r })
    (h : FreshInv s) : FreshInv s' := by
  intro n hn
  obtain ⟨r, hr⟩ := hv n
  rw [hr] at hn ⊢
  exact h n hn

theorem freshInv_update_scoreboard (s : ICPCSystem) (h : FreshInv s) :
    FreshInv (update_scoreboard s) :=
  freshInv_of_view s _ (getTeam_update_scoreboard s) h

theorem freshInv_add_team (s : ICPCSystem) (name : String) (h : FreshInv s) :
    FreshInv (add_team s name).1 := by
  unfold add_team
  split_ifs
  · exact h
  · exact h
  · intro n
    simp only [getTeam_mapSet]
    split_ifs
    · intro _; exact ⟨rfl, rfl, rfl⟩
    · exact h n

theorem freshInv_start (s : ICPCSystem) (dur prob_count : Int) (h : FreshInv s) :
    FreshInv (start s dur prob_count).1 := by
  unfold start
  split_ifs
  · exact h
  · exact freshInv_of_view s _ (fun n => getTeam_assign_rankings _ _ _ n) h

theorem freshInv_submit (s : ICPCSystem) (problem team_name status : String) (time : Int)
    (h : FreshInv s) : FreshInv (submit s problem team_name status time) := by
  intro n
  rw [getTeam_submit]
  split_ifs
  · intro hn
    rw [submissions_submit_team] at hn
    simp at hn
  · exact h n

theorem freshInv_reveal_state (s : ICPCSystem) (hl : find_lowest s ≠ "") (h : FreshInv s) :
    FreshInv (reveal_state s) := by
  intro n
  rw [getTeam_reveal_state]
  split_ifs
  · intro hn
    have hsub : (reveal (getTeam s.teams (find_lowest s))
        (find_smallest (getTeam s.teams (find_lowest s)))).1.submissions
        = (getTeam s.teams (find_lowest s)).submissions := by
      unfold reveal
      simp only [Team.update_sorted_times]
      split_ifs <;> rfl
    rw [hsub] at hn
    have hfresh := h _ hn
    have hfz := (find_lowest_spec s hl).2
    unfold has_frozen at hfz
    rw [hfresh.1] at hfz
    simp at hfz
  · exact h n

theorem freshInv_scroll_step (s s' : ICPCSystem) (ev : Option RankChange)
    (hs : scroll_step s = some (s', ev)) (h : FreshInv s) : FreshInv s' := by
  obtain ⟨hl, h1 | h1⟩ := scroll_step_cases s s' ev hs
  · rw [h1.1]; exact freshInv_reveal_state s hl h
  · rw [h1.1]; exact freshInv_update_scoreboard _ (freshInv_reveal_state s hl h)

theorem freshInv_scroll_loop : ∀ (fuel : Nat) (s s' : ICPCSystem) (evs : List RankChange),
    scroll_loop fuel s = some (s', evs) → FreshInv s → FreshInv s'
  | 0, _, _, _, h, _ => by simp [scroll_loop] at h
  | fuel + 1, s, s', evs, h, hi => by
    simp only [scroll_loop] at h
    cases hstep : scroll_step s with
    | none =>
      simp only [hstep, Option.some.injEq, Prod.mk.injEq] at h
      rw [← h.1]; exact hi
    | some r =>
      obtain ⟨s1, ev⟩ := r
      simp only [hstep] at h
      cases hloop : scroll_loop fuel s1 with
      | none => simp [hloop] at h
      | some r2 =>
        obtain ⟨s2, evs2⟩ := r2
        simp only [hloop, Option.some.injEq, Prod.mk.injEq] at h
        rw [← h.1]
        exact freshInv_scroll_loop fuel s1 s2 evs2 hloop (freshInv_scroll_step s s1 ev hstep hi)

theorem freshInv_exec (fuel : Nat) (s : ICPCSystem) (c : Cmd) (s' : ICPCSystem)
    (out : List String) (h : exec fuel s c = some (s', out)) (hi : FreshInv s) :
    FreshInv s' := by
  cases c with
  | add_team name =>
    simp only [exec, Option.some.injEq] at h
    have e : s' = (add_team s name).1 := by rw [h]
    rw [e]; exact freshInv_add_team s name hi
  | start dur prob_count =>
    simp only [exec, Option.some.injEq] at h
    have e : s' = (start s dur prob_count).1 := by rw [h]
    rw [e]; exact freshInv_start s dur prob_count hi
  | submit problem team_name status time =>
    simp only [exec, Option.some.injEq, Prod.mk.injEq] at h
    rw [← h.1]; exact freshInv_submit s problem team_name status time hi
  | flush =>
    simp only [exec, flush, Option.some.injEq, Prod.mk.injEq] at h
    rw [← h.1]; exact freshInv_update_scoreboard s hi
  | freeze =>
    simp only [exec, freeze_scoreboard, Option.some.injEq] at h
    by_cases hfz : s.frozen = true
    · simp only [hfz, if_true, Prod.mk.injEq] at h
      rw [← h.1]; exact hi
    · simp only [hfz, Bool.false_eq_true, if_false, Prod.mk.injEq] at h
      rw [← h.1]; exact hi
  | scroll =>
    simp only [exec, scroll] at h
    by_cases hfz : s.frozen = true
    · simp only [hfz, Bool.not_true, Bool.false_eq_true, if_false] at h
      cases hloop : scroll_loop fuel (update_scoreboard s) with
      | none => simp [hloop] at h
      | some r =>
        obtain ⟨s2, evs⟩ := r
        simp only [hloop, Option.some.injEq, Prod.mk.injEq] at h
        rw [← h.1]
        exact freshInv_scroll_loop fuel _ s2 evs hloop (freshInv_update_scoreboard s hi)
    · simp only [hfz, Bool.not_false, if_true, Option.some.injEq, Prod.mk.injEq] at h
      rw [← h.1]; exact hi
  | query_ranking team_name =>
    simp only [exec, Option.some.injEq, Prod.mk.injEq] at h
    rw [← h.1]; exact hi
  | query_submission team_name problem status =>
    simp only [exec, Option.some.injEq, Prod.mk.injEq] at h
    rw [← h.1]; exact hi

theorem freshInv_of_visited (s : ICPCSystem) (h : Visited s) : FreshInv s := by
  induction h with
  | init => exact freshInv_init
  | cmd fuel s c s' out _ hx ih => exact freshInv_exec fuel s c s' out hx ih
  | ranked s _ ih => exact freshInv_update_scoreboard s ih
  | revealed s _ hl ih => exact freshInv_reveal_state s hl ih

/-- Claim C5: while the global mode is not frozen, after any sequence of submissions by a
team that had no accounting before (no problem record, solved count 0, penalty 0,
whatever its rank), a problem is solved iff the sequence holds an Accepted submission
for it; then `solve_time` is the time of the first such submission and
`wrong_before_solve` the number of submissions for the problem with another verdict
before it; the team's penalty is the sum of `20 * wrong_before_solve + solve_time` over
its solved problems and its solved count their number.  In every reachable state every
team that has not submitted yet is such a team, in particular a registered team after
the start of the contest.  In the spec's scenario (teams `A` and `B` registered, contest
started, `A` wrong at 10 and accepted at 20) team `A` has solved count 1 and penalty 40. -/
theorem unfrozen_submissions :
    (∀ (s : ICPCSystem) (team_name : String) (subs : List Submission),
      s.frozen = false → FreshTeam (getTeam s.teams team_name) →
      (submit_all s team_name subs).frozen = false
      ∧ (∀ p : Nat,
          (problemOf (submit_all s team_name subs) team_name p).solved = true
            ↔ ∃ x ∈ subs, probKey x.problem = p ∧ x.status = "Accepted")
      ∧ (∀ (p : Nat) (pre : List Submission) (x : Submission) (post : List Submission),
          subs = pre ++ x :: post → probKey x.problem = p → x.status = "Accepted" →
          (∀ y ∈ pre, probKey y.problem = p → y.status ≠ "Accepted") →
          (problemOf (submit_all s team_name subs) team_name p).solved = true
          ∧ (problemOf (submit_all s team_name subs) team_name p).solve_time = x.time
          ∧ (problemOf (submit_all s team_name subs) team_name p).wrong_before_solve
              = (pre.countP (is_wrong_for p) : Int))
      ∧ (getTeam (submit_all s team_name subs).teams team_name).penalty_time
          = penalty_sum (getTeam (submit_all s team_name subs).teams team_name).problems
      ∧ (getTeam (submit_all s team_name subs).teams team_name).solved_count
          = (solved_number (getTeam (submit_all s team_name subs).teams team_name).problems
              : Int))
    ∧ (∀ (s : ICPCSystem) (team_name : String), Reachable s →
        (getTeam s.teams team_name).submissions = [] →
        FreshTeam (getTeam s.teams team_name))
    ∧ ((run 0 {} (scenario_AB.take 3)).isSome = true
      ∧ state_registered_AB.started = true
      ∧ state_registered_AB.frozen = false
      ∧ (mapFind state_registered_AB.teams "A").isSome = true
      ∧ (getTeam state_registered_AB.teams "A").ranking = 1
      ∧ (getTeam state_registered_AB.teams "A").submissions = []
      ∧ (getTeam (submit_all state_registered_AB "A"
          [⟨"A", "Wrong_Answer", 10⟩, ⟨"A", "Accepted", 20⟩]).teams "A").solved_count = 1
      ∧ (getTeam (submit_all state_registered_AB "A"
          [⟨"A", "Wrong_Answer", 10⟩, ⟨"A", "Accepted", 20⟩]).teams "A").penalty_time = 40) := by
  refine ⟨?_, ?_, by decide⟩
  · intro s team_name subs hf hfresh
    obtain ⟨hprob, hpen, hcnt⟩ := unfrozenInv_submit_all s team_name hf hfresh subs
    refine ⟨by rw [frozen_submit_all]; exact hf, fun p => (hprob p).1, ?_, hpen, hcnt⟩
    intro p pre x post hd hxp hxa hpre
    have h3 := (hprob p).2.2 pre x post hd hxp hxa hpre
    refine ⟨?_, h3.1, h3.2⟩
    exact ((hprob p).1).2 ⟨x, by rw [hd]; simp, hxp, hxa⟩
  · intro s team_name hr hsub
    exact freshInv_of_visited s (visited_of_reachable s hr) team_name hsub

/-- An instance of `unfrozen_submissions`: in the started contest of the spec's scenario
team `A`, which has rank 1 and has not submitted, is wrong on problem `A` at 10 and
accepted at 20; the problem is solved at time 20 with one wrong attempt before. -/
theorem unfrozen_submissions_witness :
    (problemOf (submit_all state_registered_AB "A"
        [⟨"A", "Wrong_Answer", 10⟩, ⟨"A", "Accepted", 20⟩]) "A" 65).solved = true
    ∧ (problemOf (submit_all state_registered_AB "A"
        [⟨"A", "Wrong_Answer", 10⟩, ⟨"A", "Accepted", 20⟩]) "A" 65).solve_time = 20
    ∧ (problemOf (submit_all state_registered_AB "A"
        [⟨"A", "Wrong_Answer", 10⟩, ⟨"A", "Accepted", 20⟩]) "A" 65).wrong_before_solve = 1 :=
  (unfrozen_submissions.1 state_registered_AB "A"
      [⟨"A", "Wrong_Answer", 10⟩, ⟨"A", "Accepted", 20⟩] (by decide)
      (unfrozen_submissions.2.1 state_registered_AB "A"
        (reachable_state_after 0 (scenario_AB.take 3) (by decide)) (by decide))).2.2.1 65
    [⟨"A", "Wrong_Answer", 10⟩] ⟨"A", "Accepted", 20⟩ [] rfl rfl rfl (by decide)

end ICPC
